import Mathlib

/-! # The virtual-instrument acquisition engine of `libsigrok4DSL/hardware/demo/demo.c`

A shallow embedding of the demo driver's tick handler `receive_data`, of the
sample synthesizer `samples_generator` it calls, of the configuration helpers
`adjust_samplerate` and `probe_init`, and of the mode table `channel_modes`,
followed by the properties proved about them.

Conventions of the embedding.

* Machine integers are natural numbers; every C operation that can wrap is
  written with its modulus (`U64` for `uint64_t`, `U16` for `uint16_t`).
* The sample buffer `devc->buf` is a map from word index to `uint16_t` word; it
  persists from tick to tick, as the C buffer does.
* `double` arithmetic is not modelled bit for bit.  The one `double` value the
  pacing depends on, `ceil(elapsed / 1000000.0 * cur_samplerate)`, is a field
  of the environment (`Env.ceil_samples`), so that every universally stated
  property holds for any rounding behaviour; `ceil_exact` is its reading in
  exact arithmetic.  The synthesizer's `double` expressions are read in exact
  rational arithmetic; statements about the values they take are made where
  that reading is what the doubles compute (`ExactStride`, a `vdiv` dividing
  1000, values in the range of the target type).
* `rand()` is an input of the tick: `rnd k` is the result of the `k`-th call
  made during that tick.
* The measurement statistics kept in `devc->mstatus` by `samples_generator`
  (max/min and cycle fields) are embedded apart from the acquisition state, in
  `Measure` and `samples_generator_measure`; `State.mstatus` carries the fields
  written by `receive_data` itself.
-/

namespace Demo

/-! ## Machine words -/

/-- Modulus of `uint64_t` arithmetic. -/
def U64 : Nat := 2 ^ 64

/-- Modulus of `uint16_t` arithmetic. -/
def U16 : Nat := 2 ^ 16

/-- The `for (i = 0; i < n; i++) body` loop over a loop state. -/
def forLoop {σ : Type} (body : Nat → σ → σ) : Nat → σ → σ
  | 0, st => st
  | n + 1, st => body n (forLoop body n st)

/-- Store of one word: `*(buf + i) = v`. -/
def poke (buf : Nat → Nat) (i v : Nat) : Nat → Nat :=
  fun j => if j = i then v else buf j

/-! ## Modes and the capability table (demo.c lines 53-65) -/

/-- The device mode `sdi->mode`. -/
inductive Mode
  | LOGIC
  | DSO
  | ANALOG
  deriving DecidableEq

/-- Index into `channel_modes` (`devc->ch_mode`). -/
inductive DEMO_CHANNEL_ID
  | DEMO_LOGIC100x16
  | DEMO_ANALOG10x2
  | DEMO_DSO200x2
  deriving DecidableEq

/-- The rate and count unit helpers of the driver framework. -/
def SR_HZ (n : Nat) : Nat := n

/-- Kilohertz. -/
def SR_KHZ (n : Nat) : Nat := n * 1000

/-- Megahertz. -/
def SR_MHZ (n : Nat) : Nat := n * 1000000

/-- Thousands of samples. -/
def SR_Kn (n : Nat) : Nat := n * 1000

/-- Millions of samples. -/
def SR_Mn (n : Nat) : Nat := n * 1000000

/-- One row of `channel_modes` (`struct DEMO_channels`, without the id, the
channel type and the description string). -/
structure DEMO_channels where
  mode : Mode
  num : Nat
  unit_bits : Nat
  default_samplerate : Nat
  default_samplelimit : Nat
  min_samplerate : Nat
  max_samplerate : Nat
  deriving DecidableEq

/-- The table `channel_modes[]`, indexed by `ch_mode`. -/
def channel_modes : DEMO_CHANNEL_ID → DEMO_channels
  | .DEMO_LOGIC100x16 =>
      { mode := .LOGIC, num := 16, unit_bits := 1, default_samplerate := SR_MHZ 1,
        default_samplelimit := SR_Mn 1, min_samplerate := SR_KHZ 10,
        max_samplerate := SR_MHZ 100 }
  | .DEMO_ANALOG10x2 =>
      { mode := .ANALOG, num := 2, unit_bits := 8, default_samplerate := SR_MHZ 1,
        default_samplelimit := SR_Mn 1, min_samplerate := SR_HZ 10,
        max_samplerate := SR_MHZ 10 }
  | .DEMO_DSO200x2 =>
      { mode := .DSO, num := 2, unit_bits := 8, default_samplerate := SR_MHZ 100,
        default_samplelimit := SR_Kn 10, min_samplerate := SR_HZ 100,
        max_samplerate := SR_MHZ 200 }

/-- Chunk size for Logic and Analog: `#define BUFSIZE 512*1024`. -/
def BUFSIZE : Nat := 512 * 1024

/-- Chunk size for the oscilloscope: `#define DSO_BUFSIZE 10*1024`. -/
def DSO_BUFSIZE : Nat := 10 * 1024

/-! ## Channels, status, state, packets -/

/-- Channel coupling codes. -/
def SR_DC_COUPLING : Nat := 0

/-- AC coupling. -/
def SR_AC_COUPLING : Nat := 1

/-- A probe (`struct sr_channel`): the fields the driver reads and writes. -/
structure sr_channel where
  index : Nat := 0
  enabled : Bool := true
  bits : Nat := 8
  vdiv : Nat := 1000
  vfactor : Nat := 1
  coupling : Nat := SR_AC_COUPLING
  trig_value : Nat := 128
  hw_offset : Nat := 128
  deriving DecidableEq

/-- The fields of `devc->mstatus` written by `receive_data` (all `uint8_t`). -/
structure sr_status where
  trig_hit : Nat := 0
  captured_cnt0 : Nat := 0
  captured_cnt1 : Nat := 0
  captured_cnt2 : Nat := 0
  captured_cnt3 : Nat := 0
  deriving DecidableEq

/-- The waveform selected by `devc->sample_generator`. -/
inductive Pattern
  | PATTERN_SINE
  | PATTERN_SQUARE
  | PATTERN_TRIANGLE
  | PATTERN_SAWTOOTH
  | PATTERN_RANDOM
  | PATTERN_OTHER
  deriving DecidableEq

/-- The acquisition state: `struct demo_context` together with the fields of
`sdi` the tick reads (`mode`, `channels`) and the function-static
`last_sample` of `receive_data`. -/
structure State where
  mode : Mode := .LOGIC
  channels : List sr_channel := []
  ch_mode : DEMO_CHANNEL_ID := .DEMO_LOGIC100x16
  sample_generator : Pattern := .PATTERN_SINE
  cur_samplerate : Nat := 0
  limit_samples : Nat := 0
  limit_samples_show : Nat := 0
  samples_counter : Nat := 0
  samples_not_sent : Nat := 0
  pre_index : Nat := 0
  starttime : Int := 0
  stop : Bool := false
  instant : Bool := false
  buf : Nat → Nat := fun _ => 0
  trigger_stage : Nat := 0
  trigger_mask : Nat := 0
  trigger_value : Nat := 0
  trigger_edge : Nat := 0
  last_sample : Nat := 0
  mstatus : sr_status := {}

/-- A packet handed to `ds_data_forward`.  The data packets point at
`devc->buf`; what they carry by value is their length. -/
inductive Packet
  | SR_DF_TRIGGER (real_pos : Nat)
  | SR_DF_LOGIC (length : Nat)
  | SR_DF_DSO (num_samples : Nat)
  | SR_DF_ANALOG (num_samples : Nat) (unit_bits : Nat)
  | SR_DF_END
  deriving DecidableEq

/-- Whether a packet is a Trigger packet. -/
def Packet.is_trigger : Packet → Bool
  | .SR_DF_TRIGGER _ => true
  | _ => false

/-- Whether a packet is the data packet of a mode. -/
def Packet.is_data : Packet → Bool
  | .SR_DF_LOGIC _ => true
  | .SR_DF_DSO _ => true
  | .SR_DF_ANALOG _ _ => true
  | _ => false

/-- What does not live in `devc`: the waveform tables of demo.h with their
common length `len = ARRAY_SIZE(sinx) - 1` and DC bias `const_dc`, and the
value `(uint64_t)ceil(elapsed / 1000000.0 * cur_samplerate)` as a function of
`elapsed` (microseconds) and `cur_samplerate`. -/
structure Env where
  sinx : Nat → Int
  sqrx : Nat → Int
  trix : Nat → Int
  sawx : Nat → Int
  ranx : Nat → Int
  len : Nat
  const_dc : Int
  ceil_samples : Int → Nat → Nat

/-- The reading of `ceil(elapsed / 1000000.0 * cur_samplerate)` in exact
arithmetic, converted to an unsigned count.  The `double` product of the code
can come out above or below the exact product (70000 microseconds at 100 Hz
give 7.000000000000001, hence 8 and not 7), so `ceil_exact` is what the code
computes only where the product is exact; statements that need it say so, tick
by tick. -/
def ceil_exact (elapsed : Int) (cur_samplerate : Nat) : Nat :=
  (-((-(elapsed * (cur_samplerate : Int))) / 1000000)).toNat

/-- One invocation of the tick: the monotonic clock reading and the results of
the calls of `rand()` made during it. -/
structure Tick where
  time : Int
  rnd : Nat → Nat := fun _ => 0

/-! ## en_ch_num (demo.c lines 370-382) -/

/-- Number of enabled channels: `channel_en_cnt += probe->enabled`. -/
def en_ch_num (channels : List sr_channel) : Nat :=
  channels.foldl (fun cnt probe => cnt + (if probe.enabled then 1 else 0)) 0

/-! ## The trigger matcher (demo.c lines 1018-1047) -/

/-- Level comparison of line 1021: `(sample | mask) == (value | mask)`. -/
def level_match (sample mask value : Nat) : Bool :=
  (sample ||| mask) == (value ||| mask)

/-- Edge comparison of lines 1028-1033; `~value` is taken on the 16 bits of a
sample word, which is all that `& trigger_edge` lets through. -/
def edge_match (last cur mask value edge : Nat) : Bool :=
  ((last &&& edge) == ((65535 ^^^ value) &&& edge)) &&
  ((cur ||| mask) == (value ||| mask)) &&
  ((cur &&& edge) == (value &&& edge))

/-- Outcome of the scan loop: whether it left by `break`, the value of `i`
after the loop, and the value of `last_sample` after the loop. -/
structure Scan where
  hit : Bool
  i : Nat
  last_sample : Nat
  deriving DecidableEq

/-- The loop `for (i = 0; i < sending_now; i++)` of lines 1019-1039, entered at
index `i` with `n` iterations left. -/
def trigger_scan (buf : Nat → Nat) (mask value edge : Nat) : Nat → Nat → Nat → Scan
  | 0, i, last => { hit := false, i := i, last_sample := last }
  | n + 1, i, last =>
    if edge = 0 then
      if level_match (buf i) mask value then
        { hit := true, i := i, last_sample := last }
      else trigger_scan buf mask value edge n (i + 1) last
    else
      if edge_match last (buf i) mask value edge then
        { hit := true, i := i, last_sample := last }
      else trigger_scan buf mask value edge n (i + 1) (buf i)

/-- Lines 1018-1047: scan the first `sending_now` words when the trigger is
armed and forward a Trigger packet when the stage has dropped to zero. -/
def trigger_phase (s : State) (sending_now : Nat) : State × List Packet :=
  if s.trigger_stage ≠ 0 then
    let r := trigger_scan s.buf s.trigger_mask s.trigger_value s.trigger_edge
      sending_now 0 s.last_sample
    let s1 := { s with
      trigger_stage := if r.hit then 0 else s.trigger_stage
      last_sample := r.last_sample }
    if s1.trigger_stage = 0 then (s1, [Packet.SR_DF_TRIGGER r.i]) else (s1, [])
  else (s, [])

/-! ## samples_generator (demo.c lines 788-949) -/

/-- The table chosen by the `switch (devc->sample_generator)` of lines 802-821. -/
def pre_buf (env : Env) : Pattern → Nat → Int
  | .PATTERN_SINE => env.sinx
  | .PATTERN_SQUARE => env.sqrx
  | .PATTERN_TRIANGLE => env.trix
  | .PATTERN_SAWTOOTH => env.sawx
  | .PATTERN_RANDOM => env.ranx
  | .PATTERN_OTHER => env.sinx

/-- Line 800: `ch_num = en_ch_num(sdi) ? en_ch_num(sdi) : 1`. -/
def ch_num (s : State) : Nat :=
  if en_ch_num s.channels ≠ 0 then en_ch_num s.channels else 1

/-- One iteration of the Logic loop (lines 827-837).  The loop state is the
buffer and the number of calls of `rand()` made so far. -/
def logic_step (c : Nat) (rnd : Nat → Nat) (i : Nat) (st : (Nat → Nat) × Nat) :
    (Nat → Nat) × Nat :=
  if i < c * 4 then (poke st.1 i 0, st.2)
  else if i % 4 = 0 then
    let start_rand := rnd st.2 % (c * 4)
    let tmp_u16 := if start_rand = i / 4 % c then 65535 else 0
    let old := st.1 (i - c * 4)
    (poke st.1 i (if tmp_u16 ≠ 0 then (65535 ^^^ old) % U16 else old), st.2 + 1)
  else (poke st.1 i (st.1 (i - 1)), st.2)

/-- Lines 840-847: the table stride.  The oscilloscope quotients are `uint64_t`
divisions; the Analog one is a `double` division. -/
def span (env : Env) (s : State) : ℚ :=
  if s.mode = .DSO then
    if ch_num s = 1 then
      ((2 * (channel_modes s.ch_mode).max_samplerate % U64 / s.cur_samplerate : Nat) : ℚ)
    else
      (((channel_modes s.ch_mode).max_samplerate / s.cur_samplerate : Nat) : ℚ)
  else if s.mode = .ANALOG then
    (env.len : ℚ) * 20 / (s.limit_samples : ℚ)
  else 1

/-- Conversion of a `double` to an unsigned integer type: the fraction is
dropped (towards zero). -/
def trunc (q : ℚ) : Int :=
  if 0 ≤ q then Rat.floor q else -Rat.floor (-q)

/-- Line 870: `start_rand = devc->pre_index * span` (an `unsigned int`). -/
def start_rand (env : Env) (s : State) : Nat :=
  (trunc ((s.pre_index : ℚ) * span env s)).toNat % 2 ^ 32

/-- The table index `(uint64_t)(i*span+start_rand) % len` of lines 876 and 878,
with the `double` sum read in exact arithmetic.  It is the index the code
computes where that arithmetic is exact and the conversions are in range
(`ExactStride`); statements about the entry read are made there. -/
def table_index (env : Env) (s : State) (i : Nat) : Nat :=
  (trunc ((i : ℚ) * span env s + (start_rand env s : ℚ))).toNat % U64 % env.len

/-- The `(uint8_t)` conversion of a `double`. -/
def to_uint8 (q : ℚ) : Nat :=
  (trunc q % 256).toNat

/-- The value a channel adds at index `i` before it is shifted into place
(lines 875-881), with the `double` expression read in exact arithmetic and
reduced to 8 bits.  It is the byte the code computes where `vdiv` is not zero
and divides 1000, the table index is exact and the expression lies in 0..255;
statements about the value of the byte are made there. -/
def channel_value (env : Env) (s : State) (probe : sr_channel) (i : Nat) : Nat :=
  if probe.coupling = SR_DC_COUPLING then
    to_uint8 ((probe.hw_offset : ℚ) + (1000 / (probe.vdiv : ℚ)) *
      ((pre_buf env s.sample_generator (table_index env s i) - env.const_dc : Int) : ℚ))
  else if probe.coupling = SR_AC_COUPLING then
    to_uint8 ((probe.hw_offset : ℚ) + (1000 / (probe.vdiv : ℚ)) *
      ((pre_buf env s.sample_generator (table_index env s i) : Int) : ℚ))
  else probe.hw_offset

/-- One iteration of the inner loop of lines 874-882:
`*(buf + i) += value << (probe->index * 8)` on a `uint16_t` word. -/
def channel_step (env : Env) (s : State) (probe : sr_channel) (i : Nat)
    (buf : Nat → Nat) : Nat → Nat :=
  poke buf i ((buf i + channel_value env s probe i * 2 ^ (probe.index * 8)) % U16)

/-- The `memset(buf, 0, size*sizeof(uint16_t))` of lines 864-867. -/
def memset0 (buf : Nat → Nat) (size : Nat) : Nat → Nat :=
  fun j => if j < size then 0 else buf j

/-- The buffer written by `samples_generator(buf, size, sdi, devc)`. -/
def samples_generator (env : Env) (rnd : Nat → Nat) (s : State) (size : Nat) : State :=
  if s.mode = .LOGIC then
    { s with buf := (forLoop (logic_step (ch_num s) rnd) size (s.buf, 0)).1 }
  else
    let filled := s.channels.foldl
      (fun buf probe => forLoop (channel_step env s probe) size buf)
      (memset0 s.buf size)
    { s with buf := filled }

/-! ## receive_data (demo.c lines 952-1110) -/

/-- Modelled from the spec: `hw_dev_acquisition_stop` forwards to
`dev_acquisition_stop_file` of demo_file.c, which is not among the sources.
The spec makes it idempotent: a call while already stopped does nothing, any
other call sets the stop flag and emits exactly one End packet. -/
def hw_dev_acquisition_stop (s : State) : State × List Packet :=
  if s.stop then (s, []) else ({ s with stop := true }, [Packet.SR_DF_END])

/-- Result of lines 978-995. -/
inductive Pacing
  | early (s : State)
  | due (s : State) (samples_to_send : Nat)

/-- Lines 984-985 with `c = (uint64_t)ceil(samples_elaspsed)`: the pending count
`samples_to_send = ceil(...); samples_to_send += devc->samples_not_sent`. -/
def logic_pending (s : State) (c : Nat) : Nat :=
  (c % U64 + s.samples_not_sent) % U64

/-- Lines 978-995 with `c = (uint64_t)ceil(samples_elaspsed)`: the number of
samples to send, or the early return of line 988.  `~63` is the `uint64_t`
mask `2^64 - 64`. -/
def pacing (s : State) (c : Nat) : Pacing :=
  if s.limit_samples ≠ 0 then
    if s.mode = .DSO ∧ s.instant = false then .due s (c % U64)
    else if s.mode = .ANALOG then .due s (c % U64)
    else
      if logic_pending s c < 64 then .early { s with samples_not_sent := logic_pending s c }
      else
        .due { s with samples_not_sent := logic_pending s c &&& 63 }
          (min (logic_pending s c &&& (U64 - 64))
            ((s.limit_samples + U64 - s.samples_counter) % U64))
  else .due s 0

/-- Lines 999-1009: the counter update for a batch of `sending_now` samples. -/
def advance_counter (s : State) (sending_now : Nat) : State :=
  if s.mode = .DSO ∧ s.instant = false then
    if en_ch_num s.channels = 1 then
      let cnt := (s.samples_counter + sending_now / 2) % U64
      { s with samples_counter := min cnt (s.limit_samples_show / 2) }
    else
      let cnt := (s.samples_counter + sending_now) % U64
      { s with samples_counter := min cnt s.limit_samples_show }
  else
    { s with samples_counter := (s.samples_counter + sending_now) % U64 }

/-- Lines 1011-1016: the size handed to `samples_generator`. -/
def generator_size (s : State) (sending_now : Nat) : Nat :=
  if s.mode = .ANALOG then sending_now * 2
  else if s.mode = .DSO then s.samples_counter
  else sending_now

/-- The `dso.num_samples` of lines 1061-1066. -/
def dso_num_samples (s : State) (sending_now : Nat) : Nat :=
  let n := if s.instant then sending_now else s.samples_counter
  if en_ch_num s.channels = 1 then n * 2 else n

/-- Lines 1051-1081: the data packet of the mode. -/
def data_packet (s : State) (sending_now : Nat) : Packet :=
  if s.mode = .LOGIC then
    .SR_DF_LOGIC (sending_now * ((channel_modes s.ch_mode).num >>> 3) % U64)
  else if s.mode = .DSO then .SR_DF_DSO (dso_num_samples s sending_now)
  else .SR_DF_ANALOG sending_now (channel_modes s.ch_mode).unit_bits

/-- Lines 1083-1090: the pacing cursor. -/
def advance_pre_index (s : State) (sending_now : Nat) : State :=
  if s.mode = .DSO ∧ s.instant = false then
    if dso_num_samples s sending_now < s.limit_samples_show then { s with pre_index := 0 }
    else { s with pre_index := (s.pre_index + sending_now) % U64 }
  else if s.mode = .ANALOG then { s with pre_index := (s.pre_index + sending_now) % U64 }
  else s

/-- Lines 1094-1098: the status snapshot after a forwarded data packet. -/
def update_mstatus (s : State) : State :=
  { s with mstatus :=
      { trig_hit := if s.trigger_stage = 0 then 1 else 0
        captured_cnt0 := s.samples_counter % 256
        captured_cnt1 := (s.samples_counter >>> 8) % 256
        captured_cnt2 := (s.samples_counter >>> 16) % 256
        captured_cnt3 := (s.samples_counter >>> 32) % 256 } }

/-- Lines 1049-1099: forward the data packet once the trigger is satisfied. -/
def data_phase (s : State) (sending_now : Nat) : State × List Packet :=
  if s.trigger_stage = 0 then
    (update_mstatus (advance_pre_index s sending_now), [data_packet s sending_now])
  else (s, [])

/-- Lines 997-1100: the emission of a batch. -/
def emit (env : Env) (rnd : Nat → Nat) (s : State) (samples_to_send : Nat) :
    State × List Packet :=
  if 0 < samples_to_send ∧ s.stop = false then
    let sending_now := min samples_to_send (if s.mode = .DSO then DSO_BUFSIZE else BUFSIZE)
    let s1 := advance_counter s sending_now
    let s2 := samples_generator env rnd s1 (generator_size s1 sending_now)
    let t := trigger_phase s2 sending_now
    let d := data_phase t.1 sending_now
    (d.1, t.2 ++ d.2)
  else (s, [])

/-- What one call of `receive_data` leaves behind: the new state, the packets
forwarded in order, whether `hw_dev_acquisition_stop` was called, and the
return value. -/
structure TickResult where
  state : State
  packets : List Packet
  stop_called : Bool
  ret : Bool

/-- The stop test of line 1102-1103. -/
def limit_reached (s : State) : Bool :=
  (s.mode = .LOGIC ∨ s.instant = true) ∧ s.limit_samples ≠ 0 ∧
    s.limit_samples ≤ s.samples_counter

/-- Lines 1102-1109. -/
def finish (r : State × List Packet) : TickResult :=
  if limit_reached r.1 then
    let e := hw_dev_acquisition_stop r.1
    { state := e.1, packets := r.2 ++ e.2, stop_called := true, ret := true }
  else { state := r.1, packets := r.2, stop_called := false, ret := true }

/-- The tick handler `receive_data`. -/
def receive_data (env : Env) (s : State) (tk : Tick) : TickResult :=
  let elapsed := tk.time - s.starttime
  let s0 := { s with starttime := tk.time }
  match pacing s0 (env.ceil_samples elapsed s0.cur_samplerate) with
  | .early s1 => { state := s1, packets := [], stop_called := false, ret := true }
  | .due s1 samples_to_send => finish (emit env tk.rnd s1 samples_to_send)

/-- The states after each tick of a sequence, in order. -/
def trace (env : Env) : State → List Tick → List TickResult
  | _, [] => []
  | s, tk :: rest =>
    let r := receive_data env s tk
    r :: trace env r.state rest

/-- The state after a sequence of ticks. -/
def run (env : Env) : State → List Tick → State
  | s, [] => s
  | s, tk :: rest => run env (receive_data env s tk).state rest

/-! ## Predicates and sample inputs used in the statements -/

/-- The sample preceding index `j` in a scan entered at index `i` with carried
sample `last`. -/
def prev_sample (buf : Nat → Nat) (i last j : Nat) : Nat :=
  if j = i then last else buf (j - 1)

/-- The edge condition at index `i` of a scan entered at index 0: the previous
sample has the complement of `value` on the edge bits, the current sample agrees
with `value` outside `mask`, and has the bits of `value` on the edge bits. -/
def edge_transition_at (s : State) (i : Nat) : Prop :=
  (prev_sample s.buf 0 s.last_sample i &&& s.trigger_edge) =
      ((65535 ^^^ s.trigger_value) &&& s.trigger_edge) ∧
  (s.buf i ||| s.trigger_mask) = (s.trigger_value ||| s.trigger_mask) ∧
  (s.buf i &&& s.trigger_edge) = (s.trigger_value &&& s.trigger_edge)

/-- An armed level trigger on the value 5, which the buffer holds at index 2. -/
def level_state : State :=
  { buf := fun i => if i = 2 then 5 else 0, trigger_stage := 1, trigger_value := 5 }

/-- An armed rising-edge trigger on bit 0; the buffer rises at index 1. -/
def edge_state : State :=
  { buf := fun i => if i = 0 then 0 else 1, trigger_stage := 1, trigger_value := 1,
    trigger_mask := 65534, trigger_edge := 1 }

/-- An armed edge trigger on bit 0 over a buffer that is already high. -/
def steady_state : State :=
  { buf := fun _ => 1, trigger_stage := 1, trigger_value := 1, trigger_edge := 1,
    last_sample := 1 }

/-- An environment with all-zero tables of length 1 and exact arithmetic for the
elapsed-sample count. -/
def exact_env : Env :=
  { sinx := fun _ => 0, sqrx := fun _ => 0, trix := fun _ => 0, sawx := fun _ => 0,
    ranx := fun _ => 0, len := 1, const_dc := 0, ceil_samples := ceil_exact }

/-- A Logic-mode state at 10 kHz with a budget of 100 samples, trigger satisfied. -/
def logic_state : State :=
  { mode := .LOGIC, ch_mode := .DEMO_LOGIC100x16, cur_samplerate := 10000,
    limit_samples := 100, limit_samples_show := 100 }

/-- Three ticks 50 ms apart. -/
def logic_ticks : List Tick :=
  [{ time := 50000 }, { time := 100000 }, { time := 150000 }]

/-- An environment whose tables are the ramp `i - 5` of length 10 with DC bias 3,
and exact arithmetic for the elapsed-sample count. -/
def ramp_env : Env :=
  { sinx := fun i => (i : Int) - 5, sqrx := fun i => (i : Int) - 5,
    trix := fun i => (i : Int) - 5, sawx := fun i => (i : Int) - 5,
    ranx := fun i => (i : Int) - 5, len := 10, const_dc := 3, ceil_samples := ceil_exact }

/-- Channel 0, AC-coupled, with the defaults of `probe_init`. -/
def analog_ch0 : sr_channel := { index := 0, coupling := SR_AC_COUPLING }

/-- Channel 1, DC-coupled, offset 100. -/
def analog_ch1 : sr_channel := { index := 1, coupling := SR_DC_COUPLING, hw_offset := 100 }

/-- An Analog-mode state at 10 Hz with both channels enabled. -/
def analog_state : State :=
  { mode := .ANALOG, ch_mode := .DEMO_ANALOG10x2, cur_samplerate := 10,
    limit_samples := 100, limit_samples_show := 100, channels := [analog_ch0, analog_ch1] }

/-- An oscilloscope state at 100 MHz, half of the 200 MHz maximum, with both
channels enabled. -/
def dso_state : State :=
  { mode := .DSO, ch_mode := .DEMO_DSO200x2, cur_samplerate := 100000000,
    limit_samples := 10000, limit_samples_show := 10000,
    channels := [{ index := 0 }, { index := 1 }] }

/-- Ticks `dt` microseconds apart: the `n` clock readings `dt, 2*dt, ..., n*dt`. -/
def ticks_every (dt : Int) (n : Nat) : List Tick :=
  (List.range n).map (fun i => { time := dt * ((i : Int) + 1) })

/-- The scenario state: Logic mode, sixteen enabled channels, 100 Hz, a budget of
10000 samples, nothing sent yet, trigger satisfied, clock at zero. -/
def scenario_state : State :=
  { mode := .LOGIC, ch_mode := .DEMO_LOGIC100x16, cur_samplerate := 100,
    limit_samples := 10000, limit_samples_show := 10000, samples_counter := 0,
    samples_not_sent := 0, trigger_stage := 0,
    channels := (List.range 16).map (fun i => { index := i }) }

/-- Twenty ticks 50 ms apart: one second. -/
def scenario_ticks : List Tick := ticks_every 50000 20

/-! ## Partitions of an elapsed time into ticks -/

/-- The elapsed times a sequence of ticks sees, the clock standing at `t0` before
the first one. -/
def elapsed_of : Int → List Tick → List Int
  | _, [] => []
  | t0, tk :: rest => (tk.time - t0) :: elapsed_of tk.time rest

/-- The sample counts the ticks of a sequence find due at rate `rate`, in exact
arithmetic: one ceiling per tick. -/
def dues (rate : Nat) (t0 : Int) (ticks : List Tick) : List Nat :=
  (elapsed_of t0 ticks).map (fun e => ceil_exact e rate)

/-- The burst capacity of line 998. -/
def burst_cap (m : Mode) : Nat :=
  if m = .DSO then DSO_BUFSIZE else BUFSIZE

/-- The batch granularity of the pacing: 64 samples in Logic mode, 1 otherwise. -/
def quantum (m : Mode) : Nat :=
  if m = .LOGIC then 64 else 1

/-- The setting in which two partitions of one elapsed time `T` are compared: at
every tick of the run the elapsed-sample count the code computes is the exact
ceiling (the `double` product of line 976 introduces no error at these ticks;
nothing is asked of it elsewhere); the mode is Logic, Analog, or the
oscilloscope without the instant flag and with other than one channel enabled;
the state is fresh (nothing counted, nothing pending, not stopped) with the
trigger satisfied; the clock never runs backwards and the ticks cover `T`; no
tick reaches the burst capacity and the samples due in total stay below the
limits. -/
structure PacingRun (env : Env) (s : State) (T : Int) (ticks : List Tick) : Prop where
  exact : ∀ e, e ∈ elapsed_of s.starttime ticks →
    env.ceil_samples e s.cur_samplerate = ceil_exact e s.cur_samplerate
  mode : s.mode = .LOGIC ∨ s.mode = .ANALOG ∨
    (s.mode = .DSO ∧ s.instant = false ∧ en_ch_num s.channels ≠ 1)
  counter : s.samples_counter = 0
  pending : s.samples_not_sent = 0
  running : s.stop = false
  trigger : s.trigger_stage = 0
  width : s.limit_samples < U64
  forward : ∀ e, e ∈ elapsed_of s.starttime ticks → 0 ≤ e
  total : (elapsed_of s.starttime ticks).sum = T
  burst : ∀ c, c ∈ dues s.cur_samplerate s.starttime ticks → c + 63 ≤ burst_cap s.mode
  limit : (dues s.cur_samplerate s.starttime ticks).sum < s.limit_samples
  limit_show : (dues s.cur_samplerate s.starttime ticks).sum ≤ s.limit_samples_show

/-- Every tick interval of the sequence is a whole number of sample periods at
rate `rate`. -/
def whole_periods (rate : Nat) (t0 : Int) (ticks : List Tick) : Prop :=
  ∀ e, e ∈ elapsed_of t0 ticks → (1000000 : Int) ∣ e * (rate : Int)

/-- Two states with the same mode, flags, channels, limits and rate. -/
def same_config (a b : State) : Prop :=
  b.mode = a.mode ∧ b.instant = a.instant ∧ b.channels = a.channels ∧
  b.limit_samples = a.limit_samples ∧ b.limit_samples_show = a.limit_samples_show ∧
  b.cur_samplerate = a.cur_samplerate

/-- Ceiling of `x / 10^6` as a count: `ceil_exact e r` is `ceil_millionth (e * r)`. -/
def ceil_millionth (x : Int) : Nat :=
  (-((-x) / 1000000)).toNat

/-- A fresh Logic-mode state at 100 Hz with sixteen enabled channels, the trigger
satisfied and a budget of 100000 samples. -/
def pace_logic_state : State :=
  { mode := .LOGIC, ch_mode := .DEMO_LOGIC100x16, cur_samplerate := 100,
    limit_samples := 100000, limit_samples_show := 100000,
    channels := (List.range 16).map (fun i => { index := i }) }

/-- A fresh Analog-mode state at 10 Hz with both channels enabled, the trigger
satisfied and a budget of 1000 samples. -/
def pace_analog_state : State :=
  { mode := .ANALOG, ch_mode := .DEMO_ANALOG10x2, cur_samplerate := 10,
    limit_samples := 1000, limit_samples_show := 1000,
    channels := [{ index := 0 }, { index := 1 }] }

/-- A Logic-mode state at 10 kHz that has been stopped after 64 of 100 samples. -/
def stopped_state : State :=
  { mode := .LOGIC, ch_mode := .DEMO_LOGIC100x16, cur_samplerate := 10000,
    limit_samples := 100, limit_samples_show := 100, samples_counter := 64, stop := true }

/-- The success code of the driver framework. -/
def SR_OK : Int := 0

/-- Modelled from the spec: the value `hw_dev_acquisition_stop` returns.  It
forwards to `dev_acquisition_stop_file` of demo_file.c, which is not among the
sources; the spec has the stop succeed whether or not the acquisition is already
stopped. -/
def hw_dev_acquisition_stop_ret (_s : State) : Int := SR_OK

/-- The value lines 1002 and 1005 cap the counter at in oscilloscope mode without
the instant flag: `limit_samples_show / 2` with exactly one channel enabled,
`limit_samples_show` otherwise. -/
def dso_cap (s : State) : Nat :=
  if en_ch_num s.channels = 1 then s.limit_samples_show / 2 else s.limit_samples_show

/-- A fresh Analog-mode state at 1 kHz with both channels enabled and a limit of
100 samples. -/
def analog_over_state : State :=
  { mode := .ANALOG, ch_mode := .DEMO_ANALOG10x2, cur_samplerate := 1000,
    limit_samples := 100, limit_samples_show := 100,
    channels := [{ index := 0 }, { index := 1 }] }

/-- A fresh oscilloscope state at 100 MHz with both channels enabled, whose
`limit_samples` of 64 lies below its `limit_samples_show` of 10000. -/
def dso_short_state : State :=
  { mode := .DSO, ch_mode := .DEMO_DSO200x2, cur_samplerate := 100000000,
    limit_samples := 64, limit_samples_show := 10000,
    channels := [{ index := 0 }, { index := 1 }] }

/-- The sample count an oscilloscope packet shows without the instant flag: the
counter, doubled when exactly one channel is enabled (lines 1064-1066). -/
def dso_shown (s : State) : Nat :=
  if en_ch_num s.channels = 1 then s.samples_counter * 2 else s.samples_counter

/-- Modelled from the spec: the capacity of `devc->buf` in 16-bit words.  The
buffer is sized once, at acquisition start, to the mode's maximum burst; the
allocation of line 1151 gives `DSO_BUFSIZE` words to the oscilloscope,
`2*BUFSIZE` to Analog and `BUFSIZE` to Logic.  (That line is commented out in
this revision; the live allocation is in demo_file.c, not among the sources.) -/
def buffer_capacity (m : Mode) : Nat :=
  if m = .DSO then DSO_BUFSIZE else if m = .ANALOG then 2 * BUFSIZE else BUFSIZE

/-- The number of words a tick asks `samples_generator` to write (lines
1011-1016), when it calls it at all. -/
def generator_request (env : Env) (s : State) (tk : Tick) : Option Nat :=
  match pacing { s with starttime := tk.time }
      (env.ceil_samples (tk.time - s.starttime) s.cur_samplerate) with
  | .early _ => none
  | .due s1 n =>
    if 0 < n ∧ s1.stop = false then
      some (generator_size
        (advance_counter s1 (min n (if s1.mode = .DSO then DSO_BUFSIZE else BUFSIZE)))
        (min n (if s1.mode = .DSO then DSO_BUFSIZE else BUFSIZE)))
    else none

/-- A fresh oscilloscope state at 100 MHz with both channels enabled and limits of
20032 samples. -/
def dso_deep_state : State :=
  { mode := .DSO, ch_mode := .DEMO_DSO200x2, cur_samplerate := 100000000,
    limit_samples := 20032, limit_samples_show := 20032,
    channels := [{ index := 0 }, { index := 1 }] }

/-! ## adjust_samplerate (demo.c lines 82-101) -/

/-- Lines 84-87: `while (samplerates[max_index] > max_samplerate) max_index--`,
entered at index `i`.  `none` stands for the index dropping below zero, where
the C loop reads outside the table. -/
def max_index_scan (samplerates : List Nat) (max_samplerate : Nat) : Nat → Option Nat
  | 0 => if max_samplerate < samplerates.getD 0 0 then none else some 0
  | i + 1 =>
    if max_samplerate < samplerates.getD (i + 1) 0 then
      max_index_scan samplerates max_samplerate i
    else some (i + 1)

/-- Lines 89-92: `while (samplerates[min_index] < min_samplerate) min_index++`,
entered at index `i` with `left` entries of the table ahead.  `none` stands for
the index running past the table. -/
def min_index_scan (samplerates : List Nat) (min_samplerate : Nat) : Nat → Nat → Option Nat
  | 0, _ => none
  | left + 1, i =>
    if samplerates.getD i 0 < min_samplerate then
      min_index_scan samplerates min_samplerate left (i + 1)
    else some i

/-- What `adjust_samplerate` leaves in `devc`. -/
structure Adjusted where
  state : State
  samplerates_max_index : Nat
  samplerates_min_index : Nat

/-- The function `adjust_samplerate`, over the table `samplerates[]` of demo.h.
`none` when a loop leaves the table or the assertion of line 94 fails. -/
def adjust_samplerate (samplerates : List Nat) (s : State) : Option Adjusted :=
  if samplerates = [] then none
  else
    match max_index_scan samplerates (channel_modes s.ch_mode).max_samplerate
        (samplerates.length - 1) with
    | none => none
    | some hi =>
      match min_index_scan samplerates (channel_modes s.ch_mode).min_samplerate
          samplerates.length 0 with
      | none => none
      | some lo =>
        if hi < lo then none
        else
          let c1 := if samplerates.getD hi 0 < s.cur_samplerate then samplerates.getD hi 0
            else s.cur_samplerate
          let c2 := if c1 < samplerates.getD lo 0 then samplerates.getD lo 0 else c1
          some { state := { s with cur_samplerate := c2 }, samplerates_max_index := hi,
                 samplerates_min_index := lo }

/-! ## Reads of the Logic loop -/

/-- The buffer indices read by iteration `i` of the Logic loop (lines 828-837):
none below `4*ch_num`, the word one full cycle back at a group boundary, the
previous word otherwise. -/
def logic_reads (c i : Nat) : List Nat :=
  if i < c * 4 then []
  else if i % 4 = 0 then [i - c * 4]
  else [i - 1]

/-- A Logic-mode state 64 samples short of 2^24 captured samples, at 10 kHz with
a budget of 2^25 samples. -/
def cnt24_state : State :=
  { mode := .LOGIC, ch_mode := .DEMO_LOGIC100x16, cur_samplerate := 10000,
    limit_samples := 33554432, limit_samples_show := 33554432,
    samples_counter := 16777152 }

/-! ## probe_init (demo.c lines 103-124) -/

/-- The C expression `1 << k` on `int`: defined when the shift count is not
negative and below the width of `int`. -/
def shl_one (k : Int) : Option Nat :=
  if 0 ≤ k ∧ k < 32 then some (2 ^ k.toNat) else none

/-- What `probe_init` leaves for one probe: the probe with its fields set, and the
default `offset` of lines 116-117, a `double` expression read in exact
arithmetic.  The display-mapping fields of lines 119-122 are not carried. -/
structure ProbeInit where
  probe : sr_channel
  offset : ℚ

/-- The body of the loop of `probe_init` for one probe.  `none` when one of the
two shifts `1 << (bits - 1)`, `1 << (bits - 2)` is not defined. -/
def probe_init_one (ch_mode : DEMO_CHANNEL_ID) (probe : sr_channel) : Option ProbeInit :=
  let bits := (channel_modes ch_mode).unit_bits
  match shl_one ((bits : Int) - 1), shl_one ((bits : Int) - 2) with
  | some a, some b =>
    let p : sr_channel :=
      { probe with
        bits := bits, vdiv := 1000, vfactor := 1, coupling := SR_AC_COUPLING,
        trig_value := a, hw_offset := a }
    some { probe := p,
           offset := (a : ℚ) +
             ((probe.index : ℚ) - ((((channel_modes ch_mode).num : Int) - 1 : Int) : ℚ) / 2)
               * (b : ℚ) }
  | _, _ => none

/-- The loop of `probe_init` over the channel list. -/
def probe_init_list (ch_mode : DEMO_CHANNEL_ID) : List sr_channel → Option (List ProbeInit)
  | [] => some []
  | probe :: rest =>
    match probe_init_one ch_mode probe, probe_init_list ch_mode rest with
    | some a, some l => some (a :: l)
    | _, _ => none

/-- The function `probe_init`. -/
def probe_init (s : State) : Option (List ProbeInit) :=
  probe_init_list s.ch_mode s.channels

/-- A Logic-mode device with its sixteen probes, as `setup_probes` creates them. -/
def logic_probe_state : State :=
  { mode := .LOGIC, ch_mode := .DEMO_LOGIC100x16,
    channels := (List.range 16).map (fun j => { index := j }) }

/-! ## The stride, as the specification words it -/

/-- The ratio of the mode's native maximum sample rate to the configured sample
rate, as an exact quotient. -/
def rate_quotient (s : State) : ℚ :=
  ((channel_modes s.ch_mode).max_samplerate : ℚ) / (s.cur_samplerate : ℚ)

/-- An oscilloscope state at 100 MHz with channel 0 enabled and channel 1
disabled. -/
def dso_one_state : State :=
  { mode := .DSO, ch_mode := .DEMO_DSO200x2, cur_samplerate := 100000000,
    limit_samples := 10000, limit_samples_show := 10000,
    channels := [{ index := 0 }, { index := 1, enabled := false }] }

/-! ## The synthesis rules, as the specification words them -/

/-- The coupling rule in the specification's words: an AC-coupled channel
subtracts the DC bias `const_dc` from the table value before scaling by
`1000/vdiv`, a DC-coupled channel does not subtract it. -/
def spec_channel_value (env : Env) (s : State) (probe : sr_channel) (i : Nat) : Nat :=
  if probe.coupling = SR_AC_COUPLING then
    to_uint8 ((probe.hw_offset : ℚ) + (1000 / (probe.vdiv : ℚ)) *
      ((pre_buf env s.sample_generator (table_index env s i) - env.const_dc : Int) : ℚ))
  else
    to_uint8 ((probe.hw_offset : ℚ) + (1000 / (probe.vdiv : ℚ)) *
      ((pre_buf env s.sample_generator (table_index env s i) : Int) : ℚ))

/-- The number of entries of a waveform table: `len` is `ARRAY_SIZE(sinx) - 1`
(line 797). -/
def table_entries (env : Env) : Nat := env.len + 1

/-- The table index in the specification's words:
`floor(i*span + cursor*span) mod L`, with `cursor = pre_index` and `L` the
number of entries of the table. -/
def spec_table_index (env : Env) (s : State) (i : Nat) : Nat :=
  (⌊(i : ℚ) * span env s + (s.pre_index : ℚ) * span env s⌋).toNat % table_entries env

/-- An Analog-mode state whose stride over a table of length 10 is one half
(`limit_samples = 400`), with the pacing cursor at 1. -/
def analog_half_state : State :=
  { mode := .ANALOG, ch_mode := .DEMO_ANALOG10x2, cur_samplerate := 10,
    limit_samples := 400, limit_samples_show := 400, pre_index := 1,
    channels := [analog_ch0, analog_ch1] }

/-- The oscilloscope at its maximum rate of 200 MHz with both channels enabled,
where the stride is 1. -/
def dso_full_rate_state : State :=
  { mode := .DSO, ch_mode := .DEMO_DSO200x2, cur_samplerate := 200000000,
    limit_samples := 10000, limit_samples_show := 10000,
    channels := [{ index := 0 }, { index := 1 }] }

/-! ## The measurement statistics of samples_generator (demo.c lines 849-917) -/

/-- The measurement fields of `devc->mstatus` that `samples_generator` maintains
while it fills the buffer: per channel the running maximum and minimum byte, the
cycle count, the cycle length, and the validity flags.  The fields are
integers whose widths are declared in a header that is not among the sources;
the widths are not modelled.  The fields derived after the loops (lines
919-945: levels, cycle partitions, mean and RMS) are functions of these and are
not carried. -/
structure Measure where
  ch0_max : Nat := 0
  ch0_min : Nat := 0
  ch1_max : Nat := 0
  ch1_min : Nat := 0
  ch0_cyc_tlen : Nat := 0
  ch0_cyc_cnt : Nat := 0
  ch1_cyc_tlen : Nat := 0
  ch1_cyc_cnt : Nat := 0
  ch0_level_valid : Bool := false
  ch0_plevel : Bool := false
  ch1_level_valid : Bool := false
  ch1_plevel : Bool := false
  measure_valid : Bool := false
  deriving DecidableEq

/-- Lines 850-861: the reset of the statistics. -/
def measure_reset (m : Measure) : Measure :=
  { m with
    ch0_max := 0, ch0_min := 255, ch1_max := 0, ch1_min := 255,
    ch0_cyc_tlen := 0, ch0_cyc_cnt := 1, ch1_cyc_tlen := 0, ch1_cyc_cnt := 1,
    ch0_level_valid := true, ch0_plevel := true,
    ch1_level_valid := true, ch1_plevel := true }

/-- Lines 849-862: the statistics the channel loops start from, reset when the
pacing cursor is zero and carried over from the previous call otherwise. -/
def measure_entry (s : State) (m : Measure) : Measure :=
  if s.pre_index = 0 then measure_reset m else m

/-- The table index `(uint64_t)((i-1)*span+start_rand) % len` of lines 887 and
896, where `i - 1` is a `uint64_t` difference.  At `i = 0` the difference wraps
to 2^64 - 1 and the conversion of the code is out of range; what stands here for
that index is the exact value reduced modulo 2^64, and no statement is made at
`i = 0`. -/
def table_index_prev (env : Env) (s : State) (i : Nat) : Nat :=
  (trunc ((((i + U64 - 1) % U64 : Nat) : ℚ) * span env s + (start_rand env s : ℚ))).toNat
    % U64 % env.len

/-- The test of lines 886-887 and 895-896:
`pre_buf[idx(i)] < 0 && pre_buf[idx(i-1)] > 0`. -/
def crossing (env : Env) (s : State) (i : Nat) : Bool :=
  decide (pre_buf env s.sample_generator (table_index env s i) < 0) &&
    decide (pre_buf env s.sample_generator (table_index_prev env s i) > 0)

/-- The cycle length of lines 888 and 897:
`2*(i - pre_i)*pow(10, 8)/max_samplerate`, with the `uint64_t` difference and
product, converted to an integer.  The width of the field it is stored in is
not modelled: the value is the one the code stores where `pre_i <= i` and the
numerator is below 2^52 (the quotient is then exact and below 2^31); statements
about the stored length are made there. -/
def cyc_tlen (s : State) (i pre_i : Nat) : Nat :=
  (trunc (((2 * ((i + U64 - pre_i % U64) % U64) % U64 : Nat) : ℚ) * 100000000 /
    ((channel_modes s.ch_mode).max_samplerate : ℚ))).toNat

/-- The state of the channel loops of lines 869-903: the buffer, the statistics,
and the indices `pre0_i`, `pre1_i` of the last crossing. -/
structure GenState where
  buf : Nat → Nat := fun _ => 0
  m : Measure := {}
  pre0_i : Nat := 0
  pre1_i : Nat := 0

/-- One iteration of the inner loop, lines 875-901: the word is updated, then the
statistics of channel 0 (for the probe of index 0) or of channel 1 (for any
other probe). -/
def measure_step (env : Env) (s : State) (probe : sr_channel) (i : Nat) (g : GenState) :
    GenState :=
  let buf := channel_step env s probe i g.buf
  if probe.index = 0 then
    let m1 : Measure :=
      { g.m with
        ch0_max := max g.m.ch0_max (buf i &&& 0x00ff)
        ch0_min := min g.m.ch0_min (buf i &&& 0x00ff) }
    if crossing env s i then
      { buf := buf
        m := { m1 with
          ch0_cyc_tlen := cyc_tlen s i g.pre0_i, ch0_cyc_cnt := m1.ch0_cyc_cnt + 1 }
        pre0_i := i
        pre1_i := g.pre1_i }
    else { buf := buf, m := m1, pre0_i := g.pre0_i, pre1_i := g.pre1_i }
  else
    let m1 : Measure :=
      { g.m with
        ch1_max := max g.m.ch1_max ((buf i &&& 0xff00) >>> 8)
        ch1_min := min g.m.ch1_min ((buf i &&& 0xff00) >>> 8) }
    if crossing env s i then
      { buf := buf
        m := { m1 with
          ch1_cyc_tlen := cyc_tlen s i g.pre1_i, ch1_cyc_cnt := m1.ch1_cyc_cnt + 1 }
        pre0_i := g.pre0_i
        pre1_i := i }
    else { buf := buf, m := m1, pre0_i := g.pre0_i, pre1_i := g.pre1_i }

/-- The pass of lines 870-902 for one probe: both crossing indices restart from
the pacing cursor, then the inner loop runs over `size` indices. -/
def measure_pass (env : Env) (s : State) (size : Nat) (g : GenState) (probe : sr_channel) :
    GenState :=
  forLoop (measure_step env s probe) size
    { buf := g.buf, m := g.m, pre0_i := s.pre_index, pre1_i := s.pre_index }

/-- Lines 905-914: at the first disabled probe of the list, channel 1's range is
widened by channel 0's, then channel 0's by the new range of channel 1. -/
def merge_disabled (s : State) (m : Measure) : Measure :=
  if s.channels.any (fun probe => !probe.enabled) then
    let ch1_max := max m.ch0_max m.ch1_max
    let ch1_min := min m.ch0_min m.ch1_min
    { m with
      ch1_max := ch1_max, ch1_min := ch1_min,
      ch0_max := max m.ch0_max ch1_max, ch0_min := min m.ch0_min ch1_min }
  else m

/-- The statistics `samples_generator(buf, size, sdi, devc)` leaves in
`devc->mstatus`, from the statistics `m` it finds there.  Logic mode does not
touch them. -/
def samples_generator_measure (env : Env) (s : State) (size : Nat) (m : Measure) : Measure :=
  if s.mode = .LOGIC then m
  else
    let g := s.channels.foldl (measure_pass env s size)
      { buf := memset0 s.buf size, m := measure_entry s m, pre0_i := s.pre_index,
        pre1_i := s.pre_index }
    let m1 := merge_disabled s g.m
    { m1 with
      ch0_cyc_tlen := m1.ch0_cyc_tlen * m1.ch0_cyc_cnt
      ch1_cyc_tlen := m1.ch1_cyc_tlen * m1.ch1_cyc_cnt
      measure_valid := true }

/-- The running maximum of the bytes `v 0, ..., v (size-1)`, from `init`. -/
def byte_max (v : Nat → Nat) (size init : Nat) : Nat :=
  forLoop (fun i a => max a (v i)) size init

/-- The running minimum of the bytes `v 0, ..., v (size-1)`, from `init`. -/
def byte_min (v : Nat → Nat) (size init : Nat) : Nat :=
  forLoop (fun i a => min a (v i)) size init

/-- Channel 1 disabled, AC-coupled, with its hardware offset moved to 200. -/
def skew_ch1 : sr_channel := { index := 1, enabled := false, hw_offset := 200 }

/-- A fresh oscilloscope state at 100 MHz with channel 0 enabled at the default
offset 128 and the disabled channel 1 at offset 200. -/
def dso_skew_state : State :=
  { mode := .DSO, ch_mode := .DEMO_DSO200x2, cur_samplerate := 100000000,
    limit_samples := 10000, limit_samples_show := 10000,
    channels := [analog_ch0, skew_ch1] }

/-! ## An armed tick -/

/-- Line 998: `sending_now = MIN(samples_to_send, mode == DSO ? DSO_BUFSIZE : BUFSIZE)`. -/
def sending_now (s : State) (samples_to_send : Nat) : Nat :=
  min samples_to_send (if s.mode = .DSO then DSO_BUFSIZE else BUFSIZE)

/-- Channel 0 with the third coupling code (neither DC nor AC), whose byte is
the hardware offset itself. -/
def gnd_ch0 : sr_channel := { index := 0, coupling := 2 }

/-- Channel 1, disabled, with the third coupling code. -/
def gnd_ch1 : sr_channel := { index := 1, enabled := false, coupling := 2 }

/-- An oscilloscope state at 100 Hz with exactly one channel enabled and a level
trigger armed on the value 5, which no word of the buffer takes. -/
def dso_armed_state : State :=
  { mode := .DSO, ch_mode := .DEMO_DSO200x2, cur_samplerate := 100,
    limit_samples := 10000, limit_samples_show := 10000,
    channels := [gnd_ch0, gnd_ch1], trigger_stage := 1, trigger_value := 5 }

/-! ## Where the synthesizer's `double` arithmetic is exact -/

/-- The inputs on which the `double` arithmetic of the table index (lines 840-846,
870, 876, 878, 886-887) is exact and its conversions are in range, for the
indices up to `bound`: the mode is Analog or oscilloscope and the divisor of the
stride is not zero; the stride is the dyadic fraction `a / 2^j` (an integer when
`j = 0`, as always in oscilloscope mode); `len * 20`, cursor, indices and
numerators are below 2^53; the cursor term `floor(pre_index * span)` fits an
`unsigned int`; the table is not empty. -/
structure ExactStride (env : Env) (s : State) (a j bound : Nat) : Prop where
  mode : s.mode = .ANALOG ∨ s.mode = .DSO
  divisor : (s.mode = .DSO → s.cur_samplerate ≠ 0) ∧ (s.mode = .ANALOG → s.limit_samples ≠ 0)
  stride : span env s = (a : ℚ) / ((2 ^ j : Nat) : ℚ)
  numerator : a < 2 ^ 53
  table_small : env.len * 20 < 2 ^ 53
  cursor_small : s.pre_index < 2 ^ 53
  cursor_exact : s.pre_index * a < 2 ^ 53
  cursor_range : s.pre_index * a / 2 ^ j < 2 ^ 32
  bound_small : bound < 2 ^ 53
  sum_exact : bound * a + s.pre_index * a / 2 ^ j * 2 ^ j < 2 ^ 53
  length : 0 < env.len

/-- The expression `hw_offset + (1000/vdiv) * x` of lines 876 and 878 for a
`vdiv` that divides 1000, where the scale `1000.0/vdiv` is a whole number. -/
def scaled_value (probe : sr_channel) (x : Int) : Int :=
  (probe.hw_offset : Int) + ((1000 / probe.vdiv : Nat) : Int) * x

/-! # Properties -/

/-! ## The trigger matcher -/

theorem trigger_scan_level (buf : Nat → Nat) (mask value : Nat) (n : Nat) :
    ∀ i last,
      (trigger_scan buf mask value 0 n i last).last_sample = last ∧
      ((trigger_scan buf mask value 0 n i last).hit = true →
        i ≤ (trigger_scan buf mask value 0 n i last).i ∧
        (trigger_scan buf mask value 0 n i last).i < i + n ∧
        level_match (buf (trigger_scan buf mask value 0 n i last).i) mask value = true ∧
        ∀ j, i ≤ j → j < (trigger_scan buf mask value 0 n i last).i →
          level_match (buf j) mask value = false) ∧
      ((trigger_scan buf mask value 0 n i last).hit = false →
        (trigger_scan buf mask value 0 n i last).i = i + n ∧
        ∀ j, i ≤ j → j < i + n → level_match (buf j) mask value = false) := by
  induction n with
  | zero =>
    intro i last
    simp [trigger_scan]
    intro j h1 h2
    omega
  | succ n ih =>
    intro i last
    by_cases hm : level_match (buf i) mask value = true
    · simp [trigger_scan, hm]
      intro j h1 h2
      omega
    · simp only [Bool.not_eq_true] at hm
      have hs : trigger_scan buf mask value 0 (n + 1) i last =
          trigger_scan buf mask value 0 n (i + 1) last := by
        simp [trigger_scan, hm]
      rw [hs]
      obtain ⟨h1, h2, h3⟩ := ih (i + 1) last
      refine ⟨h1, ?_, ?_⟩
      · intro hh
        obtain ⟨a, b, c, d⟩ := h2 hh
        refine ⟨by omega, by omega, c, ?_⟩
        intro j hj1 hj2
        by_cases hji : j = i
        · subst hji; exact hm
        · exact d j (by omega) hj2
      · intro hh
        obtain ⟨a, b⟩ := h3 hh
        refine ⟨by omega, ?_⟩
        intro j hj1 hj2
        by_cases hji : j = i
        · subst hji; exact hm
        · exact b j (by omega) (by omega)

theorem trigger_scan_edge (buf : Nat → Nat) (mask value edge : Nat) (he : edge ≠ 0) (n : Nat) :
    ∀ i last,
      ((trigger_scan buf mask value edge n i last).hit = true →
        i ≤ (trigger_scan buf mask value edge n i last).i ∧
        (trigger_scan buf mask value edge n i last).i < i + n ∧
        edge_match (prev_sample buf i last (trigger_scan buf mask value edge n i last).i)
          (buf (trigger_scan buf mask value edge n i last).i) mask value edge = true ∧
        ∀ j, i ≤ j → j < (trigger_scan buf mask value edge n i last).i →
          edge_match (prev_sample buf i last j) (buf j) mask value edge = false) ∧
      ((trigger_scan buf mask value edge n i last).hit = false →
        (trigger_scan buf mask value edge n i last).i = i + n ∧
        (trigger_scan buf mask value edge n i last).last_sample =
          prev_sample buf i last (i + n) ∧
        ∀ j, i ≤ j → j < i + n →
          edge_match (prev_sample buf i last j) (buf j) mask value edge = false) := by
  induction n with
  | zero =>
    intro i last
    simp [trigger_scan, prev_sample]
    intro j h1 h2
    omega
  | succ n ih =>
    intro i last
    by_cases hm : edge_match last (buf i) mask value edge = true
    · simp [trigger_scan, hm, he, prev_sample]
      intro j h1 h2
      omega
    · simp only [Bool.not_eq_true] at hm
      have hs : trigger_scan buf mask value edge (n + 1) i last =
          trigger_scan buf mask value edge n (i + 1) (buf i) := by
        simp [trigger_scan, hm, he]
      rw [hs]
      have hp : ∀ j, i + 1 ≤ j → prev_sample buf (i + 1) (buf i) j = prev_sample buf i last j := by
        intro j hj
        unfold prev_sample
        by_cases hj1 : j = i + 1
        · subst hj1; simp
        · have : j ≠ i := by omega
          simp [hj1, this]
      obtain ⟨h2, h3⟩ := ih (i + 1) (buf i)
      refine ⟨?_, ?_⟩
      · intro hh
        obtain ⟨a, b, c, d⟩ := h2 hh
        refine ⟨by omega, by omega, ?_, ?_⟩
        · rw [← hp _ a]; exact c
        · intro j hj1 hj2
          by_cases hji : j = i
          · subst hji; simpa [prev_sample] using hm
          · rw [← hp j (by omega)]; exact d j (by omega) hj2
      · intro hh
        obtain ⟨a, b, c⟩ := h3 hh
        refine ⟨by omega, ?_, ?_⟩
        · rw [b, hp _ (by omega)]
          congr 1
          omega
        · intro j hj1 hj2
          by_cases hji : j = i
          · subst hji; simpa [prev_sample] using hm
          · rw [← hp j (by omega)]; exact c j (by omega) (by omega)

theorem level_match_iff (sample mask value : Nat) :
    level_match sample mask value = true ↔ (sample ||| mask) = (value ||| mask) := by
  simp [level_match]

theorem level_match_false_iff (sample mask value : Nat) :
    level_match sample mask value = false ↔ (sample ||| mask) ≠ (value ||| mask) := by
  simp [level_match]

theorem edge_match_iff (s : State) (i : Nat) :
    edge_match (prev_sample s.buf 0 s.last_sample i) (s.buf i) s.trigger_mask s.trigger_value
      s.trigger_edge = true ↔ edge_transition_at s i := by
  simp [edge_match, edge_transition_at, and_assoc]

theorem edge_match_false_iff (s : State) (i : Nat) :
    edge_match (prev_sample s.buf 0 s.last_sample i) (s.buf i) s.trigger_mask s.trigger_value
      s.trigger_edge = false ↔ ¬ edge_transition_at s i := by
  rw [← edge_match_iff]; simp

/-- C2. Level mode (`trigger_edge == 0`) with an armed trigger, for every buffer
and every `sending_now`: if some index below `sending_now` satisfies
`(buf[i] | mask) == (value | mask)`, the trigger block sets `trigger_stage` to 0
and forwards one Trigger packet whose `real_pos` is the least such index; if no
index does, `trigger_stage` is unchanged and nothing is forwarded.  With
`mask = 0` the match is at the first word equal to `value`, and there is none
when `value` never occurs. -/
theorem level_trigger_first_match (s : State) (sending_now : Nat)
    (hedge : s.trigger_edge = 0) (harmed : s.trigger_stage ≠ 0) :
    ((∃ i, i < sending_now ∧
        (s.buf i ||| s.trigger_mask) = (s.trigger_value ||| s.trigger_mask)) →
      ∃ k, k < sending_now ∧
        (s.buf k ||| s.trigger_mask) = (s.trigger_value ||| s.trigger_mask) ∧
        (∀ j, j < k → (s.buf j ||| s.trigger_mask) ≠ (s.trigger_value ||| s.trigger_mask)) ∧
        (trigger_phase s sending_now).1.trigger_stage = 0 ∧
        (trigger_phase s sending_now).2 = [Packet.SR_DF_TRIGGER k]) ∧
    ((∀ i, i < sending_now →
        (s.buf i ||| s.trigger_mask) ≠ (s.trigger_value ||| s.trigger_mask)) →
      (trigger_phase s sending_now).1.trigger_stage = s.trigger_stage ∧
      (trigger_phase s sending_now).2 = []) ∧
    (s.trigger_mask = 0 →
      ((∃ i, i < sending_now ∧ s.buf i = s.trigger_value) →
        ∃ k, k < sending_now ∧ s.buf k = s.trigger_value ∧
          (∀ j, j < k → s.buf j ≠ s.trigger_value) ∧
          (trigger_phase s sending_now).1.trigger_stage = 0 ∧
          (trigger_phase s sending_now).2 = [Packet.SR_DF_TRIGGER k]) ∧
      ((∀ i, i < sending_now → s.buf i ≠ s.trigger_value) →
        (trigger_phase s sending_now).1.trigger_stage = s.trigger_stage ∧
        (trigger_phase s sending_now).2 = [])) := by
  have key := trigger_scan_level s.buf s.trigger_mask s.trigger_value sending_now 0 s.last_sample
  obtain ⟨_, kh, km⟩ := key
  have A : (∃ i, i < sending_now ∧
        (s.buf i ||| s.trigger_mask) = (s.trigger_value ||| s.trigger_mask)) →
      ∃ k, k < sending_now ∧
        (s.buf k ||| s.trigger_mask) = (s.trigger_value ||| s.trigger_mask) ∧
        (∀ j, j < k → (s.buf j ||| s.trigger_mask) ≠ (s.trigger_value ||| s.trigger_mask)) ∧
        (trigger_phase s sending_now).1.trigger_stage = 0 ∧
        (trigger_phase s sending_now).2 = [Packet.SR_DF_TRIGGER k] := by
    rintro ⟨i, hi, hmatch⟩
    cases hh : (trigger_scan s.buf s.trigger_mask s.trigger_value 0 sending_now 0
        s.last_sample).hit with
    | false =>
      obtain ⟨_, hall⟩ := km hh
      have := hall i (Nat.zero_le _) (by omega)
      rw [level_match_false_iff] at this
      exact absurd hmatch this
    | true =>
      obtain ⟨_, hlt, hm, hall⟩ := kh hh
      refine ⟨_, by omega, (level_match_iff _ _ _).1 hm, ?_, ?_, ?_⟩
      · intro j hj
        exact (level_match_false_iff _ _ _).1 (hall j (Nat.zero_le _) hj)
      · simp [trigger_phase, harmed, hedge, hh]
      · simp [trigger_phase, harmed, hedge, hh]
  have B : (∀ i, i < sending_now →
        (s.buf i ||| s.trigger_mask) ≠ (s.trigger_value ||| s.trigger_mask)) →
      (trigger_phase s sending_now).1.trigger_stage = s.trigger_stage ∧
      (trigger_phase s sending_now).2 = [] := by
    intro hnone
    cases hh : (trigger_scan s.buf s.trigger_mask s.trigger_value 0 sending_now 0
        s.last_sample).hit with
    | false => simp [trigger_phase, harmed, hedge, hh]
    | true =>
      obtain ⟨_, hlt, hm, _⟩ := kh hh
      exact absurd ((level_match_iff _ _ _).1 hm) (hnone _ (by omega))
  refine ⟨A, B, ?_⟩
  intro hmask
  rw [hmask] at A B
  simpa using And.intro A B

theorem level_trigger_first_match_witness :
    level_state.trigger_edge = 0 ∧ level_state.trigger_stage ≠ 0 ∧
    ∃ k, k < 4 ∧ level_state.buf k = level_state.trigger_value ∧
      (∀ j, j < k → level_state.buf j ≠ level_state.trigger_value) ∧
      (trigger_phase level_state 4).1.trigger_stage = 0 ∧
      (trigger_phase level_state 4).2 = [Packet.SR_DF_TRIGGER k] :=
  ⟨rfl, by decide,
    ((level_trigger_first_match level_state 4 rfl (by decide)).2.2 rfl).1
      ⟨2, by decide, by decide⟩⟩

/-- C3. Edge mode (`trigger_edge != 0`) with an armed trigger: the reported
position is the least index `i < sending_now` at which the previous sample has
the complement of `value` on the edge bits, the current sample agrees with
`value` outside `mask` and carries the bits of `value` on the edge bits, the
previous sample being `buf[i-1]`, or the carried `last_sample` for `i = 0`.  If
there is no such index the stage stays armed, nothing is forwarded and
`last_sample` becomes `buf[sending_now-1]`. -/
theorem edge_trigger_first_transition (s : State) (sending_now : Nat)
    (hedge : s.trigger_edge ≠ 0) (harmed : s.trigger_stage ≠ 0) :
    ((∃ i, i < sending_now ∧ edge_transition_at s i) →
      ∃ k, k < sending_now ∧ edge_transition_at s k ∧
        (∀ j, j < k → ¬ edge_transition_at s j) ∧
        (trigger_phase s sending_now).1.trigger_stage = 0 ∧
        (trigger_phase s sending_now).2 = [Packet.SR_DF_TRIGGER k]) ∧
    ((∀ i, i < sending_now → ¬ edge_transition_at s i) →
      (trigger_phase s sending_now).1.trigger_stage = s.trigger_stage ∧
      (trigger_phase s sending_now).2 = [] ∧
      (0 < sending_now →
        (trigger_phase s sending_now).1.last_sample = s.buf (sending_now - 1))) := by
  obtain ⟨kh, km⟩ := trigger_scan_edge s.buf s.trigger_mask s.trigger_value s.trigger_edge
    hedge sending_now 0 s.last_sample
  constructor
  · rintro ⟨i, hi, hmatch⟩
    cases hh : (trigger_scan s.buf s.trigger_mask s.trigger_value s.trigger_edge sending_now 0
        s.last_sample).hit with
    | false =>
      obtain ⟨_, _, hall⟩ := km hh
      have := hall i (Nat.zero_le _) (by omega)
      rw [edge_match_false_iff] at this
      exact absurd hmatch this
    | true =>
      obtain ⟨_, hlt, hm, hall⟩ := kh hh
      refine ⟨_, by omega, (edge_match_iff _ _).1 hm, ?_, ?_, ?_⟩
      · intro j hj
        exact (edge_match_false_iff _ _).1 (hall j (Nat.zero_le _) hj)
      · simp [trigger_phase, harmed, hh]
      · simp [trigger_phase, harmed, hh]
  · intro hnone
    cases hh : (trigger_scan s.buf s.trigger_mask s.trigger_value s.trigger_edge sending_now 0
        s.last_sample).hit with
    | false =>
      obtain ⟨_, hlast, _⟩ := km hh
      refine ⟨by simp [trigger_phase, harmed, hh], by simp [trigger_phase, harmed, hh], ?_⟩
      intro hpos
      have hne : sending_now ≠ 0 := by omega
      simp [trigger_phase, harmed, hh, hlast, prev_sample, hne]
    | true =>
      obtain ⟨_, hlt, hm, _⟩ := kh hh
      exact absurd ((edge_match_iff _ _).1 hm) (hnone _ (by omega))

theorem edge_trigger_first_transition_witness :
    edge_state.trigger_edge ≠ 0 ∧ edge_state.trigger_stage ≠ 0 ∧
    ∃ k, k < 4 ∧ edge_transition_at edge_state k ∧
      (∀ j, j < k → ¬ edge_transition_at edge_state j) ∧
      (trigger_phase edge_state 4).1.trigger_stage = 0 ∧
      (trigger_phase edge_state 4).2 = [Packet.SR_DF_TRIGGER k] :=
  ⟨by decide, by decide,
    (edge_trigger_first_transition edge_state 4 (by decide) (by decide)).1
      ⟨1, by decide, by decide, by decide, by decide⟩⟩

theorem and_not16_ne (v e : Nat) (he : e ≠ 0) (hlt : e < 2 ^ 16) :
    (v &&& e) ≠ ((65535 ^^^ v) &&& e) := by
  obtain ⟨i, hi⟩ := Nat.ne_zero_implies_bit_true he
  have hi16 : i < 16 := by
    by_contra hge
    have h1 : 2 ^ i ≤ e := Nat.testBit_implies_ge hi
    have h2 : 2 ^ 16 ≤ 2 ^ i := Nat.pow_le_pow_right (by decide) (by omega)
    omega
  intro h
  have h3 := congrArg (fun x => Nat.testBit x i) h
  have h4 : Nat.testBit 65535 i = true := by
    have : (65535 : Nat) = 2 ^ 16 - 1 := by norm_num
    rw [this, Nat.testBit_two_pow_sub_one]
    simpa using hi16
  simp [Nat.testBit_and, Nat.testBit_xor, hi, h4] at h3

/-- C4. Edge mode with an armed trigger: when the carried previous sample
already has the edge bits of `value` and every scanned word equals `value`, no
index is a qualifying transition, the stage stays non-zero and no Trigger packet
is forwarded.  `trigger_edge` is a `uint16_t`. -/
theorem steady_value_no_edge_match (s : State) (sending_now : Nat)
    (hedge : s.trigger_edge ≠ 0) (hwidth : s.trigger_edge < U16)
    (harmed : s.trigger_stage ≠ 0)
    (hlast : (s.last_sample &&& s.trigger_edge) = (s.trigger_value &&& s.trigger_edge))
    (hsteady : ∀ i, i < sending_now → s.buf i = s.trigger_value) :
    (∀ i, i < sending_now → ¬ edge_transition_at s i) ∧
    (trigger_phase s sending_now).1.trigger_stage = s.trigger_stage ∧
    (trigger_phase s sending_now).1.trigger_stage ≠ 0 ∧
    (trigger_phase s sending_now).2 = [] := by
  have hnone : ∀ i, i < sending_now → ¬ edge_transition_at s i := by
    intro i hi hcond
    have hprev : (prev_sample s.buf 0 s.last_sample i &&& s.trigger_edge) =
        (s.trigger_value &&& s.trigger_edge) := by
      unfold prev_sample
      by_cases h0 : i = 0
      · simp [h0, hlast]
      · simp [h0, hsteady (i - 1) (by omega)]
    have h1 := hcond.1
    rw [hprev] at h1
    exact and_not16_ne s.trigger_value s.trigger_edge hedge hwidth h1
  obtain ⟨kh, _⟩ := trigger_scan_edge s.buf s.trigger_mask s.trigger_value s.trigger_edge
    hedge sending_now 0 s.last_sample
  cases hh : (trigger_scan s.buf s.trigger_mask s.trigger_value s.trigger_edge sending_now 0
      s.last_sample).hit with
  | false =>
    exact ⟨hnone, by simp [trigger_phase, harmed, hh], by simp [trigger_phase, harmed, hh],
      by simp [trigger_phase, harmed, hh]⟩
  | true =>
    obtain ⟨_, hlt, hm, _⟩ := kh hh
    exact absurd ((edge_match_iff _ _).1 hm) (hnone _ (by omega))

theorem steady_value_no_edge_match_witness :
    steady_state.trigger_edge ≠ 0 ∧ steady_state.trigger_edge < U16 ∧
    steady_state.trigger_stage ≠ 0 ∧
    (steady_state.last_sample &&& steady_state.trigger_edge) =
      (steady_state.trigger_value &&& steady_state.trigger_edge) ∧
    (∀ i, i < 8 → steady_state.buf i = steady_state.trigger_value) ∧
    (trigger_phase steady_state 8).1.trigger_stage ≠ 0 ∧
    (trigger_phase steady_state 8).2 = [] :=
  ⟨by decide, by decide, by decide, by decide, fun _ _ => rfl,
    (steady_value_no_edge_match steady_state 8 (by decide) (by decide) (by decide)
      (by decide) (fun _ _ => rfl)).2.2⟩

/-! ## Frame facts of the phases of a tick -/

theorem samples_generator_frame (env : Env) (rnd : Nat → Nat) (s : State) (size : Nat) :
    (samples_generator env rnd s size).mode = s.mode ∧
    (samples_generator env rnd s size).limit_samples = s.limit_samples ∧
    (samples_generator env rnd s size).samples_counter = s.samples_counter ∧
    (samples_generator env rnd s size).samples_not_sent = s.samples_not_sent ∧
    (samples_generator env rnd s size).stop = s.stop ∧
    (samples_generator env rnd s size).instant = s.instant ∧
    (samples_generator env rnd s size).trigger_stage = s.trigger_stage := by
  unfold samples_generator
  split <;> simp

theorem trigger_phase_frame (s : State) (n : Nat) :
    (trigger_phase s n).1.mode = s.mode ∧
    (trigger_phase s n).1.limit_samples = s.limit_samples ∧
    (trigger_phase s n).1.samples_counter = s.samples_counter ∧
    (trigger_phase s n).1.samples_not_sent = s.samples_not_sent ∧
    (trigger_phase s n).1.stop = s.stop ∧
    (trigger_phase s n).1.instant = s.instant := by
  simp only [trigger_phase]
  split_ifs <;> simp

theorem data_phase_frame (s : State) (n : Nat) :
    (data_phase s n).1.mode = s.mode ∧
    (data_phase s n).1.limit_samples = s.limit_samples ∧
    (data_phase s n).1.samples_counter = s.samples_counter ∧
    (data_phase s n).1.samples_not_sent = s.samples_not_sent ∧
    (data_phase s n).1.stop = s.stop ∧
    (data_phase s n).1.instant = s.instant ∧
    (data_phase s n).1.trigger_stage = s.trigger_stage ∧
    (data_phase s n).1.last_sample = s.last_sample := by
  unfold data_phase update_mstatus advance_pre_index
  split
  · split
    · split <;> simp
    · split <;> simp
  · simp

theorem advance_counter_frame (s : State) (n : Nat) :
    (advance_counter s n).mode = s.mode ∧
    (advance_counter s n).limit_samples = s.limit_samples ∧
    (advance_counter s n).samples_not_sent = s.samples_not_sent ∧
    (advance_counter s n).stop = s.stop ∧
    (advance_counter s n).instant = s.instant ∧
    (advance_counter s n).trigger_stage = s.trigger_stage := by
  unfold advance_counter
  split
  · split <;> simp
  · simp

theorem hw_dev_acquisition_stop_frame (s : State) :
    (hw_dev_acquisition_stop s).1.mode = s.mode ∧
    (hw_dev_acquisition_stop s).1.limit_samples = s.limit_samples ∧
    (hw_dev_acquisition_stop s).1.samples_counter = s.samples_counter ∧
    (hw_dev_acquisition_stop s).1.samples_not_sent = s.samples_not_sent ∧
    (hw_dev_acquisition_stop s).1.instant = s.instant ∧
    (hw_dev_acquisition_stop s).1.trigger_stage = s.trigger_stage ∧
    (hw_dev_acquisition_stop s).1.last_sample = s.last_sample := by
  unfold hw_dev_acquisition_stop
  split <;> simp

theorem finish_frame (r : State × List Packet) :
    (finish r).state.mode = r.1.mode ∧
    (finish r).state.limit_samples = r.1.limit_samples ∧
    (finish r).state.samples_counter = r.1.samples_counter ∧
    (finish r).state.samples_not_sent = r.1.samples_not_sent ∧
    (finish r).state.instant = r.1.instant ∧
    (finish r).state.trigger_stage = r.1.trigger_stage ∧
    (finish r).state.last_sample = r.1.last_sample := by
  unfold finish
  have h := hw_dev_acquisition_stop_frame r.1
  split <;> simp [h]

/-- The state a batch leaves: everything but the counter is as `emit` found it,
and in Logic mode the counter has advanced by the batch size. -/
theorem emit_frame (env : Env) (rnd : Nat → Nat) (s : State) (n : Nat) :
    (emit env rnd s n).1.mode = s.mode ∧
    (emit env rnd s n).1.limit_samples = s.limit_samples ∧
    (emit env rnd s n).1.samples_not_sent = s.samples_not_sent ∧
    (emit env rnd s n).1.stop = s.stop ∧
    (emit env rnd s n).1.instant = s.instant := by
  unfold emit
  split
  · simp only []
    have h1 := advance_counter_frame s (min n (if s.mode = .DSO then DSO_BUFSIZE else BUFSIZE))
    have h2 := samples_generator_frame env rnd
      (advance_counter s (min n (if s.mode = .DSO then DSO_BUFSIZE else BUFSIZE)))
      (generator_size (advance_counter s (min n (if s.mode = .DSO then DSO_BUFSIZE else BUFSIZE)))
        (min n (if s.mode = .DSO then DSO_BUFSIZE else BUFSIZE)))
    have h3 := trigger_phase_frame (samples_generator env rnd
      (advance_counter s (min n (if s.mode = .DSO then DSO_BUFSIZE else BUFSIZE)))
      (generator_size (advance_counter s (min n (if s.mode = .DSO then DSO_BUFSIZE else BUFSIZE)))
        (min n (if s.mode = .DSO then DSO_BUFSIZE else BUFSIZE))))
      (min n (if s.mode = .DSO then DSO_BUFSIZE else BUFSIZE))
    have h4 := data_phase_frame (trigger_phase (samples_generator env rnd
      (advance_counter s (min n (if s.mode = .DSO then DSO_BUFSIZE else BUFSIZE)))
      (generator_size (advance_counter s (min n (if s.mode = .DSO then DSO_BUFSIZE else BUFSIZE)))
        (min n (if s.mode = .DSO then DSO_BUFSIZE else BUFSIZE))))
      (min n (if s.mode = .DSO then DSO_BUFSIZE else BUFSIZE))).1
      (min n (if s.mode = .DSO then DSO_BUFSIZE else BUFSIZE))
    simp [h1, h2, h3, h4]
  · simp

theorem emit_counter (env : Env) (rnd : Nat → Nat) (s : State) (n : Nat) :
    (emit env rnd s n).1.samples_counter =
      if 0 < n ∧ s.stop = false then
        (advance_counter s (min n (if s.mode = .DSO then DSO_BUFSIZE else BUFSIZE))).samples_counter
      else s.samples_counter := by
  unfold emit
  split
  · simp only []
    rw [(data_phase_frame _ _).2.2.1, (trigger_phase_frame _ _).2.2.1,
      (samples_generator_frame _ _ _ _).2.2.1]
  · rfl

/-! ## The sample counter in Logic mode -/

/-- What lines 978-995 leave in Logic mode: the state keeps everything but
`samples_not_sent`, and a due count never exceeds the remaining budget. -/
theorem pacing_logic (s : State) (c : Nat) (hmode : s.mode = .LOGIC) :
    (∀ s1, pacing s c = .early s1 →
      s1.mode = s.mode ∧ s1.limit_samples = s.limit_samples ∧
      s1.samples_counter = s.samples_counter) ∧
    (∀ s1 n, pacing s c = .due s1 n →
      s1.mode = s.mode ∧ s1.limit_samples = s.limit_samples ∧
      s1.samples_counter = s.samples_counter ∧
      n ≤ (s.limit_samples + U64 - s.samples_counter) % U64) := by
  unfold pacing
  simp only [hmode]
  constructor
  · intro s1 h
    split_ifs at h
    simp_all
    cases h
    simp
  · intro s1 n h
    split_ifs at h <;> simp_all
    all_goals (obtain ⟨h1, h2⟩ := h; subst h1; subst h2; simp)

theorem tick_logic_counter (env : Env) (s : State) (tk : Tick) (hmode : s.mode = .LOGIC)
    (hle : s.samples_counter ≤ s.limit_samples) (hw : s.limit_samples < U64) :
    (receive_data env s tk).state.mode = .LOGIC ∧
    (receive_data env s tk).state.limit_samples = s.limit_samples ∧
    s.samples_counter ≤ (receive_data env s tk).state.samples_counter ∧
    (receive_data env s tk).state.samples_counter ≤ s.limit_samples := by
  have hp := pacing_logic { s with starttime := tk.time }
    (env.ceil_samples (tk.time - s.starttime) s.cur_samplerate) hmode
  unfold receive_data
  simp only []
  cases hpc : pacing { s with starttime := tk.time }
      (env.ceil_samples (tk.time - s.starttime) s.cur_samplerate) with
  | early s1 =>
    obtain ⟨a, b, c⟩ := hp.1 s1 hpc
    simp at a b c
    simp [a, b, c, hmode, hle]
  | due s1 n =>
    obtain ⟨a, b, c, d⟩ := hp.2 s1 n hpc
    simp at a b c d
    have hf := finish_frame (emit env tk.rnd s1 n)
    have he := emit_frame env tk.rnd s1 n
    have hc := emit_counter env tk.rnd s1 n
    have hadv : (advance_counter s1 (min n (if s1.mode = .DSO then DSO_BUFSIZE else BUFSIZE))).samples_counter
        = (s.samples_counter + min n BUFSIZE) % U64 := by
      unfold advance_counter
      simp [a, hmode, c]
    simp only []
    rw [hf.1, hf.2.1, hf.2.2.1, he.1, he.2.1, hc, hadv, a, b, hmode]
    refine ⟨rfl, rfl, ?_⟩
    have hbud : (s.limit_samples + U64 - s.samples_counter) % U64 =
        s.limit_samples - s.samples_counter := by
      have : s.limit_samples + U64 - s.samples_counter =
          (s.limit_samples - s.samples_counter) + U64 := by omega
      rw [this, Nat.add_mod_right]
      exact Nat.mod_eq_of_lt (by omega)
    rw [hbud] at d
    split_ifs with hgo
    · have hmin : min n BUFSIZE ≤ n := Nat.min_le_left _ _
      have hlt : s.samples_counter + min n BUFSIZE < U64 := by omega
      rw [Nat.mod_eq_of_lt hlt]
      omega
    · rw [c]; omega

/-- C1. From every Logic-mode state with `samples_counter <= limit_samples`
(`limit_samples` a `uint64_t`), along every sequence of ticks, whatever the clock
readings, the rounding of the elapsed-sample count, the draws of `rand()` and the
trigger settings: `samples_counter` never decreases from one tick to the next,
and after every tick it is at most `limit_samples`, hence at most
`ceil(limit_samples/64)*64`. -/
theorem logic_counter_monotone_bounded (env : Env) (s : State) (ticks : List Tick)
    (hmode : s.mode = .LOGIC) (hle : s.samples_counter ≤ s.limit_samples)
    (hw : s.limit_samples < U64) :
    List.Chain (fun a b => a ≤ b) s.samples_counter
      ((trace env s ticks).map (fun r => r.state.samples_counter)) ∧
    (∀ r, r ∈ trace env s ticks →
      r.state.samples_counter ≤ s.limit_samples ∧
      r.state.samples_counter ≤ (s.limit_samples + 63) / 64 * 64) := by
  induction ticks generalizing s with
  | nil => simp [trace]
  | cons tk rest ih =>
    obtain ⟨h1, h2, h3, h4⟩ := tick_logic_counter env s tk hmode hle hw
    obtain ⟨ih1, ih2⟩ := ih (receive_data env s tk).state h1 (by rw [h2]; exact h4)
      (by rw [h2]; exact hw)
    rw [h2] at ih2
    constructor
    · simp only [trace, List.map_cons]
      exact List.Chain.cons h3 ih1
    · intro r hr
      simp only [trace, List.mem_cons] at hr
      rcases hr with hr | hr
      · subst hr
        exact ⟨h4, by omega⟩
      · exact ih2 r hr

theorem logic_counter_monotone_bounded_witness :
    logic_state.mode = .LOGIC ∧ logic_state.samples_counter ≤ logic_state.limit_samples ∧
    logic_state.limit_samples < U64 ∧
    List.Chain (fun a b => a ≤ b) logic_state.samples_counter
      ((trace exact_env logic_state logic_ticks).map (fun r => r.state.samples_counter)) :=
  ⟨rfl, by decide, by decide,
    (logic_counter_monotone_bounded exact_env logic_state logic_ticks rfl (by decide)
      (by decide)).1⟩

/-! ## Packing of the two analog channels -/

theorem forLoop_channel_step (env : Env) (s : State) (probe : sr_channel) (size : Nat)
    (buf : Nat → Nat) (i : Nat) :
    forLoop (channel_step env s probe) size buf i =
      if i < size then
        (buf i + channel_value env s probe i * 2 ^ (probe.index * 8)) % U16
      else buf i := by
  induction size with
  | zero => simp [forLoop]
  | succ n ih =>
    simp only [forLoop, channel_step, poke]
    by_cases h : i = n
    · subst h
      simp [ih]
    · rw [if_neg h, ih]
      by_cases h2 : i < n
      · have : i < n + 1 := by omega
        simp [h2, this]
      · have : ¬ i < n + 1 := by omega
        simp [h2, this]

theorem to_uint8_lt (q : ℚ) : to_uint8 q < 256 := by
  unfold to_uint8
  have h1 : 0 ≤ trunc q % 256 := Int.emod_nonneg _ (by decide)
  have h2 : trunc q % 256 < 256 := Int.emod_lt_of_pos _ (by decide)
  omega

theorem channel_value_lt (env : Env) (s : State) (probe : sr_channel) (i : Nat)
    (h : probe.coupling = SR_AC_COUPLING ∨ probe.coupling = SR_DC_COUPLING) :
    channel_value env s probe i < 256 := by
  unfold channel_value
  rcases h with h | h
  · have hne : ¬ probe.coupling = SR_DC_COUPLING := by rw [h]; decide
    rw [if_neg hne, if_pos h]
    exact to_uint8_lt _
  · rw [if_pos h]
    exact to_uint8_lt _

/-- C5. Analog or oscilloscope synthesis over the channel list made of channel 0
and channel 1, each AC- or DC-coupled: for every index below `size` the low byte
of the word is channel 0's 8-bit value, the high byte is channel 1's 8-bit
value, and the word is their sum `v0 + 256*v1`, so neither addition carries into
the other byte. -/
theorem analog_packing_two_channels (env : Env) (rnd : Nat → Nat) (s : State)
    (ch0 ch1 : sr_channel) (size : Nat)
    (hmode : s.mode = .ANALOG ∨ s.mode = .DSO)
    (hch : s.channels = [ch0, ch1]) (h0 : ch0.index = 0) (h1 : ch1.index = 1)
    (hc0 : ch0.coupling = SR_AC_COUPLING ∨ ch0.coupling = SR_DC_COUPLING)
    (hc1 : ch1.coupling = SR_AC_COUPLING ∨ ch1.coupling = SR_DC_COUPLING) :
    ∀ i, i < size →
      (samples_generator env rnd s size).buf i &&& 0xFF = channel_value env s ch0 i ∧
      ((samples_generator env rnd s size).buf i >>> 8) &&& 0xFF = channel_value env s ch1 i ∧
      (samples_generator env rnd s size).buf i =
        channel_value env s ch0 i + channel_value env s ch1 i * 256 := by
  intro i hi
  have hv0 := channel_value_lt env s ch0 i hc0
  have hv1 := channel_value_lt env s ch1 i hc1
  have hnl : ¬ s.mode = .LOGIC := by
    rcases hmode with h | h <;> rw [h] <;> decide
  have hbuf : (samples_generator env rnd s size).buf i =
      channel_value env s ch0 i + channel_value env s ch1 i * 256 := by
    unfold samples_generator
    rw [if_neg hnl]
    simp only [hch, List.foldl_cons, List.foldl_nil]
    rw [forLoop_channel_step, if_pos hi, forLoop_channel_step, if_pos hi]
    simp only [memset0, if_pos hi, h0, h1, U16]
    norm_num
    omega
  have e255 : (255 : Nat) = 2 ^ 8 - 1 := by norm_num
  refine ⟨?_, ?_, hbuf⟩
  · rw [hbuf, e255, Nat.and_pow_two_sub_one_eq_mod]
    omega
  · rw [hbuf, e255, Nat.and_pow_two_sub_one_eq_mod, Nat.shiftRight_eq_div_pow]
    omega

theorem analog_packing_two_channels_witness :
    (analog_state.mode = .ANALOG ∨ analog_state.mode = .DSO) ∧
    analog_state.channels = [analog_ch0, analog_ch1] ∧
    analog_ch0.index = 0 ∧ analog_ch1.index = 1 ∧
    (analog_ch0.coupling = SR_AC_COUPLING ∨ analog_ch0.coupling = SR_DC_COUPLING) ∧
    (analog_ch1.coupling = SR_AC_COUPLING ∨ analog_ch1.coupling = SR_DC_COUPLING) ∧
    (samples_generator ramp_env (fun _ => 0) analog_state 4).buf 3 &&& 0xFF =
      channel_value ramp_env analog_state analog_ch0 3 :=
  ⟨Or.inl rfl, rfl, rfl, rfl, Or.inl rfl, Or.inr rfl,
    (analog_packing_two_channels ramp_env (fun _ => 0) analog_state analog_ch0 analog_ch1 4
      (Or.inl rfl) rfl rfl rfl (Or.inl rfl) (Or.inr rfl) 3 (by decide)).1⟩

/-! ## Quantised pacing in Logic mode -/

theorem and_63 (p : Nat) : p &&& 63 = p % 64 := by
  have h := Nat.and_pow_two_sub_one_eq_mod p 6
  simpa using h

theorem and_not_63 (p : Nat) (hp : p < U64) : p &&& (U64 - 64) = p / 64 * 64 := by
  apply Nat.eq_of_testBit_eq
  intro i
  have h1 : (U64 - 64 : Nat) = (2 ^ 58 - 1) <<< 6 := by simp [U64, Nat.shiftLeft_eq]
  have h2 : p / 64 * 64 = (p >>> 6) <<< 6 := by
    simp [Nat.shiftLeft_eq, Nat.shiftRight_eq_div_pow]
  rw [h1, h2, Nat.testBit_and, Nat.testBit_shiftLeft, Nat.testBit_shiftLeft,
    Nat.testBit_shiftRight, Nat.testBit_two_pow_sub_one]
  by_cases h6 : 6 ≤ i
  · have e : 6 + (i - 6) = i := by omega
    by_cases h64 : i < 64
    · have : i - 6 < 58 := by omega
      simp [h6, this, e]
    · have : ¬ (i - 6 < 58) := by omega
      simp only [h6, this, e, decide_True, decide_False, Bool.and_false, Bool.true_and,
        Bool.false_and]
      symm
      apply Nat.testBit_lt_two_pow
      calc p < 2 ^ 64 := hp
        _ ≤ 2 ^ i := Nat.pow_le_pow_right (by decide) (by omega)
  · simp [h6]

theorem logic_pending_lt (s : State) (c : Nat) : logic_pending s c < U64 :=
  Nat.mod_lt _ (by decide)

/-- C7. Logic mode with `limit_samples != 0`; `p` is the pending count of lines
984-985, `ceil(elapsed*rate) + samples_not_sent` in `uint64_t` arithmetic (the
plain sum when it does not wrap).  If `p < 64` the tick forwards nothing, calls
no stop, leaves `samples_counter`, `trigger_stage` and `last_sample` alone and
sets `samples_not_sent = p`.  If `p >= 64` the due count before clamping to the
budget (and then to the burst size) is `p/64*64`, the largest multiple of 64 not
above `p`, and `samples_not_sent` becomes `p mod 64`, the two adding up to `p`.
Either way `samples_not_sent < 64` afterwards. -/
theorem logic_quantised_pacing (env : Env) (s : State) (tk : Tick) (p : Nat)
    (hmode : s.mode = .LOGIC) (hlim : s.limit_samples ≠ 0)
    (hp : p = logic_pending s (env.ceil_samples (tk.time - s.starttime) s.cur_samplerate)) :
    (env.ceil_samples (tk.time - s.starttime) s.cur_samplerate + s.samples_not_sent < U64 →
      p = env.ceil_samples (tk.time - s.starttime) s.cur_samplerate + s.samples_not_sent) ∧
    (p < 64 →
      (receive_data env s tk).packets = [] ∧
      (receive_data env s tk).stop_called = false ∧
      (receive_data env s tk).state.samples_counter = s.samples_counter ∧
      (receive_data env s tk).state.trigger_stage = s.trigger_stage ∧
      (receive_data env s tk).state.last_sample = s.last_sample ∧
      (receive_data env s tk).state.samples_not_sent = p) ∧
    (64 ≤ p →
      pacing { s with starttime := tk.time }
          (env.ceil_samples (tk.time - s.starttime) s.cur_samplerate) =
        Pacing.due { s with starttime := tk.time, samples_not_sent := p % 64 }
          (min (p / 64 * 64) ((s.limit_samples + U64 - s.samples_counter) % U64)) ∧
      64 ∣ p / 64 * 64 ∧ p / 64 * 64 ≤ p ∧
      (∀ m, 64 ∣ m → m ≤ p → m ≤ p / 64 * 64) ∧
      (receive_data env s tk).state.samples_not_sent = p % 64 ∧
      p / 64 * 64 + p % 64 = p) ∧
    (receive_data env s tk).state.samples_not_sent < 64 := by
  have hlt : p < U64 := by rw [hp]; exact logic_pending_lt _ _
  have hpe : logic_pending { s with starttime := tk.time }
      (env.ceil_samples (tk.time - s.starttime) s.cur_samplerate) = p := by
    rw [hp]; rfl
  have hearly : p < 64 →
      receive_data env s tk =
        { state := { s with starttime := tk.time, samples_not_sent := p }, packets := [],
          stop_called := false, ret := true } := by
    intro h
    simp only [receive_data, pacing, hpe]
    simp [hmode, hlim, h]
  have hpac : 64 ≤ p →
      pacing { s with starttime := tk.time }
          (env.ceil_samples (tk.time - s.starttime) s.cur_samplerate) =
        Pacing.due { s with starttime := tk.time, samples_not_sent := p % 64 }
          (min (p / 64 * 64) ((s.limit_samples + U64 - s.samples_counter) % U64)) := by
    intro h
    have hn : ¬ p < 64 := by omega
    simp only [pacing, hpe]
    simp [hmode, hlim, hn, and_63, and_not_63 p hlt]
  have hdue : 64 ≤ p → (receive_data env s tk).state.samples_not_sent = p % 64 := by
    intro h
    have h1 := hpac h
    simp only [receive_data]
    rw [h1]
    simp only []
    rw [(finish_frame _).2.2.2.1, (emit_frame _ _ _ _).2.2.1]
  refine ⟨?_, ?_, ?_, ?_⟩
  · intro hno
    rw [hp]
    unfold logic_pending
    rw [Nat.mod_eq_of_lt (by omega : env.ceil_samples (tk.time - s.starttime) s.cur_samplerate
      < U64), Nat.mod_eq_of_lt hno]
  · intro h
    rw [hearly h]
    simp
  · intro h
    refine ⟨hpac h, Nat.dvd_mul_left _ _, Nat.div_mul_le_self _ _, ?_, hdue h, ?_⟩
    · intro m hm hmp
      obtain ⟨k, rfl⟩ := hm
      have : k ≤ p / 64 := by
        rw [Nat.le_div_iff_mul_le (by decide)]
        omega
      calc 64 * k ≤ 64 * (p / 64) := Nat.mul_le_mul_left _ this
        _ = p / 64 * 64 := Nat.mul_comm _ _
    · omega
  · by_cases h : p < 64
    · rw [hearly h]
      exact h
    · rw [hdue (by omega)]
      exact Nat.mod_lt _ (by decide)

theorem logic_quantised_pacing_witness :
    logic_state.mode = .LOGIC ∧ logic_state.limit_samples ≠ 0 ∧
    (receive_data exact_env logic_state { time := 50000 }).state.samples_not_sent = 500 % 64 :=
  ⟨rfl, by decide,
    ((logic_quantised_pacing exact_env logic_state { time := 50000 } 500 rfl (by decide)
      (by decide)).2.2.1 (by decide)).2.2.2.2.1⟩

/-! ## The oscilloscope stride -/

theorem ch_num_of_two (s : State) (h : en_ch_num s.channels = 2) : ch_num s = 2 := by
  simp [ch_num, h]

/-- C10. Oscilloscope mode (`DEMO_DSO200x2`, maximum 200 MHz) with two channels
enabled: the stride `span` of `samples_generator` is the `uint64_t` quotient
`max_samplerate / cur_samplerate`, which is the exact ratio whenever the rate
divides the maximum, and is 2 at 100 MHz. -/
theorem dso_span_two_channels (env : Env) (s : State) (hmode : s.mode = .DSO)
    (hch : s.ch_mode = .DEMO_DSO200x2) (hen : en_ch_num s.channels = 2) :
    (channel_modes s.ch_mode).max_samplerate = 200000000 ∧
    span env s = (((channel_modes s.ch_mode).max_samplerate / s.cur_samplerate : Nat) : ℚ) ∧
    (0 < s.cur_samplerate → s.cur_samplerate ∣ (channel_modes s.ch_mode).max_samplerate →
      span env s = ((channel_modes s.ch_mode).max_samplerate : ℚ) / (s.cur_samplerate : ℚ)) ∧
    (s.cur_samplerate = 100000000 → span env s = 2) := by
  have hspan : span env s =
      (((channel_modes s.ch_mode).max_samplerate / s.cur_samplerate : Nat) : ℚ) := by
    simp [span, hmode, ch_num_of_two s hen]
  have hmax : (channel_modes s.ch_mode).max_samplerate = 200000000 := by
    rw [hch]; rfl
  refine ⟨hmax, hspan, ?_, ?_⟩
  · intro hpos hdvd
    rw [hspan]
    have hne : (s.cur_samplerate : ℚ) ≠ 0 := by
      exact_mod_cast (Nat.pos_iff_ne_zero.1 hpos)
    exact Nat.cast_div hdvd hne
  · intro hrate
    rw [hspan, hmax, hrate]
    norm_num

theorem dso_span_two_channels_witness :
    dso_state.mode = .DSO ∧ dso_state.ch_mode = .DEMO_DSO200x2 ∧
    en_ch_num dso_state.channels = 2 ∧ span exact_env dso_state = 2 :=
  ⟨rfl, rfl, by decide,
    (dso_span_two_channels exact_env dso_state rfl rfl (by decide)).2.2.2 rfl⟩

/-! ## The trigger stage along an acquisition -/

theorem data_packet_is_data (s : State) (n : Nat) : (data_packet s n).is_data = true := by
  unfold data_packet
  split_ifs <;> rfl

/-- What the trigger block leaves: an armed stage either stays as it was with
nothing forwarded, or drops to zero with exactly one Trigger packet; a
satisfied stage is left alone. -/
theorem trigger_phase_shape (s : State) (n : Nat) :
    (s.trigger_stage = 0 →
      (trigger_phase s n).1.trigger_stage = 0 ∧ (trigger_phase s n).2 = []) ∧
    (s.trigger_stage ≠ 0 →
      ((trigger_phase s n).1.trigger_stage = s.trigger_stage ∧ (trigger_phase s n).2 = []) ∨
      ((trigger_phase s n).1.trigger_stage = 0 ∧
        ∃ k, (trigger_phase s n).2 = [Packet.SR_DF_TRIGGER k])) := by
  constructor
  · intro h
    simp [trigger_phase, h]
  · intro h
    cases hh : (trigger_scan s.buf s.trigger_mask s.trigger_value s.trigger_edge n 0
        s.last_sample).hit with
    | false => left; simp [trigger_phase, h, hh]
    | true => right; simp [trigger_phase, h, hh]

theorem data_phase_shape (s : State) (n : Nat) :
    (s.trigger_stage = 0 → (data_phase s n).2 = [data_packet s n]) ∧
    (s.trigger_stage ≠ 0 → (data_phase s n).2 = []) := by
  constructor <;> intro h <;> simp [data_phase, h]

theorem emit_shape (env : Env) (rnd : Nat → Nat) (s : State) (n : Nat) :
    (s.trigger_stage = 0 →
      (emit env rnd s n).1.trigger_stage = 0 ∧
      ((emit env rnd s n).2 = [] ∨
        ∃ d, d.is_data = true ∧ (emit env rnd s n).2 = [d])) ∧
    (s.trigger_stage ≠ 0 →
      ((emit env rnd s n).1.trigger_stage = s.trigger_stage ∧ (emit env rnd s n).2 = []) ∨
      ((emit env rnd s n).1.trigger_stage = 0 ∧
        ∃ k d, d.is_data = true ∧ (emit env rnd s n).2 = [Packet.SR_DF_TRIGGER k, d])) := by
  unfold emit
  split
  · simp only []
    generalize hsn : min n (if s.mode = .DSO then DSO_BUFSIZE else BUFSIZE) = sn
    generalize hs2 : samples_generator env rnd (advance_counter s sn)
      (generator_size (advance_counter s sn) sn) = s2
    have hst : s2.trigger_stage = s.trigger_stage := by
      rw [← hs2, (samples_generator_frame _ _ _ _).2.2.2.2.2.2,
        (advance_counter_frame _ _).2.2.2.2.2]
    have ht := trigger_phase_shape s2 sn
    have hd := data_phase_shape (trigger_phase s2 sn).1 sn
    have hdf := (data_phase_frame (trigger_phase s2 sn).1 sn).2.2.2.2.2.2.1
    rw [hst] at ht
    constructor
    · intro h0
      obtain ⟨a, b⟩ := ht.1 h0
      rw [hdf, a, b, hd.1 a]
      exact ⟨rfl, Or.inr ⟨_, data_packet_is_data _ _, rfl⟩⟩
    · intro h0
      rcases ht.2 h0 with ⟨a, b⟩ | ⟨a, k, b⟩
      · left
        have hne : (trigger_phase s2 sn).1.trigger_stage ≠ 0 := by rw [a]; exact h0
        rw [hdf, a, b, hd.2 hne]
        exact ⟨rfl, rfl⟩
      · right
        rw [hdf, a, b, hd.1 a]
        exact ⟨rfl, k, _, data_packet_is_data _ _, rfl⟩
  · constructor
    · intro h0; exact ⟨h0, Or.inl rfl⟩
    · intro _; exact Or.inl ⟨rfl, rfl⟩

theorem stop_packets (s : State) :
    (hw_dev_acquisition_stop s).2 = [] ∨ (hw_dev_acquisition_stop s).2 = [Packet.SR_DF_END] := by
  unfold hw_dev_acquisition_stop
  split <;> simp

/-- The packets of one tick: what `emit` forwarded, followed by at most the End
packet of the stop call. -/
theorem finish_packets (r : State × List Packet) :
    (finish r).packets = r.2 ∨ (finish r).packets = r.2 ++ [Packet.SR_DF_END] := by
  unfold finish
  split
  · rcases stop_packets r.1 with h | h <;> simp [h]
  · simp

theorem tick_trigger (env : Env) (s : State) (tk : Tick) :
    (s.trigger_stage = 0 →
      (receive_data env s tk).state.trigger_stage = 0 ∧
      (receive_data env s tk).packets.countP Packet.is_trigger = 0) ∧
    (s.trigger_stage ≠ 0 →
      ((receive_data env s tk).state.trigger_stage = s.trigger_stage ∧
        (receive_data env s tk).packets.countP Packet.is_trigger = 0) ∨
      ((receive_data env s tk).state.trigger_stage = 0 ∧
        (receive_data env s tk).packets.countP Packet.is_trigger = 1 ∧
        ∃ k d rest, d.is_data = true ∧
          (receive_data env s tk).packets = Packet.SR_DF_TRIGGER k :: d :: rest)) := by
  unfold receive_data
  simp only []
  cases hpc : pacing { s with starttime := tk.time }
      (env.ceil_samples (tk.time - s.starttime) s.cur_samplerate) with
  | early s1 =>
    have hst : s1.trigger_stage = s.trigger_stage := by
      unfold pacing at hpc
      split_ifs at hpc
      cases hpc
      rfl
    simp only []
    rw [hst]
    constructor
    · intro h; exact ⟨h, rfl⟩
    · intro _; exact Or.inl ⟨rfl, rfl⟩
  | due s1 n =>
    have hst : s1.trigger_stage = s.trigger_stage := by
      unfold pacing at hpc
      split_ifs at hpc <;> cases hpc <;> rfl
    simp only []
    have he := emit_shape env tk.rnd s1 n
    rw [hst] at he
    have hf := (finish_frame (emit env tk.rnd s1 n)).2.2.2.2.2.1
    have hpk := finish_packets (emit env tk.rnd s1 n)
    rw [hf]
    constructor
    · intro h0
      obtain ⟨a, b⟩ := he.1 h0
      refine ⟨a, ?_⟩
      rcases b with b | ⟨d, hd, b⟩ <;> rcases hpk with hpk | hpk <;> rw [hpk, b]
      · rfl
      · rfl
      · cases d <;> simp_all [Packet.is_data, Packet.is_trigger]
      · cases d <;> simp_all [Packet.is_data, Packet.is_trigger]
    · intro h0
      rcases he.2 h0 with ⟨a, b⟩ | ⟨a, k, d, hd, b⟩
      · left
        refine ⟨a, ?_⟩
        rcases hpk with hpk | hpk <;> rw [hpk, b] <;> rfl
      · right
        refine ⟨a, ?_, ?_⟩
        · rcases hpk with hpk | hpk <;> rw [hpk, b] <;>
            cases d <;> simp_all [Packet.is_data, Packet.is_trigger]
        · rcases hpk with hpk | hpk
          · exact ⟨k, d, [], hd, by rw [hpk, b]⟩
          · exact ⟨k, d, [Packet.SR_DF_END], hd, by rw [hpk, b]; rfl⟩

theorem tick_trigger_packet (env : Env) (s : State) (tk : Tick) (k : Nat)
    (h : Packet.SR_DF_TRIGGER k ∈ (receive_data env s tk).packets) :
    ∃ d rest, d.is_data = true ∧
      (receive_data env s tk).packets = Packet.SR_DF_TRIGGER k :: d :: rest ∧
      rest.countP Packet.is_trigger = 0 := by
  have hpos : 0 < (receive_data env s tk).packets.countP Packet.is_trigger :=
    List.countP_pos_iff.2 ⟨_, h, rfl⟩
  obtain ⟨h0, h1⟩ := tick_trigger env s tk
  by_cases hs : s.trigger_stage = 0
  · have := (h0 hs).2
    omega
  · rcases h1 hs with ⟨_, hc⟩ | ⟨_, hc, k', d, rest, hd, hpk⟩
    · omega
    · have hdt : d.is_trigger = false := by
        cases d <;> simp_all [Packet.is_data, Packet.is_trigger]
      have hrest : rest.countP Packet.is_trigger = 0 := by
        rw [hpk] at hc
        have e1 : Packet.is_trigger (Packet.SR_DF_TRIGGER k') = true := rfl
        simp only [List.countP_cons, e1, hdt] at hc
        rw [if_neg (by decide), if_pos trivial] at hc
        omega
      rw [hpk] at h
      simp only [List.mem_cons] at h
      rcases h with h | h | h
      · cases h
        exact ⟨d, rest, hd, hpk, hrest⟩
      · rw [← h] at hd
        simp [Packet.is_data] at hd
      · have := List.countP_pos_iff.2 ⟨_, h, (rfl : Packet.is_trigger (.SR_DF_TRIGGER k) = true)⟩
        omega

theorem trace_trigger (env : Env) (ticks : List Tick) :
    ∀ s : State,
      List.Chain (fun a b => b = a ∨ (a ≠ 0 ∧ b = 0)) s.trigger_stage
        ((trace env s ticks).map (fun r => r.state.trigger_stage)) ∧
      (s.trigger_stage = 0 →
        ((trace env s ticks).map (fun r => r.packets.countP Packet.is_trigger)).sum = 0) ∧
      ((trace env s ticks).map (fun r => r.packets.countP Packet.is_trigger)).sum ≤ 1 := by
  induction ticks with
  | nil => intro s; simp [trace]
  | cons tk rest ih =>
    intro s
    obtain ⟨h0, h1⟩ := tick_trigger env s tk
    obtain ⟨ihc, ihz, ihle⟩ := ih (receive_data env s tk).state
    simp only [trace, List.map_cons, List.sum_cons]
    by_cases hs : s.trigger_stage = 0
    · obtain ⟨a, b⟩ := h0 hs
      have hz := ihz a
      refine ⟨List.Chain.cons (Or.inl (by rw [a, hs])) ihc, fun _ => by omega, by omega⟩
    · rcases h1 hs with ⟨a, b⟩ | ⟨a, b, _⟩
      · exact ⟨List.Chain.cons (Or.inl a) ihc, fun h => absurd h hs, by omega⟩
      · have hz := ihz a
        exact ⟨List.Chain.cons (Or.inr ⟨hs, a⟩) ihc, fun h => absurd h hs, by omega⟩

theorem trace_mem (env : Env) (ticks : List Tick) :
    ∀ (s : State) (r : TickResult), r ∈ trace env s ticks →
      ∃ s1 tk, r = receive_data env s1 tk := by
  induction ticks with
  | nil => intro s r h; simp [trace] at h
  | cons tk rest ih =>
    intro s r h
    simp only [trace, List.mem_cons] at h
    rcases h with h | h
    · exact ⟨s, tk, h⟩
    · exact ih _ r h

/-- C6. Along every sequence of ticks, from any state: `trigger_stage` either
keeps its value or goes from non-zero to zero, never from zero to non-zero; at
most one Trigger packet is forwarded in the whole sequence; and in the tick that
forwards it, it is the first packet and the data packet of that tick follows it
directly, with no further Trigger packet behind. -/
theorem trigger_stage_one_way (env : Env) (s : State) (ticks : List Tick) :
    List.Chain (fun a b => b = a ∨ (a ≠ 0 ∧ b = 0)) s.trigger_stage
      ((trace env s ticks).map (fun r => r.state.trigger_stage)) ∧
    ((trace env s ticks).map (fun r => r.packets.countP Packet.is_trigger)).sum ≤ 1 ∧
    (∀ r, r ∈ trace env s ticks → ∀ k, Packet.SR_DF_TRIGGER k ∈ r.packets →
      ∃ d rest, d.is_data = true ∧ r.packets = Packet.SR_DF_TRIGGER k :: d :: rest ∧
        rest.countP Packet.is_trigger = 0) := by
  obtain ⟨h1, _, h3⟩ := trace_trigger env ticks s
  refine ⟨h1, h3, ?_⟩
  intro r hr k hk
  obtain ⟨s1, tk, rfl⟩ := trace_mem env ticks s r hr
  exact tick_trigger_packet env s1 tk k hk

/-! ## The 100 Hz scenario -/

/-- C9, as stated, fails: after the twenty 50 ms ticks of the scenario the counter
is not 10000 and the stop test has not fired once. -/
theorem scenario_counter_not_limit :
    ¬ ((run exact_env scenario_state scenario_ticks).samples_counter = 10000 ∧
      ((trace exact_env scenario_state scenario_ticks).filter
        (fun r => r.stop_called)).length = 1) := by
  decide

/-- C9, amended: in Logic mode at 100 Hz with a budget of 10000 samples, twenty
ticks 50 ms apart make 100 samples due, 5 per tick; the thirteenth tick emits the
one full quantum of 64, the other ticks return early, so after the second
`samples_counter` is 64 with 36 samples pending, exactly one data packet of 64
samples (128 bytes) has been forwarded, the stop test has never fired, no End
packet has been forwarded and the stop flag is clear. -/
theorem scenario_counter_after_one_second :
    (run exact_env scenario_state scenario_ticks).samples_counter = 64 ∧
    (run exact_env scenario_state scenario_ticks).samples_not_sent = 36 ∧
    (run exact_env scenario_state scenario_ticks).stop = false ∧
    ((trace exact_env scenario_state scenario_ticks).filter
      (fun r => r.stop_called)).length = 0 ∧
    ((trace exact_env scenario_state scenario_ticks).map (fun r => r.packets)).flatten =
      [Packet.SR_DF_LOGIC 128] ∧
    (trace exact_env scenario_state scenario_ticks).map
        (fun r => r.state.samples_counter) =
      List.replicate 12 0 ++ List.replicate 8 64 := by
  decide

/-! ## Pacing over partitions of an elapsed time -/

theorem samples_generator_config (env : Env) (rnd : Nat → Nat) (s : State) (size : Nat) :
    (samples_generator env rnd s size).channels = s.channels ∧
    (samples_generator env rnd s size).limit_samples_show = s.limit_samples_show ∧
    (samples_generator env rnd s size).cur_samplerate = s.cur_samplerate ∧
    (samples_generator env rnd s size).starttime = s.starttime := by
  unfold samples_generator
  split <;> simp

theorem trigger_phase_config (s : State) (n : Nat) :
    (trigger_phase s n).1.channels = s.channels ∧
    (trigger_phase s n).1.limit_samples_show = s.limit_samples_show ∧
    (trigger_phase s n).1.cur_samplerate = s.cur_samplerate ∧
    (trigger_phase s n).1.starttime = s.starttime := by
  simp only [trigger_phase]
  split_ifs <;> simp

theorem data_phase_config (s : State) (n : Nat) :
    (data_phase s n).1.channels = s.channels ∧
    (data_phase s n).1.limit_samples_show = s.limit_samples_show ∧
    (data_phase s n).1.cur_samplerate = s.cur_samplerate ∧
    (data_phase s n).1.starttime = s.starttime := by
  unfold data_phase update_mstatus advance_pre_index
  split
  · split
    · split <;> simp
    · split <;> simp
  · simp

theorem advance_counter_config (s : State) (n : Nat) :
    (advance_counter s n).channels = s.channels ∧
    (advance_counter s n).limit_samples_show = s.limit_samples_show ∧
    (advance_counter s n).cur_samplerate = s.cur_samplerate ∧
    (advance_counter s n).starttime = s.starttime := by
  unfold advance_counter
  split
  · split <;> simp
  · simp

theorem emit_config (env : Env) (rnd : Nat → Nat) (s : State) (n : Nat) :
    (emit env rnd s n).1.channels = s.channels ∧
    (emit env rnd s n).1.limit_samples_show = s.limit_samples_show ∧
    (emit env rnd s n).1.cur_samplerate = s.cur_samplerate ∧
    (emit env rnd s n).1.starttime = s.starttime := by
  unfold emit
  split
  · simp only []
    generalize min n (if s.mode = .DSO then DSO_BUFSIZE else BUFSIZE) = sn
    have h1 := advance_counter_config s sn
    have h2 := samples_generator_config env rnd (advance_counter s sn)
      (generator_size (advance_counter s sn) sn)
    have h3 := trigger_phase_config (samples_generator env rnd (advance_counter s sn)
      (generator_size (advance_counter s sn) sn)) sn
    have h4 := data_phase_config (trigger_phase (samples_generator env rnd
      (advance_counter s sn) (generator_size (advance_counter s sn) sn)) sn).1 sn
    simp [h1, h2, h3, h4]
  · simp

/-- A tick that does not reach the stop test's limit leaves the configuration,
and the stop flag, as `emit` left them. -/
theorem finish_running (r : State × List Packet) (h : limit_reached r.1 = false) :
    (finish r).state = r.1 := by
  unfold finish
  simp [h]

theorem pacing_plain (s : State) (c : Nat)
    (hm : s.mode = .ANALOG ∨ (s.mode = .DSO ∧ s.instant = false ∧ en_ch_num s.channels ≠ 1))
    (hlim : s.limit_samples ≠ 0) : pacing s c = .due s (c % U64) := by
  unfold pacing
  rcases hm with h | ⟨h1, h2, _⟩
  · simp [h, hlim]
  · simp [h1, h2, hlim]

theorem burst_cap_lt (m : Mode) : burst_cap m < U64 := by
  unfold burst_cap
  split <;> decide

theorem burst_cap_le (m : Mode) : burst_cap m ≤ BUFSIZE := by
  unfold burst_cap
  split <;> decide

/-- A batch in Analog mode, or in the oscilloscope without the instant flag and
with other than one channel enabled, away from the limits: the counter advances
by exactly the count found due. -/
theorem emit_plain (env : Env) (rnd : Nat → Nat) (s : State) (c : Nat)
    (hm : s.mode = .ANALOG ∨ (s.mode = .DSO ∧ s.instant = false ∧ en_ch_num s.channels ≠ 1))
    (hstop : s.stop = false) (hcap : c ≤ burst_cap s.mode)
    (hlim : s.samples_counter + c < s.limit_samples)
    (hshow : s.samples_counter + c ≤ s.limit_samples_show)
    (hw : s.limit_samples < U64) :
    (emit env rnd s c).1.samples_counter = s.samples_counter + c := by
  rw [emit_counter]
  by_cases hgo : 0 < c ∧ s.stop = false
  · rw [if_pos hgo]
    have hmin : min c (if s.mode = .DSO then DSO_BUFSIZE else BUFSIZE) = c := by
      apply Nat.min_eq_left
      simpa [burst_cap] using hcap
    rw [hmin]
    unfold advance_counter
    rcases hm with h | ⟨h1, h2, h3⟩
    · have hn : ¬ (s.mode = .DSO ∧ s.instant = false) := by rw [h]; simp
      rw [if_neg hn]
      exact Nat.mod_eq_of_lt (by omega)
    · rw [if_pos ⟨h1, h2⟩, if_neg h3]
      show min ((s.samples_counter + c) % U64) s.limit_samples_show = s.samples_counter + c
      rw [Nat.mod_eq_of_lt (by omega)]
      exact Nat.min_eq_left hshow
  · rw [if_neg hgo]
    have h0 : c = 0 := by
      by_contra hne
      exact hgo ⟨Nat.pos_of_ne_zero hne, hstop⟩
    rw [h0]; rfl

/-- One tick in Analog mode, or in the oscilloscope without the instant flag and
with other than one channel enabled, away from the limits: the counter advances
by exactly the count found due. -/
theorem tick_plain (env : Env) (s : State) (tk : Tick) (c : Nat)
    (hc : env.ceil_samples (tk.time - s.starttime) s.cur_samplerate = c)
    (hm : s.mode = .ANALOG ∨ (s.mode = .DSO ∧ s.instant = false ∧ en_ch_num s.channels ≠ 1))
    (hstop : s.stop = false) (hcap : c ≤ burst_cap s.mode)
    (hlim : s.samples_counter + c < s.limit_samples)
    (hshow : s.samples_counter + c ≤ s.limit_samples_show)
    (hw : s.limit_samples < U64) :
    same_config s (receive_data env s tk).state ∧
    (receive_data env s tk).state.stop = false ∧
    (receive_data env s tk).state.starttime = tk.time ∧
    (receive_data env s tk).state.samples_counter = s.samples_counter + c := by
  have hl0 : s.limit_samples ≠ 0 := by omega
  have hcl : c < U64 := lt_of_le_of_lt hcap (burst_cap_lt _)
  generalize hs0 : ({ s with starttime := tk.time } : State) = s0
  have e1 : s0.mode = s.mode := by rw [← hs0]
  have e2 : s0.instant = s.instant := by rw [← hs0]
  have e3 : s0.channels = s.channels := by rw [← hs0]
  have e4 : s0.limit_samples = s.limit_samples := by rw [← hs0]
  have e5 : s0.limit_samples_show = s.limit_samples_show := by rw [← hs0]
  have e6 : s0.cur_samplerate = s.cur_samplerate := by rw [← hs0]
  have e7 : s0.stop = s.stop := by rw [← hs0]
  have e8 : s0.samples_counter = s.samples_counter := by rw [← hs0]
  have e9 : s0.starttime = tk.time := by rw [← hs0]
  have hm0 : s0.mode = .ANALOG ∨
      (s0.mode = .DSO ∧ s0.instant = false ∧ en_ch_num s0.channels ≠ 1) := by
    rw [e1, e2, e3]; exact hm
  have hpac := pacing_plain s0 c hm0 (by rw [e4]; exact hl0)
  rw [Nat.mod_eq_of_lt hcl] at hpac
  have hrd : receive_data env s tk = finish (emit env tk.rnd s0 c) := by
    simp only [receive_data, hc, hs0, e6, hpac]
  have hef := emit_frame env tk.rnd s0 c
  have hec := emit_config env tk.rnd s0 c
  have hcnt : (emit env tk.rnd s0 c).1.samples_counter = s.samples_counter + c := by
    rw [emit_plain env tk.rnd s0 c hm0 (by rw [e7]; exact hstop) (by rw [e1]; exact hcap)
      (by rw [e8, e4]; exact hlim) (by rw [e8, e5]; exact hshow) (by rw [e4]; exact hw), e8]
  have hnr : limit_reached (emit env tk.rnd s0 c).1 = false := by
    unfold limit_reached
    rw [hcnt, hef.2.1, e4]
    simp only [decide_eq_false_iff_not, not_and, not_le]
    intro _ _
    exact hlim
  rw [hrd, finish_running _ hnr]
  refine ⟨⟨?_, ?_, ?_, ?_, ?_, ?_⟩, ?_, ?_, hcnt⟩
  · rw [hef.1, e1]
  · rw [hef.2.2.2.2, e2]
  · rw [hec.1, e3]
  · rw [hef.2.1, e4]
  · rw [hec.2.1, e5]
  · rw [hec.2.2.1, e6]
  · rw [hef.2.2.2.1, e7]; exact hstop
  · rw [hec.2.2.2, e9]

theorem pacing_logic_early (s : State) (c : Nat) (hmode : s.mode = .LOGIC)
    (hlim : s.limit_samples ≠ 0) (h : logic_pending s c < 64) :
    pacing s c = .early { s with samples_not_sent := logic_pending s c } := by
  simp only [pacing]
  simp [hmode, hlim, h]

theorem pacing_logic_due (s : State) (c : Nat) (hmode : s.mode = .LOGIC)
    (hlim : s.limit_samples ≠ 0) (h : 64 ≤ logic_pending s c) :
    pacing s c =
      .due { s with samples_not_sent := logic_pending s c % 64 }
        (min (logic_pending s c / 64 * 64)
          ((s.limit_samples + U64 - s.samples_counter) % U64)) := by
  have hn : ¬ logic_pending s c < 64 := by omega
  simp only [pacing]
  simp [hmode, hlim, hn, and_63, and_not_63 _ (logic_pending_lt s c)]

theorem pacing_logic_due_ex (s : State) (c : Nat) (hmode : s.mode = .LOGIC)
    (hlim : s.limit_samples ≠ 0) (h : 64 ≤ logic_pending s c) :
    ∃ s1, pacing s c =
        .due s1 (min (logic_pending s c / 64 * 64)
          ((s.limit_samples + U64 - s.samples_counter) % U64)) ∧
      s1.mode = s.mode ∧ s1.instant = s.instant ∧ s1.channels = s.channels ∧
      s1.limit_samples = s.limit_samples ∧ s1.limit_samples_show = s.limit_samples_show ∧
      s1.cur_samplerate = s.cur_samplerate ∧ s1.stop = s.stop ∧
      s1.samples_counter = s.samples_counter ∧ s1.starttime = s.starttime ∧
      s1.samples_not_sent = logic_pending s c % 64 :=
  ⟨_, pacing_logic_due s c hmode hlim h, rfl, rfl, rfl, rfl, rfl, rfl, rfl, rfl, rfl, rfl⟩

/-- A batch in Logic mode that fits the burst capacity and stays below the limit:
the counter advances by the batch. -/
theorem emit_logic (env : Env) (rnd : Nat → Nat) (s : State) (q : Nat)
    (hmode : s.mode = .LOGIC) (hstop : s.stop = false) (hcap : q ≤ BUFSIZE)
    (hlim : s.samples_counter + q < s.limit_samples) (hw : s.limit_samples < U64) :
    (emit env rnd s q).1.samples_counter = s.samples_counter + q := by
  rw [emit_counter]
  by_cases hgo : 0 < q ∧ s.stop = false
  · rw [if_pos hgo]
    have hnd : ¬ s.mode = .DSO := by rw [hmode]; decide
    rw [if_neg hnd, Nat.min_eq_left hcap]
    unfold advance_counter
    have hn : ¬ (s.mode = .DSO ∧ s.instant = false) := fun h => hnd h.1
    rw [if_neg hn]
    exact Nat.mod_eq_of_lt (by omega)
  · rw [if_neg hgo]
    have h0 : q = 0 := by
      by_contra hne
      exact hgo ⟨Nat.pos_of_ne_zero hne, hstop⟩
    rw [h0]; rfl

/-- One tick in Logic mode away from the burst capacity and the limit: the count
found due is added to what is counted plus what is pending, the pending part
stays below 64, and a counter that was a multiple of 64 remains one. -/
theorem tick_logic (env : Env) (s : State) (tk : Tick) (c : Nat)
    (hc : env.ceil_samples (tk.time - s.starttime) s.cur_samplerate = c)
    (hmode : s.mode = .LOGIC) (hstop : s.stop = false) (hns : s.samples_not_sent < 64)
    (hcap : c + 63 ≤ BUFSIZE)
    (hlim : s.samples_counter + s.samples_not_sent + c < s.limit_samples)
    (hw : s.limit_samples < U64) :
    same_config s (receive_data env s tk).state ∧
    (receive_data env s tk).state.stop = false ∧
    (receive_data env s tk).state.starttime = tk.time ∧
    (receive_data env s tk).state.samples_counter +
        (receive_data env s tk).state.samples_not_sent =
      s.samples_counter + s.samples_not_sent + c ∧
    (receive_data env s tk).state.samples_not_sent < 64 ∧
    (64 ∣ s.samples_counter → 64 ∣ (receive_data env s tk).state.samples_counter) := by
  have hl0 : s.limit_samples ≠ 0 := by omega
  have hB : BUFSIZE < U64 := by decide
  generalize hs0 : ({ s with starttime := tk.time } : State) = s0
  have e1 : s0.mode = s.mode := by rw [← hs0]
  have e2 : s0.instant = s.instant := by rw [← hs0]
  have e3 : s0.channels = s.channels := by rw [← hs0]
  have e4 : s0.limit_samples = s.limit_samples := by rw [← hs0]
  have e5 : s0.limit_samples_show = s.limit_samples_show := by rw [← hs0]
  have e6 : s0.cur_samplerate = s.cur_samplerate := by rw [← hs0]
  have e7 : s0.stop = s.stop := by rw [← hs0]
  have e8 : s0.samples_counter = s.samples_counter := by rw [← hs0]
  have e9 : s0.starttime = tk.time := by rw [← hs0]
  have e10 : s0.samples_not_sent = s.samples_not_sent := by rw [← hs0]
  have hp : logic_pending s0 c = c + s.samples_not_sent := by
    unfold logic_pending
    rw [e10, Nat.mod_eq_of_lt (by omega : c < U64), Nat.mod_eq_of_lt (by omega)]
  have hrd0 : receive_data env s tk =
      match pacing s0 c with
      | .early s1 => { state := s1, packets := [], stop_called := false, ret := true }
      | .due s1 n => finish (emit env tk.rnd s1 n) := by
    simp only [receive_data, hc, hs0, e6]
  by_cases hsmall : c + s.samples_not_sent < 64
  · rw [hrd0, pacing_logic_early s0 c (by rw [e1]; exact hmode) (by rw [e4]; exact hl0)
      (by rw [hp]; exact hsmall), hp]
    simp only [same_config]
    rw [e1, e2, e3, e4, e5, e6, e7, e8, e9]
    refine ⟨⟨rfl, rfl, rfl, rfl, rfl, rfl⟩, hstop, rfl, by omega, hsmall, fun h => h⟩
  · have hbig : 64 ≤ logic_pending s0 c := by rw [hp]; omega
    have hbud : (s.limit_samples + U64 - s.samples_counter) % U64 =
        s.limit_samples - s.samples_counter := by
      have : s.limit_samples + U64 - s.samples_counter =
          (s.limit_samples - s.samples_counter) + U64 := by omega
      rw [this, Nat.add_mod_right]
      exact Nat.mod_eq_of_lt (by omega)
    have hq : min ((c + s.samples_not_sent) / 64 * 64)
        (s.limit_samples - s.samples_counter) = (c + s.samples_not_sent) / 64 * 64 := by
      apply Nat.min_eq_left
      omega
    obtain ⟨s1, hpd, g1, g2, g3, g4, g5, g6, g7, g8, g9, g10⟩ :=
      pacing_logic_due_ex s0 c (by rw [e1]; exact hmode) (by rw [e4]; exact hl0) hbig
    rw [hp, e4, e8, hbud, hq] at hpd
    rw [hp] at g10
    rw [hrd0, hpd]
    show same_config s (finish (emit env tk.rnd s1 ((c + s.samples_not_sent) / 64 * 64))).state ∧
      (finish (emit env tk.rnd s1 ((c + s.samples_not_sent) / 64 * 64))).state.stop = false ∧
      (finish (emit env tk.rnd s1 ((c + s.samples_not_sent) / 64 * 64))).state.starttime
        = tk.time ∧
      (finish (emit env tk.rnd s1 ((c + s.samples_not_sent) / 64 * 64))).state.samples_counter +
        (finish (emit env tk.rnd s1 ((c + s.samples_not_sent) / 64 * 64))).state.samples_not_sent
        = s.samples_counter + s.samples_not_sent + c ∧
      (finish (emit env tk.rnd s1 ((c + s.samples_not_sent) / 64 * 64))).state.samples_not_sent
        < 64 ∧
      (64 ∣ s.samples_counter →
        64 ∣ (finish (emit env tk.rnd s1
          ((c + s.samples_not_sent) / 64 * 64))).state.samples_counter)
    have f1 : s1.mode = s.mode := by rw [g1]; exact e1
    have f2 : s1.instant = s.instant := by rw [g2]; exact e2
    have f3 : s1.channels = s.channels := by rw [g3]; exact e3
    have f4 : s1.limit_samples = s.limit_samples := by rw [g4]; exact e4
    have f5 : s1.limit_samples_show = s.limit_samples_show := by rw [g5]; exact e5
    have f6 : s1.cur_samplerate = s.cur_samplerate := by rw [g6]; exact e6
    have f7 : s1.stop = s.stop := by rw [g7]; exact e7
    have f8 : s1.samples_counter = s.samples_counter := by rw [g8]; exact e8
    have f9 : s1.starttime = tk.time := by rw [g9]; exact e9
    have f10 : s1.samples_not_sent = (c + s.samples_not_sent) % 64 := g10
    have hef := emit_frame env tk.rnd s1 ((c + s.samples_not_sent) / 64 * 64)
    have hec := emit_config env tk.rnd s1 ((c + s.samples_not_sent) / 64 * 64)
    have hcnt := emit_logic env tk.rnd s1 ((c + s.samples_not_sent) / 64 * 64)
      (by rw [f1]; exact hmode) (by rw [f7]; exact hstop) (by omega)
      (by rw [f8, f4]; omega) (by rw [f4]; exact hw)
    rw [f8] at hcnt
    have hnr : limit_reached (emit env tk.rnd s1 ((c + s.samples_not_sent) / 64 * 64)).1
        = false := by
      unfold limit_reached
      rw [hcnt, hef.2.1, f4]
      simp only [decide_eq_false_iff_not, not_and, not_le]
      intro _ _
      omega
    rw [finish_running _ hnr]
    refine ⟨⟨?_, ?_, ?_, ?_, ?_, ?_⟩, ?_, ?_, ?_, ?_, ?_⟩
    · rw [hef.1, f1]
    · rw [hef.2.2.2.2, f2]
    · rw [hec.1, f3]
    · rw [hef.2.1, f4]
    · rw [hec.2.1, f5]
    · rw [hec.2.2.1, f6]
    · rw [hef.2.2.2.1, f7]; exact hstop
    · rw [hec.2.2.2, f9]
    · rw [hcnt, hef.2.2.1, f10]; omega
    · rw [hef.2.2.1, f10]; exact Nat.mod_lt _ (by decide)
    · intro hd
      rw [hcnt]
      exact Nat.dvd_add hd (Nat.dvd_mul_left _ _)

theorem dues_cons (rate : Nat) (t0 : Int) (tk : Tick) (rest : List Tick) :
    dues rate t0 (tk :: rest) = ceil_exact (tk.time - t0) rate :: dues rate tk.time rest := by
  simp [dues, elapsed_of]

/-- A run in Analog mode, or in the oscilloscope without the instant flag and
with other than one channel enabled, away from the limits: the counter ends at
its start plus the sum of the per-tick due counts. -/
theorem run_plain (env : Env) (ticks : List Tick) :
    ∀ s : State,
      (∀ e, e ∈ elapsed_of s.starttime ticks →
        env.ceil_samples e s.cur_samplerate = ceil_exact e s.cur_samplerate) →
      (s.mode = .ANALOG ∨ (s.mode = .DSO ∧ s.instant = false ∧ en_ch_num s.channels ≠ 1)) →
      s.stop = false →
      (∀ c, c ∈ dues s.cur_samplerate s.starttime ticks → c ≤ burst_cap s.mode) →
      s.samples_counter + (dues s.cur_samplerate s.starttime ticks).sum < s.limit_samples →
      s.samples_counter + (dues s.cur_samplerate s.starttime ticks).sum
        ≤ s.limit_samples_show →
      s.limit_samples < U64 →
      (run env s ticks).samples_counter =
        s.samples_counter + (dues s.cur_samplerate s.starttime ticks).sum := by
  induction ticks with
  | nil => intro s _ _ _ _ _ _ _; simp [run, dues, elapsed_of]
  | cons tk rest ih =>
    intro s hex hm hstop hcap hlim hshow hw
    rw [dues_cons] at hcap hlim hshow ⊢
    simp only [List.sum_cons] at hlim hshow ⊢
    have hc : env.ceil_samples (tk.time - s.starttime) s.cur_samplerate =
        ceil_exact (tk.time - s.starttime) s.cur_samplerate :=
      hex _ (List.mem_cons_self _ _)
    obtain ⟨⟨c1, c2, c3, c4, c5, c6⟩, hs, ht, hcnt⟩ :=
      tick_plain env s tk _ hc hm hstop (hcap _ (List.mem_cons_self _ _)) (by omega)
        (by omega) hw
    have := ih (receive_data env s tk).state
      (by rw [c6, ht]; exact fun e h => hex e (List.mem_cons_of_mem _ h))
      (by rw [c1, c2, c3]; exact hm) hs
      (by rw [c6, ht, c1]; exact fun c h => hcap c (List.mem_cons_of_mem _ h))
      (by rw [c6, ht, c4, hcnt]; omega) (by rw [c6, ht, c5, hcnt]; omega)
      (by rw [c4]; exact hw)
    simp only [run]
    rw [this, c6, ht, hcnt]
    omega

/-- A run in Logic mode away from the burst capacity and the limit: what is
counted plus what is pending grows by the sum of the per-tick due counts, the
pending part stays below 64 and the counter stays a multiple of 64. -/
theorem run_logic (env : Env) (ticks : List Tick) :
    ∀ s : State,
      (∀ e, e ∈ elapsed_of s.starttime ticks →
        env.ceil_samples e s.cur_samplerate = ceil_exact e s.cur_samplerate) →
      s.mode = .LOGIC → s.stop = false → s.samples_not_sent < 64 →
      (∀ c, c ∈ dues s.cur_samplerate s.starttime ticks → c + 63 ≤ BUFSIZE) →
      s.samples_counter + s.samples_not_sent +
        (dues s.cur_samplerate s.starttime ticks).sum < s.limit_samples →
      s.limit_samples < U64 →
      (run env s ticks).samples_counter + (run env s ticks).samples_not_sent =
        s.samples_counter + s.samples_not_sent +
          (dues s.cur_samplerate s.starttime ticks).sum ∧
      (run env s ticks).samples_not_sent < 64 ∧
      (64 ∣ s.samples_counter → 64 ∣ (run env s ticks).samples_counter) := by
  induction ticks with
  | nil =>
    intro s _ _ _ hns _ _ _
    simp only [run, dues, elapsed_of, List.map_nil, List.sum_nil]
    exact ⟨rfl, hns, fun h => h⟩
  | cons tk rest ih =>
    intro s hex hm hstop hns hcap hlim hw
    rw [dues_cons] at hcap hlim ⊢
    simp only [List.sum_cons] at hlim ⊢
    have hc : env.ceil_samples (tk.time - s.starttime) s.cur_samplerate =
        ceil_exact (tk.time - s.starttime) s.cur_samplerate :=
      hex _ (List.mem_cons_self _ _)
    obtain ⟨⟨c1, c2, c3, c4, c5, c6⟩, hs, ht, hsum, hns1, hdvd⟩ :=
      tick_logic env s tk _ hc hm hstop hns (hcap _ (List.mem_cons_self _ _)) (by omega) hw
    obtain ⟨a, b, d⟩ := ih (receive_data env s tk).state
      (by rw [c6, ht]; exact fun e h => hex e (List.mem_cons_of_mem _ h))
      (by rw [c1]; exact hm) hs hns1
      (by rw [c6, ht]; exact fun c h => hcap c (List.mem_cons_of_mem _ h))
      (by rw [c6, ht, c4, hsum]; omega) (by rw [c4]; exact hw)
    simp only [run]
    rw [c6, ht] at a
    refine ⟨by rw [a, hsum]; omega, b, fun h => d (hdvd h)⟩

theorem ceil_exact_eq (e : Int) (rate : Nat) :
    ceil_exact e rate = ceil_millionth (e * (rate : Int)) := rfl

theorem ceil_millionth_add (x y : Int) (hx : 0 ≤ x) (hy : 0 ≤ y) :
    ceil_millionth (x + y) ≤ ceil_millionth x + ceil_millionth y ∧
    ceil_millionth x + ceil_millionth y ≤ ceil_millionth (x + y) + 1 := by
  unfold ceil_millionth
  omega

theorem ceil_millionth_add_dvd (x y : Int) (hx : 0 ≤ x) (hy : 0 ≤ y)
    (h : (1000000 : Int) ∣ x) :
    ceil_millionth (x + y) = ceil_millionth x + ceil_millionth y := by
  unfold ceil_millionth
  omega

/-- The sum of the per-tick ceilings lies between the ceiling of the whole and
that ceiling plus one less than the number of ticks. -/
theorem ceil_sum_bounds (rate : Nat) (es : List Int) (h : ∀ e, e ∈ es → 0 ≤ e) :
    0 ≤ es.sum ∧
    ceil_exact es.sum rate ≤ (es.map (fun e => ceil_exact e rate)).sum ∧
    (es.map (fun e => ceil_exact e rate)).sum + 1 ≤ ceil_exact es.sum rate + max es.length 1 := by
  induction es with
  | nil => simp [ceil_exact]
  | cons e rest ih =>
    have he : 0 ≤ e := h e (List.mem_cons_self _ _)
    obtain ⟨h0, h1, h2⟩ := ih (fun x hx => h x (List.mem_cons_of_mem _ hx))
    have hR : (0 : Int) ≤ (rate : Int) := Int.ofNat_nonneg _
    have hadd := ceil_millionth_add (e * (rate : Int)) (rest.sum * (rate : Int))
      (Int.mul_nonneg he hR) (Int.mul_nonneg h0 hR)
    simp only [List.sum_cons, List.map_cons, List.length_cons, ceil_exact_eq, Int.add_mul] at *
    refine ⟨by omega, by omega, ?_⟩
    cases rest with
    | nil => simp [ceil_millionth] at *
    | cons a b =>
      simp only [List.length_cons] at *
      omega

/-- When every interval is a whole number of sample periods, the per-tick
ceilings add up to the ceiling of the whole. -/
theorem ceil_sum_whole (rate : Nat) (es : List Int) (h : ∀ e, e ∈ es → 0 ≤ e)
    (hw : ∀ e, e ∈ es → (1000000 : Int) ∣ e * (rate : Int)) :
    (es.map (fun e => ceil_exact e rate)).sum = ceil_exact es.sum rate := by
  induction es with
  | nil => simp [ceil_exact]
  | cons e rest ih =>
    have he : 0 ≤ e := h e (List.mem_cons_self _ _)
    have h0 := (ceil_sum_bounds rate rest (fun x hx => h x (List.mem_cons_of_mem _ hx))).1
    have hR : (0 : Int) ≤ (rate : Int) := Int.ofNat_nonneg _
    have hadd := ceil_millionth_add_dvd (e * (rate : Int)) (rest.sum * (rate : Int))
      (Int.mul_nonneg he hR) (Int.mul_nonneg h0 hR) (hw e (List.mem_cons_self _ _))
    have := ih (fun x hx => h x (List.mem_cons_of_mem _ hx))
      (fun x hx => hw x (List.mem_cons_of_mem _ hx))
    simp only [List.sum_cons, List.map_cons, ceil_exact_eq, Int.add_mul] at *
    omega

theorem elapsed_of_length (t0 : Int) (ticks : List Tick) :
    (elapsed_of t0 ticks).length = ticks.length := by
  induction ticks generalizing t0 with
  | nil => rfl
  | cons tk rest ih => simp [elapsed_of, ih]

/-- What a run in the compared setting emits: the sum of its per-tick due counts,
floored to the quantum of the mode. -/
theorem run_emitted (env : Env) (s : State) (T : Int) (ticks : List Tick)
    (h : PacingRun env s T ticks) :
    (run env s ticks).samples_counter =
      quantum s.mode * ((dues s.cur_samplerate s.starttime ticks).sum / quantum s.mode) := by
  rcases h.mode with hm | hm
  · obtain ⟨a, b, d⟩ := run_logic env ticks s h.exact hm h.running
      (by rw [h.pending]; decide)
      (by intro c hc; have := h.burst c hc; rw [hm] at this; exact this)
      (by rw [h.counter, h.pending]; simpa using h.limit) h.width
    rw [h.counter, h.pending] at a
    obtain ⟨k, hk⟩ := d (by rw [h.counter]; exact Nat.dvd_zero _)
    simp only [quantum, hm, if_true]
    omega
  · have hq : quantum s.mode = 1 := by
      unfold quantum
      rcases hm with hm | ⟨hm, _, _⟩ <;> rw [hm] <;> rfl
    have := run_plain env ticks s h.exact hm h.running
      (fun c hc => by have := h.burst c hc; omega)
      (by rw [h.counter]; simpa using h.limit)
      (by rw [h.counter]; simpa using h.limit_show) h.width
    rw [this, h.counter, hq]
    simp

/-- Bounds on the sum of the due counts of a run in the compared setting. -/
theorem run_dues_bounds (env : Env) (s : State) (T : Int) (ticks : List Tick)
    (h : PacingRun env s T ticks) :
    ceil_exact T s.cur_samplerate ≤ (dues s.cur_samplerate s.starttime ticks).sum ∧
    (dues s.cur_samplerate s.starttime ticks).sum + 1 ≤
      ceil_exact T s.cur_samplerate + max ticks.length 1 := by
  have := ceil_sum_bounds s.cur_samplerate (elapsed_of s.starttime ticks) h.forward
  rw [h.total, elapsed_of_length] at this
  exact this.2

/-- C8, amended.  Two partitions of one elapsed time `T` into ticks, run from the
same fresh state at a fixed rate with the trigger satisfied, below the limit and
the burst capacity, in Logic mode, Analog mode, or the oscilloscope without the
instant flag and with other than one channel enabled; at every tick of the two
runs the elapsed-sample count computed is the exact ceiling `ceil(elapsed*R)`
(which the `double` product does not give at every tick; nothing is claimed
about partitions with a tick where it does not); `q` is the quantum, 64 in Logic
mode and 1 otherwise.  Each partition emits the sum of its per-tick ceilings floored to `q`, a sum that lies
between `ceil(T*R)` and `ceil(T*R) + n - 1` for `n` ticks.  Hence the partition
that emits more exceeds the other by at most `q * ceil((n-1)/q)` samples, `n`
being its number of ticks: at most one quantum when neither partition has more
than `q + 1` ticks.  The two totals are equal when every tick interval is a
whole number of sample periods. -/
theorem pacing_partitions (env : Env) (s : State) (T : Int) (ticksA ticksB : List Tick)
    (hA : PacingRun env s T ticksA) (hB : PacingRun env s T ticksB) :
    ((run env s ticksA).samples_counter =
        quantum s.mode * ((dues s.cur_samplerate s.starttime ticksA).sum / quantum s.mode) ∧
      ceil_exact T s.cur_samplerate ≤ (dues s.cur_samplerate s.starttime ticksA).sum ∧
      (dues s.cur_samplerate s.starttime ticksA).sum + 1 ≤
        ceil_exact T s.cur_samplerate + max ticksA.length 1) ∧
    (run env s ticksA).samples_counter ≤ (run env s ticksB).samples_counter +
      quantum s.mode * ((ticksA.length - 1 + (quantum s.mode - 1)) / quantum s.mode) ∧
    (run env s ticksB).samples_counter ≤ (run env s ticksA).samples_counter +
      quantum s.mode * ((ticksB.length - 1 + (quantum s.mode - 1)) / quantum s.mode) ∧
    (ticksA.length ≤ quantum s.mode + 1 → ticksB.length ≤ quantum s.mode + 1 →
      (run env s ticksA).samples_counter ≤ (run env s ticksB).samples_counter + quantum s.mode ∧
      (run env s ticksB).samples_counter ≤ (run env s ticksA).samples_counter + quantum s.mode) ∧
    (whole_periods s.cur_samplerate s.starttime ticksA →
      whole_periods s.cur_samplerate s.starttime ticksB →
      (run env s ticksA).samples_counter = (run env s ticksB).samples_counter) := by
  have eA := run_emitted env s T ticksA hA
  have eB := run_emitted env s T ticksB hB
  obtain ⟨a1, a2⟩ := run_dues_bounds env s T ticksA hA
  obtain ⟨b1, b2⟩ := run_dues_bounds env s T ticksB hB
  have hq : quantum s.mode = 64 ∨ quantum s.mode = 1 := by
    unfold quantum; split <;> simp
  refine ⟨⟨eA, a1, a2⟩, ?_, ?_, ?_, ?_⟩
  · rw [eA, eB]
    rcases hq with hq | hq <;> rw [hq] <;> omega
  · rw [eA, eB]
    rcases hq with hq | hq <;> rw [hq] <;> omega
  · intro hnA hnB
    rw [eA, eB]
    rcases hq with hq | hq <;> rw [hq] at hnA hnB ⊢ <;> omega
  · intro wA wB
    have sA := ceil_sum_whole s.cur_samplerate (elapsed_of s.starttime ticksA) hA.forward wA
    have sB := ceil_sum_whole s.cur_samplerate (elapsed_of s.starttime ticksB) hB.forward wB
    rw [hA.total] at sA
    rw [hB.total] at sB
    rw [eA, eB]
    unfold dues
    rw [sA, sB]

set_option maxRecDepth 100000

theorem pacing_partitions_witness :
    PacingRun exact_env pace_logic_state 2000000 (ticks_every 1000000 2) ∧
    PacingRun exact_env pace_logic_state 2000000 (ticks_every 500000 4) ∧
    (run exact_env pace_logic_state (ticks_every 1000000 2)).samples_counter ≤
      (run exact_env pace_logic_state (ticks_every 500000 4)).samples_counter +
        quantum pace_logic_state.mode *
          (((ticks_every 1000000 2).length - 1 + (quantum pace_logic_state.mode - 1)) /
            quantum pace_logic_state.mode) :=
  ⟨⟨fun _ _ => rfl, Or.inl rfl, rfl, rfl, rfl, rfl, by decide, by decide, by decide, by decide,
      by decide, by decide⟩,
    ⟨fun _ _ => rfl, Or.inl rfl, rfl, rfl, rfl, rfl, by decide, by decide, by decide, by decide,
      by decide, by decide⟩,
    (pacing_partitions exact_env pace_logic_state 2000000 (ticks_every 1000000 2)
      (ticks_every 500000 4)
      ⟨fun _ _ => rfl, Or.inl rfl, rfl, rfl, rfl, rfl, by decide, by decide, by decide, by decide,
        by decide, by decide⟩
      ⟨fun _ _ => rfl, Or.inl rfl, rfl, rfl, rfl, rfl, by decide, by decide, by decide, by decide,
        by decide, by decide⟩).2.1⟩

/-- C8, as stated, fails in both modes.  Logic, 100 Hz, 3 s: one tick of 3 s emits
256 samples, ninety-six ticks of 31.25 ms emit 384, which is 128 apart.  Analog,
10 Hz, 0.5 s: one tick of 0.5 s emits 5 samples, eight ticks of 62.5 ms emit 8,
which is 3 apart.  All four runs start fresh with the trigger satisfied and stay
below the limit and the burst capacity. -/
theorem pacing_partitions_differ :
    (PacingRun exact_env pace_logic_state 3000000 (ticks_every 3000000 1) ∧
      PacingRun exact_env pace_logic_state 3000000 (ticks_every 31250 96) ∧
      (run exact_env pace_logic_state (ticks_every 3000000 1)).samples_counter = 256 ∧
      (run exact_env pace_logic_state (ticks_every 31250 96)).samples_counter = 384 ∧
      ¬ (run exact_env pace_logic_state (ticks_every 31250 96)).samples_counter ≤
        (run exact_env pace_logic_state (ticks_every 3000000 1)).samples_counter + 64) ∧
    (PacingRun exact_env pace_analog_state 500000 (ticks_every 500000 1) ∧
      PacingRun exact_env pace_analog_state 500000 (ticks_every 62500 8) ∧
      (run exact_env pace_analog_state (ticks_every 500000 1)).samples_counter = 5 ∧
      (run exact_env pace_analog_state (ticks_every 62500 8)).samples_counter = 8 ∧
      ¬ (run exact_env pace_analog_state (ticks_every 62500 8)).samples_counter ≤
        (run exact_env pace_analog_state (ticks_every 500000 1)).samples_counter + 1) :=
  ⟨⟨⟨fun _ _ => rfl, Or.inl rfl, rfl, rfl, rfl, rfl, by decide, by decide, by decide, by decide,
        by decide, by decide⟩,
      ⟨fun _ _ => rfl, Or.inl rfl, rfl, rfl, rfl, rfl, by decide, by decide, by decide, by decide,
        by decide, by decide⟩,
      by decide, by decide, by decide⟩,
    ⟨⟨fun _ _ => rfl, Or.inr (Or.inl rfl), rfl, rfl, rfl, rfl, by decide, by decide, by decide,
        by decide, by decide, by decide⟩,
      ⟨fun _ _ => rfl, Or.inr (Or.inl rfl), rfl, rfl, rfl, rfl, by decide, by decide, by decide,
        by decide, by decide, by decide⟩,
      by decide, by decide, by decide⟩⟩

/-! ## Ticks that emit nothing, and the stop test -/

/-- Lines 978-995 change nothing in the state but `samples_not_sent`. -/
theorem pacing_shape (s : State) (c : Nat) :
    (∀ s1, pacing s c = .early s1 → ∃ k, s1 = { s with samples_not_sent := k }) ∧
    (∀ s1 n, pacing s c = .due s1 n → ∃ k, s1 = { s with samples_not_sent := k }) := by
  unfold pacing
  constructor
  · intro s1 h
    split_ifs at h
    cases h
    exact ⟨_, rfl⟩
  · intro s1 n h
    split_ifs at h <;> cases h
    · exact ⟨s.samples_not_sent, rfl⟩
    · exact ⟨s.samples_not_sent, rfl⟩
    · exact ⟨_, rfl⟩
    · exact ⟨s.samples_not_sent, rfl⟩

/-- A batch of zero samples, or any batch when stopped, is no batch. -/
theorem emit_idle (env : Env) (rnd : Nat → Nat) (s : State) (n : Nat)
    (h : s.stop = true ∨ n = 0) : emit env rnd s n = (s, []) := by
  unfold emit
  have hn : ¬ (0 < n ∧ s.stop = false) := by
    rcases h with h | h
    · rw [h]; simp
    · rw [h]; simp
  rw [if_neg hn]

/-- The stop call leaves everything but the stop flag, and forwards at most the
End packet. -/
theorem hw_dev_acquisition_stop_shape (s : State) :
    (hw_dev_acquisition_stop s).1 = { s with stop := true } ∧
    ((hw_dev_acquisition_stop s).2 = [] ∨
      (hw_dev_acquisition_stop s).2 = [Packet.SR_DF_END]) ∧
    (s.stop = true → (hw_dev_acquisition_stop s).2 = []) := by
  unfold hw_dev_acquisition_stop
  cases h : s.stop
  · simp
  · simp
    cases s
    simp_all

theorem finish_idle (s : State) :
    (finish (s, [])).ret = true ∧
    (∀ p, p ∈ (finish (s, [])).packets → p = Packet.SR_DF_END) ∧
    (s.stop = true → (finish (s, [])).packets = []) ∧
    (finish (s, [])).state.samples_counter = s.samples_counter ∧
    (finish (s, [])).state.pre_index = s.pre_index ∧
    (finish (s, [])).state.trigger_stage = s.trigger_stage ∧
    (finish (s, [])).state.mstatus = s.mstatus := by
  obtain ⟨h1, h2, h3⟩ := hw_dev_acquisition_stop_shape s
  unfold finish
  split
  · refine ⟨rfl, ?_, ?_, ?_, ?_, ?_, ?_⟩
    · intro p hp
      simp only [List.nil_append] at hp
      rcases h2 with h2 | h2 <;> rw [h2] at hp <;> simp at hp
      exact hp
    · intro hs
      simp only [List.nil_append]
      exact h3 hs
    · show (hw_dev_acquisition_stop s).1.samples_counter = s.samples_counter
      rw [h1]
    · show (hw_dev_acquisition_stop s).1.pre_index = s.pre_index
      rw [h1]
    · show (hw_dev_acquisition_stop s).1.trigger_stage = s.trigger_stage
      rw [h1]
    · show (hw_dev_acquisition_stop s).1.mstatus = s.mstatus
      rw [h1]
  · exact ⟨rfl, fun p hp => by simp at hp, fun _ => rfl, rfl, rfl, rfl, rfl⟩

/-- C12. A tick entered with the stop flag set, and a tick whose due count after
the clamping of lines 978-995 is zero, returns TRUE, forwards no Trigger packet
and no data packet (the only packet it can forward is the End packet of a stop
call, and none at all when the stop flag was set), and leaves `samples_counter`,
`pre_index`, `trigger_stage` and `mstatus` as they were. -/
theorem idle_tick_noop (env : Env) (s : State) (tk : Tick)
    (h : s.stop = true ∨
      ∃ s1, pacing { s with starttime := tk.time }
        (env.ceil_samples (tk.time - s.starttime) s.cur_samplerate) = Pacing.due s1 0) :
    (receive_data env s tk).ret = true ∧
    (∀ p, p ∈ (receive_data env s tk).packets →
      p.is_trigger = false ∧ p.is_data = false ∧ p = Packet.SR_DF_END) ∧
    (s.stop = true → (receive_data env s tk).packets = []) ∧
    (receive_data env s tk).state.samples_counter = s.samples_counter ∧
    (receive_data env s tk).state.pre_index = s.pre_index ∧
    (receive_data env s tk).state.trigger_stage = s.trigger_stage ∧
    (receive_data env s tk).state.mstatus = s.mstatus := by
  obtain ⟨hs1, hs2⟩ := pacing_shape { s with starttime := tk.time }
    (env.ceil_samples (tk.time - s.starttime) s.cur_samplerate)
  unfold receive_data
  simp only []
  cases hpc : pacing { s with starttime := tk.time }
      (env.ceil_samples (tk.time - s.starttime) s.cur_samplerate) with
  | early s1 =>
    obtain ⟨k, rfl⟩ := hs1 s1 hpc
    exact ⟨rfl, fun p hp => by simp at hp, fun _ => rfl, rfl, rfl, rfl, rfl⟩
  | due s1 n =>
    obtain ⟨k, rfl⟩ := hs2 s1 n hpc
    have hidle : ({ s with starttime := tk.time, samples_not_sent := k } : State).stop = true
        ∨ n = 0 := by
      rcases h with h | ⟨s2, h⟩
      · exact Or.inl h
      · rw [hpc] at h
        cases h
        exact Or.inr rfl
    simp only []
    rw [emit_idle env tk.rnd _ n hidle]
    obtain ⟨a, b, c, d, e, f, g⟩ :=
      finish_idle ({ s with starttime := tk.time, samples_not_sent := k } : State)
    refine ⟨a, ?_, c, d, e, f, g⟩
    intro p hp
    have := b p hp
    subst this
    exact ⟨rfl, rfl, rfl⟩

theorem idle_tick_noop_witness :
    (stopped_state.stop = true ∨
      ∃ s1, pacing { stopped_state with starttime := (50000 : Int) }
        (exact_env.ceil_samples ((50000 : Int) - stopped_state.starttime)
          stopped_state.cur_samplerate) = Pacing.due s1 0) ∧
    (receive_data exact_env stopped_state { time := 50000 }).state.samples_counter =
      stopped_state.samples_counter :=
  ⟨Or.inl rfl,
    (idle_tick_noop exact_env stopped_state { time := 50000 } (Or.inl rfl)).2.2.2.1⟩

theorem finish_stop_called (r : State × List Packet) :
    (finish r).stop_called = limit_reached r.1 := by
  unfold finish
  split <;> simp_all

/-- The stop test of a tick that reaches it, in terms of the state the tick
leaves. -/
theorem tick_stop_called (env : Env) (s : State) (tk : Tick) (s1 : State) (n : Nat)
    (hpc : pacing { s with starttime := tk.time }
      (env.ceil_samples (tk.time - s.starttime) s.cur_samplerate) = Pacing.due s1 n) :
    ((receive_data env s tk).stop_called = true ↔
      (s.mode = .LOGIC ∨ s.instant = true) ∧ s.limit_samples ≠ 0 ∧
        s.limit_samples ≤ (receive_data env s tk).state.samples_counter) := by
  obtain ⟨k, hk⟩ := (pacing_shape _ _).2 s1 n hpc
  have hrd : receive_data env s tk = finish (emit env tk.rnd s1 n) := by
    simp only [receive_data, hpc]
  have hef := emit_frame env tk.rnd s1 n
  have hff := finish_frame (emit env tk.rnd s1 n)
  have e1 : s1.mode = s.mode := by rw [hk]
  have e2 : s1.instant = s.instant := by rw [hk]
  have e3 : s1.limit_samples = s.limit_samples := by rw [hk]
  rw [hrd, finish_stop_called, hff.2.2.1]
  unfold limit_reached
  rw [hef.1, hef.2.1, hef.2.2.2.2, e1, e2, e3]
  simp

/-- C13. In Logic mode with `limit_samples > 0`, a tick that does not take the
early return of line 988 calls `hw_dev_acquisition_stop` exactly when
`samples_counter >= limit_samples` after the tick's counter update, and a tick
that takes the early return does not call it.  In Analog mode and in the
oscilloscope, with the instant flag clear, no tick calls it.  In any mode a tick
that reaches the stop test calls it exactly when the mode is Logic or the
instant flag is set, `limit_samples` is not zero and the counter has reached
it. -/
theorem stop_invoked_iff (env : Env) (s : State) (tk : Tick) :
    (s.mode = .LOGIC → s.limit_samples ≠ 0 →
      (64 ≤ logic_pending s (env.ceil_samples (tk.time - s.starttime) s.cur_samplerate) →
        ((receive_data env s tk).stop_called = true ↔
          s.limit_samples ≤ (receive_data env s tk).state.samples_counter)) ∧
      (logic_pending s (env.ceil_samples (tk.time - s.starttime) s.cur_samplerate) < 64 →
        (receive_data env s tk).stop_called = false)) ∧
    ((s.mode = .ANALOG ∨ s.mode = .DSO) → s.instant = false →
      (receive_data env s tk).stop_called = false) ∧
    (∀ s1 n, pacing { s with starttime := tk.time }
        (env.ceil_samples (tk.time - s.starttime) s.cur_samplerate) = Pacing.due s1 n →
      ((receive_data env s tk).stop_called = true ↔
        (s.mode = .LOGIC ∨ s.instant = true) ∧ s.limit_samples ≠ 0 ∧
          s.limit_samples ≤ (receive_data env s tk).state.samples_counter)) := by
  refine ⟨?_, ?_, fun s1 n h => tick_stop_called env s tk s1 n h⟩
  · intro hmode hlim
    constructor
    · intro hbig
      have hpd := pacing_logic_due { s with starttime := tk.time }
        (env.ceil_samples (tk.time - s.starttime) s.cur_samplerate) hmode hlim hbig
      rw [tick_stop_called env s tk _ _ hpd]
      constructor
      · intro h; exact h.2.2
      · intro h; exact ⟨Or.inl hmode, hlim, h⟩
    · intro hsmall
      have hpe := pacing_logic_early { s with starttime := tk.time }
        (env.ceil_samples (tk.time - s.starttime) s.cur_samplerate) hmode hlim hsmall
      simp only [receive_data, hpe]
  · intro hmode hinst
    cases hpc : pacing { s with starttime := tk.time }
        (env.ceil_samples (tk.time - s.starttime) s.cur_samplerate) with
    | early s1 => simp only [receive_data, hpc]
    | due s1 n =>
      have h := tick_stop_called env s tk s1 n hpc
      cases hsc : (receive_data env s tk).stop_called with
      | false => rfl
      | true =>
        obtain ⟨hm, _, _⟩ := h.1 hsc
        rcases hm with hm | hm
        · rcases hmode with h2 | h2 <;> rw [h2] at hm <;> cases hm
        · rw [hinst] at hm; cases hm

theorem stop_invoked_iff_witness :
    (receive_data exact_env logic_state { time := 50000 }).stop_called = true ∧
    logic_state.limit_samples ≤
      (receive_data exact_env logic_state { time := 50000 }).state.samples_counter :=
  ⟨by decide,
    (((stop_invoked_iff exact_env logic_state { time := 50000 }).1 rfl (by decide)).1
      (by decide)).1 (by decide)⟩

/-! ## Stopping twice -/

/-- C14, as stated, fails on a state that is already stopped: the two calls
forward no End packet at all. -/
theorem stop_twice_when_stopped :
    stopped_state.stop = true ∧
    ¬ ((hw_dev_acquisition_stop stopped_state).2 ++
        (hw_dev_acquisition_stop (hw_dev_acquisition_stop stopped_state).1).2).count
          Packet.SR_DF_END = 1 := by
  decide

/-- C14, amended.  From every state in which the stop flag is clear, two calls of
`hw_dev_acquisition_stop` in succession forward exactly one End packet, the first
one's; from a state already stopped they forward none.  In every state the
second call returns `SR_OK`, leaves the state as the first call left it and
forwards nothing, and the stop flag is set afterwards. -/
theorem stop_twice (s : State) :
    (s.stop = false →
      (hw_dev_acquisition_stop s).2 ++
        (hw_dev_acquisition_stop (hw_dev_acquisition_stop s).1).2 = [Packet.SR_DF_END]) ∧
    (s.stop = true →
      (hw_dev_acquisition_stop s).2 ++
        (hw_dev_acquisition_stop (hw_dev_acquisition_stop s).1).2 = []) ∧
    hw_dev_acquisition_stop_ret (hw_dev_acquisition_stop s).1 = SR_OK ∧
    (hw_dev_acquisition_stop (hw_dev_acquisition_stop s).1).1 = (hw_dev_acquisition_stop s).1 ∧
    (hw_dev_acquisition_stop (hw_dev_acquisition_stop s).1).2 = [] ∧
    (hw_dev_acquisition_stop s).1.stop = true := by
  unfold hw_dev_acquisition_stop
  cases h : s.stop <;> simp [h, hw_dev_acquisition_stop_ret]

theorem stop_twice_witness :
    logic_state.stop = false ∧
    (hw_dev_acquisition_stop logic_state).2 ++
      (hw_dev_acquisition_stop (hw_dev_acquisition_stop logic_state).1).2 =
        [Packet.SR_DF_END] :=
  ⟨rfl, (stop_twice logic_state).1 rfl⟩

/-! ## The oscilloscope data packet -/

theorem data_packet_congr (a b : State) (n : Nat) (h1 : a.mode = b.mode)
    (h2 : a.ch_mode = b.ch_mode) (h3 : a.instant = b.instant)
    (h4 : a.samples_counter = b.samples_counter) (h5 : a.channels = b.channels) :
    data_packet a n = data_packet b n := by
  unfold data_packet dso_num_samples
  rw [h1, h2, h3, h4, h5]

/-- The state a tick leaves is the state its batch left, up to the stop flag. -/
theorem finish_state (r : State × List Packet) :
    (finish r).state = r.1 ∨ (finish r).state = { r.1 with stop := true } := by
  unfold finish
  split
  · right
    exact (hw_dev_acquisition_stop_shape r.1).1
  · left
    rfl

/-- The fields of the state a batch leaves that the data packet is computed
from are those the counter update left. -/
theorem emit_packet_fields (env : Env) (rnd : Nat → Nat) (s : State) (n : Nat) :
    (emit env rnd s n).1.mode = s.mode ∧ (emit env rnd s n).1.ch_mode = s.ch_mode ∧
    (emit env rnd s n).1.instant = s.instant ∧ (emit env rnd s n).1.channels = s.channels := by
  unfold emit
  split
  · simp only []
    generalize min n (if s.mode = .DSO then DSO_BUFSIZE else BUFSIZE) = sn
    have h1 : (advance_counter s sn).mode = s.mode ∧ (advance_counter s sn).ch_mode = s.ch_mode ∧
        (advance_counter s sn).instant = s.instant ∧
        (advance_counter s sn).channels = s.channels := by
      unfold advance_counter
      split
      · split <;> simp
      · simp
    generalize advance_counter s sn = s1 at h1 ⊢
    have h2 : (samples_generator env rnd s1 (generator_size s1 sn)).mode = s1.mode ∧
        (samples_generator env rnd s1 (generator_size s1 sn)).ch_mode = s1.ch_mode ∧
        (samples_generator env rnd s1 (generator_size s1 sn)).instant = s1.instant ∧
        (samples_generator env rnd s1 (generator_size s1 sn)).channels = s1.channels := by
      unfold samples_generator
      split <;> simp
    generalize samples_generator env rnd s1 (generator_size s1 sn) = s2 at h2 ⊢
    have h3 : (trigger_phase s2 sn).1.mode = s2.mode ∧
        (trigger_phase s2 sn).1.ch_mode = s2.ch_mode ∧
        (trigger_phase s2 sn).1.instant = s2.instant ∧
        (trigger_phase s2 sn).1.channels = s2.channels := by
      simp only [trigger_phase]
      split_ifs <;> simp
    generalize (trigger_phase s2 sn).1 = s3 at h3 ⊢
    have h4 : (data_phase s3 sn).1.mode = s3.mode ∧
        (data_phase s3 sn).1.ch_mode = s3.ch_mode ∧
        (data_phase s3 sn).1.instant = s3.instant ∧
        (data_phase s3 sn).1.channels = s3.channels := by
      unfold data_phase update_mstatus advance_pre_index
      split
      · split
        · split <;> simp
        · split <;> simp
      · simp
    obtain ⟨a1, a2, a3, a4⟩ := h1
    obtain ⟨b1, b2, b3, b4⟩ := h2
    obtain ⟨c1, c2, c3, c4⟩ := h3
    obtain ⟨d1, d2, d3, d4⟩ := h4
    exact ⟨by rw [d1, c1, b1, a1], by rw [d2, c2, b2, a2], by rw [d3, c3, b3, a3],
      by rw [d4, c4, b4, a4]⟩
  · exact ⟨rfl, rfl, rfl, rfl⟩

theorem data_phase_packet (s : State) (n : Nat) :
    ∀ p, p ∈ (data_phase s n).2 → p = data_packet (data_phase s n).1 n := by
  intro p hp
  unfold data_phase at hp ⊢
  split at hp
  · rename_i h0
    rw [if_pos h0]
    simp only [List.mem_singleton] at hp
    rw [hp]
    apply data_packet_congr
    · unfold update_mstatus advance_pre_index; split_ifs <;> rfl
    · unfold update_mstatus advance_pre_index; split_ifs <;> rfl
    · unfold update_mstatus advance_pre_index; split_ifs <;> rfl
    · unfold update_mstatus advance_pre_index; split_ifs <;> rfl
    · unfold update_mstatus advance_pre_index; split_ifs <;> rfl
  · simp at hp

/-- Every data packet of a batch is the data packet of the state the batch
leaves, for the batch size `sending_now`. -/
theorem emit_data_packet (env : Env) (rnd : Nat → Nat) (s : State) (n : Nat) :
    ∀ p, p ∈ (emit env rnd s n).2 → p.is_data = true →
      p = data_packet (emit env rnd s n).1
        (min n (if s.mode = .DSO then DSO_BUFSIZE else BUFSIZE)) := by
  intro p hp hd
  unfold emit at hp ⊢
  split at hp
  · rename_i hgo
    rw [if_pos hgo]
    simp only [] at hp ⊢
    generalize min n (if s.mode = .DSO then DSO_BUFSIZE else BUFSIZE) = sn at hp ⊢
    generalize samples_generator env rnd (advance_counter s sn)
      (generator_size (advance_counter s sn) sn) = s2 at hp ⊢
    rw [List.mem_append] at hp
    rcases hp with hp | hp
    · have hsh := trigger_phase_shape s2 sn
      by_cases h0 : s2.trigger_stage = 0
      · rw [(hsh.1 h0).2] at hp
        simp at hp
      · rcases hsh.2 h0 with ⟨_, b⟩ | ⟨_, k, b⟩
        · rw [b] at hp; simp at hp
        · rw [b] at hp
          simp only [List.mem_singleton] at hp
          rw [hp] at hd
          simp [Packet.is_data] at hd
    · exact data_phase_packet _ sn p hp
  · simp at hp

theorem pacing_dso (s : State) (c : Nat) (hmode : s.mode = .DSO) (hinst : s.instant = false) :
    pacing s c = .due s (if s.limit_samples ≠ 0 then c % U64 else 0) := by
  unfold pacing
  by_cases h : s.limit_samples ≠ 0
  · simp [h, hmode, hinst]
  · simp [h]

/-- C16. In oscilloscope mode without the instant flag every data packet a tick
forwards is an oscilloscope packet whose `num_samples` is the `samples_counter`
the tick leaves, doubled when exactly one channel is enabled (so it is the
counter itself with two channels enabled).  That counter is the old one plus
`sending_now`, capped at `limit_samples_show`, or with exactly one channel
enabled the old one plus `sending_now / 2`, capped at `limit_samples_show / 2`,
where `sending_now` is the due count cut to `DSO_BUFSIZE`. -/
theorem dso_packet_num_samples (env : Env) (s : State) (tk : Tick)
    (hmode : s.mode = .DSO) (hinst : s.instant = false) :
    (∀ p, p ∈ (receive_data env s tk).packets → p.is_data = true →
      p = Packet.SR_DF_DSO
        (if en_ch_num s.channels = 1 then (receive_data env s tk).state.samples_counter * 2
          else (receive_data env s tk).state.samples_counter)) ∧
    (en_ch_num s.channels = 2 →
      ∀ p, p ∈ (receive_data env s tk).packets → p.is_data = true →
        p = Packet.SR_DF_DSO (receive_data env s tk).state.samples_counter) ∧
    (s.limit_samples ≠ 0 → s.stop = false →
      0 < env.ceil_samples (tk.time - s.starttime) s.cur_samplerate % U64 →
      (receive_data env s tk).state.samples_counter =
        if en_ch_num s.channels = 1 then
          min ((s.samples_counter +
            min (env.ceil_samples (tk.time - s.starttime) s.cur_samplerate % U64)
              DSO_BUFSIZE / 2) % U64) (s.limit_samples_show / 2)
        else
          min ((s.samples_counter +
            min (env.ceil_samples (tk.time - s.starttime) s.cur_samplerate % U64)
              DSO_BUFSIZE) % U64) s.limit_samples_show) := by
  generalize hc : env.ceil_samples (tk.time - s.starttime) s.cur_samplerate = c
  generalize hs0 : ({ s with starttime := tk.time } : State) = s0
  have e1 : s0.mode = s.mode := by rw [← hs0]
  have e2 : s0.instant = s.instant := by rw [← hs0]
  have e3 : s0.channels = s.channels := by rw [← hs0]
  have e4 : s0.limit_samples = s.limit_samples := by rw [← hs0]
  have e5 : s0.limit_samples_show = s.limit_samples_show := by rw [← hs0]
  have e6 : s0.stop = s.stop := by rw [← hs0]
  have e7 : s0.samples_counter = s.samples_counter := by rw [← hs0]
  have hpac := pacing_dso s0 c (by rw [e1]; exact hmode) (by rw [e2]; exact hinst)
  generalize hn : (if s0.limit_samples ≠ 0 then c % U64 else 0) = n at hpac
  have hrd : receive_data env s tk = finish (emit env tk.rnd s0 n) := by
    simp only [receive_data, hc, hs0, hpac]
  have hcnt : (receive_data env s tk).state.samples_counter =
      (emit env tk.rnd s0 n).1.samples_counter := by
    rw [hrd, (finish_frame _).2.2.1]
  have hpf := emit_packet_fields env tk.rnd s0 n
  have hall : ∀ p, p ∈ (receive_data env s tk).packets → p.is_data = true →
      p = Packet.SR_DF_DSO
        (if en_ch_num s.channels = 1 then (receive_data env s tk).state.samples_counter * 2
          else (receive_data env s tk).state.samples_counter) := by
    intro p hp hd
    have hin : p ∈ (emit env tk.rnd s0 n).2 := by
      rw [hrd] at hp
      rcases finish_packets (emit env tk.rnd s0 n) with h | h
      · rw [h] at hp; exact hp
      · rw [h, List.mem_append] at hp
        rcases hp with hp | hp
        · exact hp
        · simp only [List.mem_singleton] at hp
          rw [hp] at hd
          simp [Packet.is_data] at hd
    have := emit_data_packet env tk.rnd s0 n p hin hd
    rw [this, hcnt]
    unfold data_packet dso_num_samples
    rw [hpf.1, hpf.2.2.1, hpf.2.2.2, e1, e2, e3, hmode, hinst]
    simp
  refine ⟨hall, ?_, ?_⟩
  · intro hen p hp hd
    have := hall p hp hd
    rw [hen] at this
    simpa using this
  · intro hlim hstop hpos
    have hn' : n = c % U64 := by rw [← hn, e4, if_pos hlim]
    rw [hcnt, emit_counter, if_pos ⟨by rw [hn']; exact hpos, by rw [e6]; exact hstop⟩]
    unfold advance_counter
    rw [e1, e2, e3, e5, e7, hmode, hinst, hn']
    simp only [and_self, if_true]
    split_ifs <;> rfl

/-! ## The counter outside Logic mode -/

/-- A tick changes neither the mode, nor the flags, channels, limits or rate. -/
theorem tick_config (env : Env) (s : State) (tk : Tick) :
    same_config s (receive_data env s tk).state := by
  obtain ⟨hs1, hs2⟩ := pacing_shape { s with starttime := tk.time }
    (env.ceil_samples (tk.time - s.starttime) s.cur_samplerate)
  unfold receive_data
  simp only []
  cases hpc : pacing { s with starttime := tk.time }
      (env.ceil_samples (tk.time - s.starttime) s.cur_samplerate) with
  | early s1 =>
    obtain ⟨k, rfl⟩ := hs1 s1 hpc
    exact ⟨rfl, rfl, rfl, rfl, rfl, rfl⟩
  | due s1 n =>
    obtain ⟨k, hk⟩ := hs2 s1 n hpc
    have e1 : s1.mode = s.mode := by rw [hk]
    have e2 : s1.instant = s.instant := by rw [hk]
    have e3 : s1.channels = s.channels := by rw [hk]
    have e4 : s1.limit_samples = s.limit_samples := by rw [hk]
    have e5 : s1.limit_samples_show = s.limit_samples_show := by rw [hk]
    have e6 : s1.cur_samplerate = s.cur_samplerate := by rw [hk]
    have hef := emit_frame env tk.rnd s1 n
    have hec := emit_config env tk.rnd s1 n
    have hcfg : same_config s (emit env tk.rnd s1 n).1 :=
      ⟨by rw [hef.1, e1], by rw [hef.2.2.2.2, e2], by rw [hec.1, e3], by rw [hef.2.1, e4],
        by rw [hec.2.1, e5], by rw [hec.2.2.1, e6]⟩
    simp only []
    rcases finish_state (emit env tk.rnd s1 n) with h | h
    · rw [h]; exact hcfg
    · rw [h]; exact hcfg

theorem same_config_trans (a b c : State) (h1 : same_config a b) (h2 : same_config b c) :
    same_config a c := by
  obtain ⟨a1, a2, a3, a4, a5, a6⟩ := h1
  obtain ⟨b1, b2, b3, b4, b5, b6⟩ := h2
  exact ⟨by rw [b1, a1], by rw [b2, a2], by rw [b3, a3], by rw [b4, a4], by rw [b5, a5],
    by rw [b6, a6]⟩

/-- Every state of a run has the configuration the run started with. -/
theorem trace_config (env : Env) (ticks : List Tick) :
    ∀ (s : State) (r : TickResult), r ∈ trace env s ticks → same_config s r.state := by
  induction ticks with
  | nil => intro s r h; simp [trace] at h
  | cons tk rest ih =>
    intro s r h
    simp only [trace, List.mem_cons] at h
    rcases h with h | h
    · rw [h]; exact tick_config env s tk
    · exact same_config_trans _ _ _ (tick_config env s tk) (ih _ r h)

/-- The counter a tick leaves is the one its batch left; an early return leaves
the old one. -/
theorem tick_counter (env : Env) (s : State) (tk : Tick) :
    (∃ s1 n, pacing { s with starttime := tk.time }
        (env.ceil_samples (tk.time - s.starttime) s.cur_samplerate) = Pacing.due s1 n ∧
      s1.mode = s.mode ∧ s1.instant = s.instant ∧ s1.channels = s.channels ∧
      s1.limit_samples = s.limit_samples ∧ s1.limit_samples_show = s.limit_samples_show ∧
      s1.samples_counter = s.samples_counter ∧ s1.stop = s.stop ∧
      s1.pre_index = s.pre_index ∧
      (receive_data env s tk).state.samples_counter =
        if 0 < n ∧ s1.stop = false then
          (advance_counter s1
            (min n (if s1.mode = .DSO then DSO_BUFSIZE else BUFSIZE))).samples_counter
        else s1.samples_counter) ∨
    (receive_data env s tk).state.samples_counter = s.samples_counter := by
  obtain ⟨hs1, hs2⟩ := pacing_shape { s with starttime := tk.time }
    (env.ceil_samples (tk.time - s.starttime) s.cur_samplerate)
  cases hpc : pacing { s with starttime := tk.time }
      (env.ceil_samples (tk.time - s.starttime) s.cur_samplerate) with
  | early s1 =>
    right
    obtain ⟨k, rfl⟩ := hs1 s1 hpc
    simp only [receive_data, hpc]
  | due s1 n =>
    left
    obtain ⟨k, hk⟩ := hs2 s1 n hpc
    refine ⟨s1, n, rfl, by rw [hk], by rw [hk], by rw [hk], by rw [hk], by rw [hk], by rw [hk],
      by rw [hk], by rw [hk], ?_⟩
    simp only [receive_data, hpc]
    rw [(finish_frame _).2.2.1, emit_counter]

theorem dso_cap_config (a b : State) (h : same_config a b) : dso_cap b = dso_cap a := by
  unfold dso_cap
  rw [h.2.2.1, h.2.2.2.2.1]

/-- One tick in oscilloscope mode without the instant flag keeps the counter at
or below its cap. -/
theorem tick_dso_cap (env : Env) (s : State) (tk : Tick) (hmode : s.mode = .DSO)
    (hinst : s.instant = false) (hle : s.samples_counter ≤ dso_cap s) :
    (receive_data env s tk).state.samples_counter ≤ dso_cap s := by
  rcases tick_counter env s tk with ⟨s1, n, _, e1, e2, e3, _, e5, e6, _, _, h⟩ | h
  · rw [h]
    generalize min n (if s1.mode = .DSO then DSO_BUFSIZE else BUFSIZE) = sn
    by_cases hgo : 0 < n ∧ s1.stop = false
    · rw [if_pos hgo]
      unfold advance_counter
      rw [if_pos ⟨by rw [e1]; exact hmode, by rw [e2]; exact hinst⟩]
      unfold dso_cap
      rw [e3, e5]
      by_cases hen : en_ch_num s.channels = 1
      · rw [if_pos hen, if_pos hen]
        exact Nat.min_le_right _ _
      · rw [if_neg hen, if_neg hen]
        exact Nat.min_le_right _ _
    · rw [if_neg hgo, e6]; exact hle
  · rw [h]; exact hle

theorem trace_dso_cap (env : Env) (ticks : List Tick) :
    ∀ s : State, s.mode = .DSO → s.instant = false → s.samples_counter ≤ dso_cap s →
      ∀ r, r ∈ trace env s ticks → r.state.samples_counter ≤ dso_cap s := by
  induction ticks with
  | nil => intro s _ _ _ r hr; simp [trace] at hr
  | cons tk rest ih =>
    intro s hmode hinst hle r hr
    have hcfg := tick_config env s tk
    have h1 := tick_dso_cap env s tk hmode hinst hle
    simp only [trace, List.mem_cons] at hr
    rcases hr with hr | hr
    · rw [hr]; exact h1
    · have := ih (receive_data env s tk).state (by rw [hcfg.1]; exact hmode)
        (by rw [hcfg.2.1]; exact hinst) (by rw [dso_cap_config _ _ hcfg]; exact h1) r hr
      rw [dso_cap_config _ _ hcfg] at this
      exact this

/-- In the oscilloscope with the instant flag, lines 984-993 clamp the due count
to the remaining budget. -/
theorem pacing_dso_instant (s : State) (c : Nat) (hmode : s.mode = .DSO)
    (hinst : s.instant = true) :
    ∀ s1 n, pacing s c = .due s1 n →
      n ≤ (s.limit_samples + U64 - s.samples_counter) % U64 := by
  intro s1 n h
  unfold pacing at h
  simp only [hmode, hinst] at h
  split_ifs at h <;> simp_all
  all_goals (obtain ⟨h1, h2⟩ := h; subst h2; simp)

/-- One tick in the oscilloscope with the instant flag keeps the counter within
the limit. -/
theorem tick_dso_instant (env : Env) (s : State) (tk : Tick) (hmode : s.mode = .DSO)
    (hinst : s.instant = true) (hle : s.samples_counter ≤ s.limit_samples)
    (hw : s.limit_samples < U64) :
    (receive_data env s tk).state.samples_counter ≤ s.limit_samples := by
  rcases tick_counter env s tk with ⟨s1, n, hpc, e1, e2, _, _, _, e6, _, _, h⟩ | h
  · have hn := pacing_dso_instant { s with starttime := tk.time }
      (env.ceil_samples (tk.time - s.starttime) s.cur_samplerate) hmode hinst s1 n hpc
    have hbud : (s.limit_samples + U64 - s.samples_counter) % U64 =
        s.limit_samples - s.samples_counter := by
      have : s.limit_samples + U64 - s.samples_counter =
          (s.limit_samples - s.samples_counter) + U64 := by omega
      rw [this, Nat.add_mod_right]
      exact Nat.mod_eq_of_lt (by omega)
    simp only [] at hn
    rw [hbud] at hn
    rw [h]
    have hmin : min n (if s1.mode = .DSO then DSO_BUFSIZE else BUFSIZE) ≤ n :=
      Nat.min_le_left _ _
    generalize min n (if s1.mode = .DSO then DSO_BUFSIZE else BUFSIZE) = sn at hmin
    by_cases hgo : 0 < n ∧ s1.stop = false
    · rw [if_pos hgo]
      unfold advance_counter
      have hni : ¬ (s1.mode = .DSO ∧ s1.instant = false) := by
        rw [e2, hinst]; simp
      rw [if_neg hni]
      show (s1.samples_counter + sn) % U64 ≤ s.limit_samples
      rw [e6, Nat.mod_eq_of_lt (by omega)]
      omega
    · rw [if_neg hgo, e6]; exact hle
  · rw [h]; exact hle

theorem trace_dso_instant (env : Env) (ticks : List Tick) :
    ∀ s : State, s.mode = .DSO → s.instant = true → s.samples_counter ≤ s.limit_samples →
      s.limit_samples < U64 →
      ∀ r, r ∈ trace env s ticks → r.state.samples_counter ≤ s.limit_samples := by
  induction ticks with
  | nil => intro s _ _ _ _ r hr; simp [trace] at hr
  | cons tk rest ih =>
    intro s hmode hinst hle hw r hr
    have hcfg := tick_config env s tk
    have h1 := tick_dso_instant env s tk hmode hinst hle hw
    simp only [trace, List.mem_cons] at hr
    rcases hr with hr | hr
    · rw [hr]; exact h1
    · have := ih (receive_data env s tk).state (by rw [hcfg.1]; exact hmode)
        (by rw [hcfg.2.1]; exact hinst) (by rw [hcfg.2.2.2.1]; exact h1)
        (by rw [hcfg.2.2.2.1]; exact hw) r hr
      rw [hcfg.2.2.2.1] at this
      exact this

/-- One tick of a running Analog acquisition adds the due count, cut to the burst
capacity and to nothing else, to the counter. -/
theorem tick_analog_counter (env : Env) (s : State) (tk : Tick) (hmode : s.mode = .ANALOG)
    (hlim : s.limit_samples ≠ 0) (hstop : s.stop = false) (hc : s.samples_counter < U64) :
    (receive_data env s tk).state.samples_counter =
      (s.samples_counter +
        min (env.ceil_samples (tk.time - s.starttime) s.cur_samplerate % U64) BUFSIZE)
        % U64 := by
  have hpac := pacing_plain { s with starttime := tk.time }
    (env.ceil_samples (tk.time - s.starttime) s.cur_samplerate) (Or.inl hmode) hlim
  simp only [receive_data, hpac]
  rw [(finish_frame _).2.2.1, emit_counter]
  generalize env.ceil_samples (tk.time - s.starttime) s.cur_samplerate % U64 = n
  by_cases hgo : 0 < n
  · rw [if_pos ⟨hgo, hstop⟩]
    unfold advance_counter
    simp [hmode]
  · have h0 : n = 0 := by omega
    rw [h0]
    simp [Nat.mod_eq_of_lt hc]

/-- C11, as stated, fails in both modes.  Analog: from a counter of zero, with a
limit of 100 samples at 1 kHz, two ticks 62.5 ms apart leave the counter at 126.
Oscilloscope without the instant flag: from a counter of zero, with
`limit_samples = 64` and `limit_samples_show = 10000` at 100 MHz, one tick of
50 ms leaves the counter at 10000. -/
theorem counter_exceeds_limit :
    (analog_over_state.mode = .ANALOG ∧ analog_over_state.samples_counter = 0 ∧
      0 < analog_over_state.limit_samples ∧
      (run exact_env analog_over_state (ticks_every 62500 2)).samples_counter = 126 ∧
      ¬ (∀ r, r ∈ trace exact_env analog_over_state (ticks_every 62500 2) →
        r.state.samples_counter ≤ analog_over_state.limit_samples)) ∧
    (dso_short_state.mode = .DSO ∧ dso_short_state.samples_counter = 0 ∧
      0 < dso_short_state.limit_samples ∧
      (run exact_env dso_short_state (ticks_every 50000 1)).samples_counter = 10000 ∧
      ¬ (∀ r, r ∈ trace exact_env dso_short_state (ticks_every 50000 1) →
        r.state.samples_counter ≤ dso_short_state.limit_samples)) := by
  decide

/-- C11, amended.  Oscilloscope mode without the instant flag: from a counter at or
below the cap (`limit_samples_show`, or `limit_samples_show / 2` with exactly one
channel enabled), so in particular from zero, `samples_counter` is at or below
the cap after every tick.  Oscilloscope mode with the instant flag: from a
counter at or below `limit_samples`, it is at or below `limit_samples` after
every tick, the due count being clamped to the remaining budget.  Analog mode:
the due count is cut to the burst capacity only, and every tick of a running
acquisition with a non-zero limit adds `min(due, BUFSIZE)` to the counter,
whatever the limit. -/
theorem nonlogic_counter_bounds (env : Env) (s : State) (ticks : List Tick) :
    (s.mode = .DSO → s.instant = false → s.samples_counter ≤ dso_cap s →
      ∀ r, r ∈ trace env s ticks → r.state.samples_counter ≤ dso_cap s) ∧
    (s.mode = .DSO → s.instant = true → s.samples_counter ≤ s.limit_samples →
      s.limit_samples < U64 →
      ∀ r, r ∈ trace env s ticks → r.state.samples_counter ≤ s.limit_samples) ∧
    (s.mode = .ANALOG → s.limit_samples ≠ 0 → s.stop = false → s.samples_counter < U64 →
      ∀ tk, (receive_data env s tk).state.samples_counter =
        (s.samples_counter +
          min (env.ceil_samples (tk.time - s.starttime) s.cur_samplerate % U64) BUFSIZE)
          % U64) :=
  ⟨trace_dso_cap env ticks s, trace_dso_instant env ticks s,
    fun hmode hlim hstop hc tk => tick_analog_counter env s tk hmode hlim hstop hc⟩

theorem nonlogic_counter_bounds_witness :
    dso_state.mode = .DSO ∧ dso_state.instant = false ∧
    dso_state.samples_counter ≤ dso_cap dso_state ∧
    (∀ r, r ∈ trace exact_env dso_state (ticks_every 50000 3) →
      r.state.samples_counter ≤ dso_cap dso_state) ∧
    (run exact_env dso_state (ticks_every 50000 3)).samples_counter = 10000 :=
  ⟨rfl, rfl, by decide,
    (nonlogic_counter_bounds exact_env dso_state (ticks_every 50000 3)).1 rfl rfl (by decide),
    by decide⟩

theorem dso_packet_num_samples_witness :
    dso_state.mode = .DSO ∧ dso_state.instant = false ∧
    Packet.SR_DF_DSO 10000 ∈ (receive_data exact_env dso_state { time := 50000 }).packets ∧
    Packet.SR_DF_DSO 10000 =
      Packet.SR_DF_DSO
        (if en_ch_num dso_state.channels = 1 then
          (receive_data exact_env dso_state { time := 50000 }).state.samples_counter * 2
        else (receive_data exact_env dso_state { time := 50000 }).state.samples_counter) :=
  ⟨rfl, rfl, by decide,
    (dso_packet_num_samples exact_env dso_state { time := 50000 } rfl rfl).1 _ (by decide) rfl⟩

/-! ## The pacing cursor -/

theorem pre_index_before_data (env : Env) (rnd : Nat → Nat) (s : State) (sn : Nat) :
    (trigger_phase (samples_generator env rnd (advance_counter s sn)
      (generator_size (advance_counter s sn) sn)) sn).1.pre_index = s.pre_index := by
  have h1 : (advance_counter s sn).pre_index = s.pre_index := by
    unfold advance_counter
    split
    · split <;> rfl
    · rfl
  generalize advance_counter s sn = s1 at h1 ⊢
  have h2 : (samples_generator env rnd s1 (generator_size s1 sn)).pre_index = s1.pre_index := by
    unfold samples_generator
    split <;> rfl
  generalize samples_generator env rnd s1 (generator_size s1 sn) = s2 at h2 ⊢
  have h3 : (trigger_phase s2 sn).1.pre_index = s2.pre_index := by
    simp only [trigger_phase]
    split_ifs <;> rfl
  rw [h3, h2, h1]

theorem dso_num_samples_congr (a b : State) (n : Nat) (h1 : a.instant = b.instant)
    (h2 : a.samples_counter = b.samples_counter) (h3 : a.channels = b.channels) :
    dso_num_samples a n = dso_num_samples b n := by
  unfold dso_num_samples
  rw [h1, h2, h3]

/-- What lines 1083-1090 do to the cursor of a state. -/
theorem data_phase_pre_index (s : State) (sn : Nat) :
    (data_phase s sn).1.pre_index = s.pre_index ∨
    (s.mode = .ANALOG ∧ (data_phase s sn).1.pre_index = (s.pre_index + sn) % U64) ∨
    (s.mode = .DSO ∧ s.instant = false ∧
      dso_num_samples (data_phase s sn).1 sn < s.limit_samples_show ∧
      (data_phase s sn).1.pre_index = 0) ∨
    (s.mode = .DSO ∧ s.instant = false ∧
      s.limit_samples_show ≤ dso_num_samples (data_phase s sn).1 sn ∧
      (data_phase s sn).1.pre_index = (s.pre_index + sn) % U64) := by
  have hnum : dso_num_samples (data_phase s sn).1 sn = dso_num_samples s sn := by
    apply dso_num_samples_congr
    · exact (data_phase_frame s sn).2.2.2.2.2.1
    · exact (data_phase_frame s sn).2.2.1
    · exact (data_phase_config s sn).1
  rw [hnum]
  unfold data_phase
  by_cases h0 : s.trigger_stage = 0
  · rw [if_pos h0]
    show (advance_pre_index s sn).pre_index = s.pre_index ∨ _
    unfold advance_pre_index
    by_cases hd : s.mode = .DSO ∧ s.instant = false
    · rw [if_pos hd]
      by_cases hlt : dso_num_samples s sn < s.limit_samples_show
      · rw [if_pos hlt]
        exact Or.inr (Or.inr (Or.inl ⟨hd.1, hd.2, hlt, rfl⟩))
      · rw [if_neg hlt]
        exact Or.inr (Or.inr (Or.inr ⟨hd.1, hd.2, by omega, rfl⟩))
    · rw [if_neg hd]
      by_cases ha : s.mode = .ANALOG
      · rw [if_pos ha]
        exact Or.inr (Or.inl ⟨ha, rfl⟩)
      · rw [if_neg ha]
        exact Or.inl rfl
  · rw [if_neg h0]
    exact Or.inl rfl

theorem dso_num_samples_shown (s : State) (n : Nat) (h : s.instant = false) :
    dso_num_samples s n = dso_shown s := by
  unfold dso_num_samples dso_shown
  rw [h]
  rfl

/-- What a batch does to the cursor. -/
theorem emit_pre_index (env : Env) (rnd : Nat → Nat) (s : State) (n : Nat) :
    (emit env rnd s n).1.pre_index = s.pre_index ∨
    (s.mode = .ANALOG ∧ ∃ sn, sn ≤ BUFSIZE ∧
      (emit env rnd s n).1.pre_index = (s.pre_index + sn) % U64) ∨
    (s.mode = .DSO ∧ s.instant = false ∧
      dso_shown (emit env rnd s n).1 < s.limit_samples_show ∧
      (emit env rnd s n).1.pre_index = 0) ∨
    (s.mode = .DSO ∧ s.instant = false ∧
      s.limit_samples_show ≤ dso_shown (emit env rnd s n).1 ∧
      ∃ sn, sn ≤ DSO_BUFSIZE ∧ (emit env rnd s n).1.pre_index = (s.pre_index + sn) % U64) := by
  unfold emit
  by_cases hgo : 0 < n ∧ s.stop = false
  · rw [if_pos hgo]
    simp only []
    have hsn : min n (if s.mode = .DSO then DSO_BUFSIZE else BUFSIZE) ≤
        (if s.mode = .DSO then DSO_BUFSIZE else BUFSIZE) := Nat.min_le_right _ _
    generalize min n (if s.mode = .DSO then DSO_BUFSIZE else BUFSIZE) = sn at hsn ⊢
    have hp := pre_index_before_data env rnd s sn
    have hm : (trigger_phase (samples_generator env rnd (advance_counter s sn)
        (generator_size (advance_counter s sn) sn)) sn).1.mode = s.mode := by
      rw [(trigger_phase_frame _ _).1, (samples_generator_frame _ _ _ _).1,
        (advance_counter_frame _ _).1]
    have hi : (trigger_phase (samples_generator env rnd (advance_counter s sn)
        (generator_size (advance_counter s sn) sn)) sn).1.instant = s.instant := by
      rw [(trigger_phase_frame _ _).2.2.2.2.2, (samples_generator_frame _ _ _ _).2.2.2.2.2.1,
        (advance_counter_frame _ _).2.2.2.2.1]
    have hl : (trigger_phase (samples_generator env rnd (advance_counter s sn)
        (generator_size (advance_counter s sn) sn)) sn).1.limit_samples_show
        = s.limit_samples_show := by
      rw [(trigger_phase_config _ _).2.1, (samples_generator_config _ _ _ _).2.1,
        (advance_counter_config _ _).2.1]
    generalize (trigger_phase (samples_generator env rnd (advance_counter s sn)
        (generator_size (advance_counter s sn) sn)) sn).1 = t at hp hm hi hl ⊢
    have hdi : (data_phase t sn).1.instant = false → 
        dso_num_samples (data_phase t sn).1 sn = dso_shown (data_phase t sn).1 :=
      fun h => dso_num_samples_shown _ _ h
    have hdinst : (data_phase t sn).1.instant = t.instant :=
      (data_phase_frame t sn).2.2.2.2.2.1
    rcases data_phase_pre_index t sn with h | ⟨a, h⟩ | ⟨a, b, c, h⟩ | ⟨a, b, c, h⟩
    · left; rw [h, hp]
    · right; left
      rw [hm] at a
      refine ⟨a, sn, ?_, by rw [h, hp]⟩
      rw [a] at hsn
      exact hsn
    · right; right; left
      rw [hm] at a
      rw [hi] at b
      rw [hdi (by rw [hdinst, hi]; exact b), hl] at c
      exact ⟨a, b, c, h⟩
    · right; right; right
      rw [hm] at a
      rw [hi] at b
      rw [hdi (by rw [hdinst, hi]; exact b), hl] at c
      refine ⟨a, b, c, sn, ?_, by rw [h, hp]⟩
      rw [a] at hsn
      exact hsn
  · rw [if_neg hgo]
    exact Or.inl rfl

/-- What a tick does to the cursor: it keeps it, or in Analog mode adds the batch
size, or in the oscilloscope without the instant flag resets it while the shown
count is below `limit_samples_show` and adds the batch size once it is not. -/
theorem tick_pre_index (env : Env) (s : State) (tk : Tick) :
    (receive_data env s tk).state.pre_index = s.pre_index ∨
    (s.mode = .ANALOG ∧ ∃ sn, sn ≤ BUFSIZE ∧
      (receive_data env s tk).state.pre_index = (s.pre_index + sn) % U64) ∨
    (s.mode = .DSO ∧ s.instant = false ∧
      dso_shown (receive_data env s tk).state < s.limit_samples_show ∧
      (receive_data env s tk).state.pre_index = 0) ∨
    (s.mode = .DSO ∧ s.instant = false ∧
      s.limit_samples_show ≤ dso_shown (receive_data env s tk).state ∧
      ∃ sn, sn ≤ DSO_BUFSIZE ∧
        (receive_data env s tk).state.pre_index = (s.pre_index + sn) % U64) := by
  obtain ⟨hs1, hs2⟩ := pacing_shape { s with starttime := tk.time }
    (env.ceil_samples (tk.time - s.starttime) s.cur_samplerate)
  cases hpc : pacing { s with starttime := tk.time }
      (env.ceil_samples (tk.time - s.starttime) s.cur_samplerate) with
  | early s1 =>
    left
    obtain ⟨k, rfl⟩ := hs1 s1 hpc
    simp only [receive_data, hpc]
  | due s1 n =>
    obtain ⟨k, hk⟩ := hs2 s1 n hpc
    have e1 : s1.mode = s.mode := by rw [hk]
    have e2 : s1.instant = s.instant := by rw [hk]
    have e3 : s1.limit_samples_show = s.limit_samples_show := by rw [hk]
    have e4 : s1.pre_index = s.pre_index := by rw [hk]
    have hrd : receive_data env s tk = finish (emit env tk.rnd s1 n) := by
      simp only [receive_data, hpc]
    have hpre : (receive_data env s tk).state.pre_index = (emit env tk.rnd s1 n).1.pre_index := by
      rw [hrd]
      rcases finish_state (emit env tk.rnd s1 n) with h | h <;> rw [h]
    have hshown : dso_shown (receive_data env s tk).state = dso_shown (emit env tk.rnd s1 n).1 := by
      rw [hrd]
      rcases finish_state (emit env tk.rnd s1 n) with h | h
      · rw [h]
      · rw [h]; rfl
    rw [hpre, hshown]
    have := emit_pre_index env tk.rnd s1 n
    rw [e1, e2, e3, e4] at this
    exact this

theorem dso_shown_mono (a b : State) (h : same_config a b)
    (hc : a.samples_counter ≤ b.samples_counter) : dso_shown a ≤ dso_shown b := by
  unfold dso_shown
  rw [h.2.2.1]
  split_ifs <;> omega

/-- In the oscilloscope without the instant flag the counter never goes down. -/
theorem tick_dso_counter_mono (env : Env) (s : State) (tk : Tick) (hmode : s.mode = .DSO)
    (hinst : s.instant = false) (hle : s.samples_counter ≤ dso_cap s)
    (hno : s.limit_samples_show + DSO_BUFSIZE < U64) :
    s.samples_counter ≤ (receive_data env s tk).state.samples_counter := by
  have hcap : dso_cap s ≤ s.limit_samples_show := by
    unfold dso_cap
    split_ifs
    · exact Nat.div_le_self _ _
    · exact Nat.le_refl _
  rcases tick_counter env s tk with ⟨s1, n, _, e1, e2, e3, _, e5, e6, _, _, h⟩ | h
  · rw [h]
    have hsn : min n (if s1.mode = .DSO then DSO_BUFSIZE else BUFSIZE) ≤ DSO_BUFSIZE := by
      rw [e1, hmode, if_pos rfl]
      exact Nat.min_le_right _ _
    generalize min n (if s1.mode = .DSO then DSO_BUFSIZE else BUFSIZE) = sn at hsn ⊢
    by_cases hgo : 0 < n ∧ s1.stop = false
    · rw [if_pos hgo]
      unfold advance_counter
      rw [if_pos ⟨by rw [e1]; exact hmode, by rw [e2]; exact hinst⟩]
      unfold dso_cap at hle hcap
      rw [e3, e5, e6]
      by_cases hen : en_ch_num s.channels = 1
      · rw [if_pos hen] at hle hcap ⊢
        show s.samples_counter ≤ min ((s.samples_counter + sn / 2) % U64) (s.limit_samples_show / 2)
        rw [Nat.mod_eq_of_lt (by omega)]
        exact Nat.le_min.2 ⟨by omega, hle⟩
      · rw [if_neg hen] at hle hcap ⊢
        show s.samples_counter ≤ min ((s.samples_counter + sn) % U64) s.limit_samples_show
        rw [Nat.mod_eq_of_lt (by omega)]
        exact Nat.le_min.2 ⟨by omega, hle⟩
    · rw [if_neg hgo, e6]
  · rw [h]

/-- The cursor along a run, under the invariant that in the oscilloscope without
the instant flag the counter is within its cap and a cursor that has left zero
means the shown count has reached `limit_samples_show`. -/
theorem trace_pre_index (env : Env) (ticks : List Tick) :
    ∀ s : State,
      (s.mode = .DSO → s.instant = false →
        s.samples_counter ≤ dso_cap s ∧
        (0 < s.pre_index → s.limit_samples_show ≤ dso_shown s)) →
      s.pre_index + ticks.length * BUFSIZE < U64 →
      s.limit_samples_show + DSO_BUFSIZE < U64 →
      List.Chain (fun a b => a ≤ b) s.pre_index
        ((trace env s ticks).map (fun r => r.state.pre_index)) := by
  induction ticks with
  | nil => intro s _ _ _; simp [trace]
  | cons tk rest ih =>
    intro s hinv hno1 hno2
    have hcfg := tick_config env s tk
    have hDB : DSO_BUFSIZE ≤ BUFSIZE := by decide
    simp only [List.length_cons, Nat.add_mul, Nat.one_mul] at hno1
    have hstep : s.pre_index ≤ (receive_data env s tk).state.pre_index ∧
        (receive_data env s tk).state.pre_index ≤ s.pre_index + BUFSIZE ∧
        ((receive_data env s tk).state.mode = .DSO →
          (receive_data env s tk).state.instant = false →
          (receive_data env s tk).state.samples_counter ≤ dso_cap (receive_data env s tk).state ∧
          (0 < (receive_data env s tk).state.pre_index →
            (receive_data env s tk).state.limit_samples_show ≤
              dso_shown (receive_data env s tk).state)) := by
      rw [hcfg.1, hcfg.2.1, dso_cap_config _ _ hcfg, hcfg.2.2.2.2.1]
      rcases tick_pre_index env s tk with h | ⟨hm, sn, hsn, h⟩ | ⟨hm, hi, hlt, h⟩ |
        ⟨hm, hi, hge, sn, hsn, h⟩
      · rw [h]
        refine ⟨Nat.le_refl _, by omega, ?_⟩
        intro hm hi
        obtain ⟨a, b⟩ := hinv hm hi
        refine ⟨tick_dso_cap env s tk hm hi a, fun hpos => ?_⟩
        exact Nat.le_trans (b hpos)
          (dso_shown_mono _ _ hcfg (tick_dso_counter_mono env s tk hm hi a hno2))
      · rw [h, Nat.mod_eq_of_lt (by omega)]
        refine ⟨by omega, by omega, ?_⟩
        intro hm2
        rw [hm] at hm2
        cases hm2
      · obtain ⟨a, b⟩ := hinv hm hi
        have hz : s.pre_index = 0 := by
          by_contra hne
          have h1 := b (Nat.pos_of_ne_zero hne)
          have h2 := dso_shown_mono _ _ hcfg (tick_dso_counter_mono env s tk hm hi a hno2)
          omega
        rw [h, hz]
        refine ⟨Nat.le_refl _, by omega, fun _ _ => ⟨tick_dso_cap env s tk hm hi a, ?_⟩⟩
        intro hpos
        omega
      · obtain ⟨a, _⟩ := hinv hm hi
        rw [h, Nat.mod_eq_of_lt (by omega)]
        exact ⟨by omega, by omega, fun _ _ => ⟨tick_dso_cap env s tk hm hi a, fun _ => hge⟩⟩
    obtain ⟨h1, h2, h3⟩ := hstep
    simp only [trace, List.map_cons]
    exact List.Chain.cons h1
      (ih (receive_data env s tk).state h3 (by omega) (by rw [hcfg.2.2.2.2.1]; exact hno2))

/-- C17. In every mode, along every sequence of ticks of one acquisition, the
mode, flags, channels, limits and rate staying as they are, the pacing cursor
`pre_index` never decreases from one tick to the next, provided no `uint64_t`
wraps (the cursor stays below 2^64 over the run, as does `limit_samples_show`
plus one burst) and, in the oscilloscope without the instant flag, the run
starts as the acquisition does, with cursor and counter at zero. -/
theorem pre_index_monotone (env : Env) (s : State) (ticks : List Tick)
    (hstart : s.mode = .DSO → s.instant = false → s.pre_index = 0 ∧ s.samples_counter = 0)
    (hno1 : s.pre_index + ticks.length * BUFSIZE < U64)
    (hno2 : s.limit_samples_show + DSO_BUFSIZE < U64) :
    List.Chain (fun a b => a ≤ b) s.pre_index
      ((trace env s ticks).map (fun r => r.state.pre_index)) ∧
    (∀ r, r ∈ trace env s ticks → same_config s r.state) := by
  refine ⟨trace_pre_index env ticks s ?_ hno1 hno2, ?_⟩
  · intro hm hi
    obtain ⟨a, b⟩ := hstart hm hi
    rw [a, b]
    exact ⟨Nat.zero_le _, fun h => absurd h (Nat.lt_irrefl 0)⟩
  · intro r hr
    exact trace_config env ticks s r hr

theorem pre_index_monotone_witness :
    (dso_state.mode = .DSO → dso_state.instant = false →
      dso_state.pre_index = 0 ∧ dso_state.samples_counter = 0) ∧
    dso_state.pre_index + (ticks_every 50000 3).length * BUFSIZE < U64 ∧
    dso_state.limit_samples_show + DSO_BUFSIZE < U64 ∧
    List.Chain (fun a b => a ≤ b) dso_state.pre_index
      ((trace exact_env dso_state (ticks_every 50000 3)).map (fun r => r.state.pre_index)) ∧
    (trace exact_env dso_state (ticks_every 50000 3)).map (fun r => r.state.pre_index) =
      [10240, 20480, 30720] :=
  ⟨fun _ _ => ⟨rfl, rfl⟩, by decide, by decide,
    (pre_index_monotone exact_env dso_state (ticks_every 50000 3) (fun _ _ => ⟨rfl, rfl⟩)
      (by decide) (by decide)).1,
    by decide⟩

/-! ## The size handed to the synthesizer -/

/-- C18, at the failing input.  Oscilloscope, instant flag clear, two channels,
100 MHz, limits of 20032 samples: the first 50 ms tick asks `samples_generator`
for 10240 words, the whole buffer, and the second asks for 20032 words, which is
more than the `DSO_BUFSIZE = 10240` words the buffer holds. -/
theorem dso_request_exceeds_buffer :
    generator_request exact_env dso_deep_state { time := 50000 } = some 10240 ∧
    generator_request exact_env
      (receive_data exact_env dso_deep_state { time := 50000 }).state { time := 100000 } =
        some 20032 ∧
    buffer_capacity dso_deep_state.mode = 10240 ∧
    ¬ (20032 ≤ buffer_capacity dso_deep_state.mode) := by
  decide

/-- Where the request does fit: in Logic mode it is `sending_now`, at most
`BUFSIZE`; in Analog mode it is `2*sending_now`, at most `2*BUFSIZE`; in the
oscilloscope it is the updated `samples_counter`, which without the instant flag
is at most the cap of lines 1002 and 1005. -/
theorem generator_request_fits (env : Env) (s : State) (tk : Tick) (m : Nat)
    (h : generator_request env s tk = some m) :
    (s.mode = .LOGIC → m ≤ buffer_capacity s.mode) ∧
    (s.mode = .ANALOG → m ≤ buffer_capacity s.mode) ∧
    (s.mode = .DSO → s.instant = false → m ≤ dso_cap s) := by
  obtain ⟨_, hs2⟩ := pacing_shape { s with starttime := tk.time }
    (env.ceil_samples (tk.time - s.starttime) s.cur_samplerate)
  unfold generator_request at h
  cases hpc : pacing { s with starttime := tk.time }
      (env.ceil_samples (tk.time - s.starttime) s.cur_samplerate) with
  | early s1 => rw [hpc] at h; cases h
  | due s1 n =>
    rw [hpc] at h
    obtain ⟨k, hk⟩ := hs2 s1 n hpc
    have e1 : s1.mode = s.mode := by rw [hk]
    have e2 : s1.instant = s.instant := by rw [hk]
    have e3 : s1.channels = s.channels := by rw [hk]
    have e5 : s1.limit_samples_show = s.limit_samples_show := by rw [hk]
    simp only [] at h
    by_cases hgo : 0 < n ∧ s1.stop = false
    · rw [if_pos hgo] at h
      have hsn : min n (if s1.mode = .DSO then DSO_BUFSIZE else BUFSIZE) ≤
          (if s1.mode = .DSO then DSO_BUFSIZE else BUFSIZE) := Nat.min_le_right _ _
      generalize min n (if s1.mode = .DSO then DSO_BUFSIZE else BUFSIZE) = sn at h hsn
      have hm : (advance_counter s1 sn).mode = s.mode := by
        rw [(advance_counter_frame _ _).1, e1]
      simp only [Option.some.injEq] at h
      rw [← h]
      refine ⟨?_, ?_, ?_⟩
      · intro hl
        have hsz : generator_size (advance_counter s1 sn) sn = sn := by
          unfold generator_size
          rw [hm, hl]
          simp
        rw [hsz, hl]
        rw [e1, hl] at hsn
        simpa [buffer_capacity] using hsn
      · intro ha
        have hsz : generator_size (advance_counter s1 sn) sn = sn * 2 := by
          unfold generator_size
          rw [hm, ha]
          simp
        rw [hsz, ha]
        rw [e1, ha] at hsn
        simp only [buffer_capacity]
        simp at hsn ⊢
        omega
      · intro hd hi
        have hsz : generator_size (advance_counter s1 sn) sn =
            (advance_counter s1 sn).samples_counter := by
          unfold generator_size
          rw [hm, hd]
          simp
        rw [hsz]
        unfold advance_counter
        rw [if_pos ⟨by rw [e1]; exact hd, by rw [e2]; exact hi⟩]
        unfold dso_cap
        rw [e3, e5]
        by_cases hen : en_ch_num s.channels = 1
        · rw [if_pos hen, if_pos hen]
          exact Nat.min_le_right _ _
        · rw [if_neg hen, if_neg hen]
          exact Nat.min_le_right _ _
    · rw [if_neg hgo] at h
      cases h

/-! ## adjust_samplerate -/

theorem max_index_scan_spec (t : List Nat) (M : Nat) (i : Nat) :
    (∀ j, max_index_scan t M i = some j →
      j ≤ i ∧ t.getD j 0 ≤ M ∧ ∀ k, j < k → k ≤ i → M < t.getD k 0) ∧
    (max_index_scan t M i = none → ∀ k, k ≤ i → M < t.getD k 0) := by
  induction i with
  | zero =>
    constructor
    · intro j h
      simp only [max_index_scan] at h
      split_ifs at h with hc
      cases h
      exact ⟨Nat.le_refl _, by omega, fun k h1 h2 => by omega⟩
    · intro h k hk
      simp only [max_index_scan] at h
      split_ifs at h with hc
      have : k = 0 := by omega
      rw [this]; exact hc
  | succ i ih =>
    constructor
    · intro j h
      simp only [max_index_scan] at h
      split_ifs at h with hc
      · obtain ⟨a, b, c⟩ := ih.1 j h
        refine ⟨by omega, b, fun k h1 h2 => ?_⟩
        by_cases hk : k = i + 1
        · rw [hk]; exact hc
        · exact c k h1 (by omega)
      · cases h
        exact ⟨Nat.le_refl _, by omega, fun k h1 h2 => by omega⟩
    · intro h k hk
      simp only [max_index_scan] at h
      split_ifs at h with hc
      by_cases hk2 : k = i + 1
      · rw [hk2]; exact hc
      · exact ih.2 h k (by omega)

theorem min_index_scan_spec (t : List Nat) (m : Nat) (left : Nat) :
    ∀ i,
      (∀ j, min_index_scan t m left i = some j →
        i ≤ j ∧ j < i + left ∧ m ≤ t.getD j 0 ∧ ∀ k, i ≤ k → k < j → t.getD k 0 < m) ∧
      (min_index_scan t m left i = none → ∀ k, i ≤ k → k < i + left → t.getD k 0 < m) := by
  induction left with
  | zero =>
    intro i
    constructor
    · intro j h
      simp [min_index_scan] at h
    · intro _ k h1 h2
      omega
  | succ left ih =>
    intro i
    constructor
    · intro j h
      simp only [min_index_scan] at h
      split_ifs at h with hc
      · obtain ⟨a, b, c, d⟩ := (ih (i + 1)).1 j h
        refine ⟨by omega, by omega, c, fun k h1 h2 => ?_⟩
        by_cases hk : k = i
        · rw [hk]; exact hc
        · exact d k (by omega) h2
      · cases h
        exact ⟨Nat.le_refl _, by omega, by omega, fun k h1 h2 => by omega⟩
    · intro h k h1 h2
      simp only [min_index_scan] at h
      split_ifs at h with hc
      by_cases hk : k = i
      · rw [hk]; exact hc
      · exact (ih (i + 1)).2 h k (by omega) (by omega)

theorem ascending_getD (t : List Nat) (h : List.Pairwise (fun a b => a ≤ b) t) (i j : Nat)
    (hij : i ≤ j) (hj : j < t.length) : t.getD i 0 ≤ t.getD j 0 := by
  have hi : i < t.length := by omega
  rw [List.getD_eq_getElem t 0 hi, List.getD_eq_getElem t 0 hj]
  by_cases he : i = j
  · subst he; exact Nat.le_refl _
  · exact (List.pairwise_iff_getElem.1 h) i j hi hj (by omega)

/-- Under the table hypotheses both scans of `adjust_samplerate` succeed, and
the indices they find are ordered and delimit the admissible entries. -/
theorem adjust_scans (t : List Nat) (M m : Nat)
    (hasc : List.Pairwise (fun a b => a ≤ b) t)
    (ia ib : Nat) (ha : ia < t.length) (hb : ib < t.length)
    (hmax : t.getD ia 0 ≤ M) (hmin : m ≤ t.getD ib 0)
    (hab : t.getD ib 0 ≤ t.getD ia 0) :
    ∃ hi lo, max_index_scan t M (t.length - 1) = some hi ∧
      min_index_scan t m t.length 0 = some lo ∧
      lo ≤ hi ∧ hi < t.length ∧ ia ≤ hi ∧ lo ≤ ib ∧
      t.getD hi 0 ≤ M ∧ m ≤ t.getD lo 0 ∧ t.getD lo 0 ≤ t.getD hi 0 ∧
      (∀ k, hi < k → k < t.length → M < t.getD k 0) ∧
      (∀ k, k < lo → t.getD k 0 < m) := by
  have hmx := max_index_scan_spec t M (t.length - 1)
  have hmn := min_index_scan_spec t m t.length 0
  cases h1 : max_index_scan t M (t.length - 1) with
  | none =>
    have := hmx.2 h1 ia (by omega)
    omega
  | some hi =>
    obtain ⟨a1, a2, a3⟩ := hmx.1 hi h1
    cases h2 : min_index_scan t m t.length 0 with
    | none =>
      have := hmn.2 h2 ib (by omega) (by omega)
      omega
    | some lo =>
      obtain ⟨b1, b2, b3, b4⟩ := hmn.1 lo h2
      have hia : ia ≤ hi := by
        by_contra hc
        have := a3 ia (by omega) (by omega)
        omega
      have hlo : lo ≤ ib := by
        by_contra hc
        have := b4 ib (by omega) (by omega)
        omega
      have hlohi : lo ≤ hi := by
        by_cases hc : ib ≤ ia
        · omega
        · have h3 := ascending_getD t hasc ia ib (by omega) hb
          by_contra hd
          have := a3 ib (by omega) (by omega)
          omega
      refine ⟨hi, lo, rfl, rfl, hlohi, by omega, hia, hlo, a2, b3,
        ascending_getD t hasc lo hi hlohi (by omega), fun k h3 h4 => a3 k h3 (by omega),
        fun k h3 => b4 k (by omega) h3⟩

theorem adjust_samplerate_eq (t : List Nat) (s : State) (hi lo : Nat) (hne : t ≠ [])
    (h1 : max_index_scan t (channel_modes s.ch_mode).max_samplerate (t.length - 1) = some hi)
    (h2 : min_index_scan t (channel_modes s.ch_mode).min_samplerate t.length 0 = some lo)
    (h3 : lo ≤ hi) :
    adjust_samplerate t s =
      some ⟨{ s with cur_samplerate := max (t.getD lo 0) (min s.cur_samplerate (t.getD hi 0)) },
        hi, lo⟩ := by
  have e : (if (if t.getD hi 0 < s.cur_samplerate then t.getD hi 0 else s.cur_samplerate)
        < t.getD lo 0 then t.getD lo 0
      else (if t.getD hi 0 < s.cur_samplerate then t.getD hi 0 else s.cur_samplerate))
      = max (t.getD lo 0) (min s.cur_samplerate (t.getD hi 0)) := by
    split_ifs <;> omega
  unfold adjust_samplerate
  rw [if_neg hne, h1, h2]
  simp only []
  rw [if_neg (by omega), e]

/-- C15: `adjust_samplerate` clamps.  For every mode of `channel_modes` and every
current rate, given an ascending table `samplerates` that has an entry not above
the mode's `max_samplerate` and an entry not below its `min_samplerate`, the
former not below the latter, both index loops terminate inside the table,
`samplerates_min_index <= samplerates_max_index`, the new `cur_samplerate` is
the old one clamped between `samplerates[min_index]` and
`samplerates[max_index]`, it lies within the mode's
`[min_samplerate, max_samplerate]`, it is unchanged when it already was
between the two table entries, and, when the mode's two bounds are entries of
the table, it is unchanged when it already was within the mode's bounds.
Nothing but `cur_samplerate` changes in the device state. -/
theorem adjust_samplerate_clamps (samplerates : List Nat) (s : State)
    (hasc : List.Pairwise (fun a b => a ≤ b) samplerates)
    (ia ib : Nat) (ha : ia < samplerates.length) (hb : ib < samplerates.length)
    (hmax : samplerates.getD ia 0 ≤ (channel_modes s.ch_mode).max_samplerate)
    (hmin : (channel_modes s.ch_mode).min_samplerate ≤ samplerates.getD ib 0)
    (hab : samplerates.getD ib 0 ≤ samplerates.getD ia 0) :
    ∃ r, adjust_samplerate samplerates s = some r ∧
      r.samplerates_min_index ≤ r.samplerates_max_index ∧
      r.samplerates_max_index < samplerates.length ∧
      r.state = { s with cur_samplerate := r.state.cur_samplerate } ∧
      r.state.cur_samplerate =
        max (samplerates.getD r.samplerates_min_index 0)
          (min s.cur_samplerate (samplerates.getD r.samplerates_max_index 0)) ∧
      (channel_modes s.ch_mode).min_samplerate ≤ r.state.cur_samplerate ∧
      r.state.cur_samplerate ≤ (channel_modes s.ch_mode).max_samplerate ∧
      (samplerates.getD r.samplerates_min_index 0 ≤ s.cur_samplerate →
        s.cur_samplerate ≤ samplerates.getD r.samplerates_max_index 0 →
        r.state.cur_samplerate = s.cur_samplerate) ∧
      ((channel_modes s.ch_mode).min_samplerate ∈ samplerates →
        (channel_modes s.ch_mode).max_samplerate ∈ samplerates →
        (channel_modes s.ch_mode).min_samplerate ≤ s.cur_samplerate →
        s.cur_samplerate ≤ (channel_modes s.ch_mode).max_samplerate →
        r.state.cur_samplerate = s.cur_samplerate) := by
  obtain ⟨hi, lo, h1, h2, h3, h4, _, _, h7, h8, h9, h10, h11⟩ :=
    adjust_scans samplerates (channel_modes s.ch_mode).max_samplerate
      (channel_modes s.ch_mode).min_samplerate hasc ia ib ha hb hmax hmin hab
  have hne : samplerates ≠ [] := by
    intro h
    rw [h] at ha
    simp at ha
  refine ⟨_, adjust_samplerate_eq samplerates s hi lo hne h1 h2 h3, h3, h4, rfl, rfl, ?_, ?_,
    ?_, ?_⟩
  · show _ ≤ max (samplerates.getD lo 0) (min s.cur_samplerate (samplerates.getD hi 0))
    omega
  · show max (samplerates.getD lo 0) (min s.cur_samplerate (samplerates.getD hi 0)) ≤ _
    omega
  · intro (a : samplerates.getD lo 0 ≤ s.cur_samplerate)
      (b : s.cur_samplerate ≤ samplerates.getD hi 0)
    show max (samplerates.getD lo 0) (min s.cur_samplerate (samplerates.getD hi 0)) = _
    omega
  · intro hm hM a b
    show max (samplerates.getD lo 0) (min s.cur_samplerate (samplerates.getD hi 0)) = _
    obtain ⟨p, hp, hpe⟩ := List.getElem_of_mem hm
    obtain ⟨q, hq, hqe⟩ := List.getElem_of_mem hM
    have hp2 : samplerates.getD p 0 = (channel_modes s.ch_mode).min_samplerate := by
      rw [List.getD_eq_getElem samplerates 0 hp]; exact hpe
    have hq2 : samplerates.getD q 0 = (channel_modes s.ch_mode).max_samplerate := by
      rw [List.getD_eq_getElem samplerates 0 hq]; exact hqe
    have hqhi : q ≤ hi := by
      by_contra hc
      have := h10 q (by omega) hq
      omega
    have hlop : lo ≤ p := by
      by_contra hc
      have := h11 p (by omega)
      omega
    have e1 := ascending_getD samplerates hasc q hi hqhi h4
    have e2 := ascending_getD samplerates hasc lo p hlop hp
    omega

/-- C15, witness: a decade table and the Logic mode at 1 GHz, clamped to the
100 MHz entry. -/
theorem adjust_samplerate_clamps_witness :
    ∃ r, adjust_samplerate [10, 100, 1000, 10000, 100000, 1000000, 10000000, 100000000,
          1000000000] { logic_state with cur_samplerate := 1000000000 } = some r ∧
      r.samplerates_min_index ≤ r.samplerates_max_index ∧
      r.state.cur_samplerate ≤ 100000000 :=
  let ⟨r, h1, h2, _, _, _, _, h7, _, _⟩ :=
    adjust_samplerate_clamps [10, 100, 1000, 10000, 100000, 1000000, 10000000, 100000000,
        1000000000] { logic_state with cur_samplerate := 1000000000 }
      (by decide) 7 3 (by decide) (by decide) (by decide) (by decide) (by decide)
  ⟨r, h1, h2, h7⟩

/-! ## The Logic synthesis loop (demo.c lines 823-838) -/

theorem ch_num_eq_max (s : State) : ch_num s = max 1 (en_ch_num s.channels) := by
  unfold ch_num
  split_ifs <;> omega

theorem logic_step_other (c : Nat) (rnd : Nat → Nat) (i : Nat) (st : (Nat → Nat) × Nat)
    (j : Nat) (h : j ≠ i) : (logic_step c rnd i st).1 j = st.1 j := by
  unfold logic_step
  split_ifs <;> simp [poke, h]

theorem logic_step_at (c : Nat) (rnd : Nat → Nat) (i : Nat) (st : (Nat → Nat) × Nat) :
    (logic_step c rnd i st).1 i =
      if i < c * 4 then 0
      else if i % 4 = 0 then
        (if rnd st.2 % (c * 4) = i / 4 % c then (65535 ^^^ st.1 (i - c * 4)) % U16
         else st.1 (i - c * 4))
      else st.1 (i - 1) := by
  unfold logic_step
  split_ifs <;> simp_all [poke]

theorem logic_step_draws (c : Nat) (rnd : Nat → Nat) (i : Nat) (st : (Nat → Nat) × Nat) :
    (logic_step c rnd i st).2 = st.2 + (if c * 4 ≤ i ∧ i % 4 = 0 then 1 else 0) := by
  unfold logic_step
  by_cases h1 : i < c * 4
  · rw [if_pos h1, if_neg (by omega)]
    rfl
  · rw [if_neg h1]
    by_cases h2 : i % 4 = 0
    · have h3 : c * 4 ≤ i ∧ i % 4 = 0 := ⟨by omega, h2⟩
      rw [if_pos h2, if_pos h3]
    · rw [if_neg h2, if_neg (fun h => h2 h.2)]
      rfl

/-- Number of calls of `rand()` made before iteration `n`: one per group
boundary at or after index `4c`. -/
theorem logic_loop_draws (c : Nat) (rnd : Nat → Nat) (buf0 : Nat → Nat) (n : Nat) :
    (forLoop (logic_step c rnd) n (buf0, 0)).2 = (n + 3) / 4 - c := by
  induction n with
  | zero => simp [forLoop]
  | succ n ih =>
    show (logic_step c rnd n (forLoop (logic_step c rnd) n (buf0, 0))).2 = _
    rw [logic_step_draws, ih]
    split_ifs <;> omega

/-- A word written by iteration `j` is not touched by later iterations. -/
theorem logic_loop_stable (c : Nat) (rnd : Nat → Nat) (buf0 : Nat → Nat) (j n : Nat)
    (h : j < n) (k : Nat) :
    (forLoop (logic_step c rnd) (n + k) (buf0, 0)).1 j =
      (forLoop (logic_step c rnd) n (buf0, 0)).1 j := by
  induction k with
  | zero => rfl
  | succ k ih =>
    show (logic_step c rnd (n + k) (forLoop (logic_step c rnd) (n + k) (buf0, 0))).1 j = _
    rw [logic_step_other _ _ _ _ _ (by omega), ih]

theorem logic_loop_final (c : Nat) (rnd : Nat → Nat) (buf0 : Nat → Nat) (j n size : Nat)
    (h : j < n) (hn : n ≤ size) :
    (forLoop (logic_step c rnd) n (buf0, 0)).1 j =
      (forLoop (logic_step c rnd) size (buf0, 0)).1 j := by
  have := logic_loop_stable c rnd buf0 j n h (size - n)
  rw [show n + (size - n) = size by omega] at this
  exact this.symm

/-- The recurrence satisfied by the finished buffer. -/
theorem logic_loop_at (c : Nat) (rnd : Nat → Nat) (buf0 : Nat → Nat) (size i : Nat)
    (hc : 0 < c) (hi : i < size) :
    (forLoop (logic_step c rnd) size (buf0, 0)).1 i =
      if i < c * 4 then 0
      else if i % 4 = 0 then
        (if rnd (i / 4 - c) % (c * 4) = i / 4 % c then
           (65535 ^^^ (forLoop (logic_step c rnd) size (buf0, 0)).1 (i - c * 4)) % U16
         else (forLoop (logic_step c rnd) size (buf0, 0)).1 (i - c * 4))
      else (forLoop (logic_step c rnd) size (buf0, 0)).1 (i - 1) := by
  rw [← logic_loop_final c rnd buf0 i (i + 1) size (by omega) (by omega)]
  show (logic_step c rnd i (forLoop (logic_step c rnd) i (buf0, 0))).1 i = _
  rw [logic_step_at, logic_loop_draws]
  by_cases h1 : i < c * 4
  · rw [if_pos h1, if_pos h1]
  · rw [if_neg h1, if_neg h1]
    by_cases h2 : i % 4 = 0
    · rw [if_pos h2, if_pos h2,
        logic_loop_final c rnd buf0 (i - c * 4) i size (by omega) (by omega),
        show (i + 3) / 4 - c = i / 4 - c by omega]
    · rw [if_neg h2, if_neg h2,
        logic_loop_final c rnd buf0 (i - 1) i size (by omega) (by omega)]

/-- Every word of the finished Logic buffer is all zeros or all ones. -/
theorem logic_loop_words (c : Nat) (rnd : Nat → Nat) (buf0 : Nat → Nat) (size : Nat)
    (hc : 0 < c) (i : Nat) (hi : i < size) :
    (forLoop (logic_step c rnd) size (buf0, 0)).1 i = 0 ∨
      (forLoop (logic_step c rnd) size (buf0, 0)).1 i = 65535 := by
  induction i using Nat.strong_induction_on with
  | _ i ih =>
    rw [logic_loop_at c rnd buf0 size i hc hi]
    by_cases h1 : i < c * 4
    · rw [if_pos h1]; exact Or.inl rfl
    · rw [if_neg h1]
      by_cases h2 : i % 4 = 0
      · rw [if_pos h2]
        have hp := ih (i - c * 4) (by omega) (by omega)
        split_ifs
        · rcases hp with hp | hp <;> rw [hp]
          · right; decide
          · left; decide
        · exact hp
      · rw [if_neg h2]
        exact ih (i - 1) (by omega) (by omega)

theorem samples_generator_logic (env : Env) (rnd : Nat → Nat) (s : State) (size : Nat)
    (hmode : s.mode = .LOGIC) :
    (samples_generator env rnd s size).buf =
      (forLoop (logic_step (ch_num s) rnd) size (s.buf, 0)).1 := by
  unfold samples_generator
  rw [if_pos hmode]

theorem ch_num_pos (s : State) : 0 < ch_num s := by
  rw [ch_num_eq_max]; omega

theorem logic_loop_replicate (c : Nat) (rnd : Nat → Nat) (buf0 : Nat → Nat) (size : Nat)
    (hc : 0 < c) (i : Nat) (hi : i < size) :
    (forLoop (logic_step c rnd) size (buf0, 0)).1 i =
      (forLoop (logic_step c rnd) size (buf0, 0)).1 (i - i % 4) := by
  induction i using Nat.strong_induction_on with
  | _ i ih =>
    by_cases h2 : i % 4 = 0
    · rw [h2]; rfl
    · by_cases h1 : i < c * 4
      · rw [logic_loop_at c rnd buf0 size i hc hi, if_pos h1,
          logic_loop_at c rnd buf0 size (i - i % 4) hc (by omega), if_pos (by omega)]
      · rw [logic_loop_at c rnd buf0 size i hc hi, if_neg h1, if_neg h2,
          ih (i - 1) (by omega) (by omega),
          show i - 1 - (i - 1) % 4 = i - i % 4 by omega]

/-- C19: Logic-mode synthesis, group-boundary rule.  With
`c = ch_num = max(1, enabled channels)`, for every index `i` with
`4c <= i < size` and `i mod 4 = 0`, and `r = rand() mod 4c` the draw made for
that index (the draw number `i/4 - c` of the call): the modulus `4c` is not
zero, `r < 4c`, the read index `i - 4c` is not negative and lies below `i`,
`buf[i]` is the bitwise complement of `buf[i - 4c]` (as a 16-bit word, which
here is `65535 - buf[i - 4c]`) when `r = (i/4) mod c`, and `buf[i]` equals
`buf[i - 4c]` otherwise. -/
theorem logic_group_boundary (env : Env) (rnd : Nat → Nat) (s : State) (size i : Nat)
    (hmode : s.mode = .LOGIC) (hlo : ch_num s * 4 ≤ i) (hi : i < size) (h4 : i % 4 = 0) :
    ch_num s = max 1 (en_ch_num s.channels) ∧
    ch_num s * 4 ≠ 0 ∧
    rnd (i / 4 - ch_num s) % (ch_num s * 4) < ch_num s * 4 ∧
    (0 : Int) ≤ (i : Int) - ((ch_num s * 4 : Nat) : Int) ∧
    i - ch_num s * 4 < i ∧
    (rnd (i / 4 - ch_num s) % (ch_num s * 4) = i / 4 % ch_num s →
      (samples_generator env rnd s size).buf i =
        (65535 ^^^ (samples_generator env rnd s size).buf (i - ch_num s * 4)) % U16 ∧
      (samples_generator env rnd s size).buf i =
        65535 - (samples_generator env rnd s size).buf (i - ch_num s * 4)) ∧
    (rnd (i / 4 - ch_num s) % (ch_num s * 4) ≠ i / 4 % ch_num s →
      (samples_generator env rnd s size).buf i =
        (samples_generator env rnd s size).buf (i - ch_num s * 4)) := by
  have hc := ch_num_pos s
  have hrec := logic_loop_at (ch_num s) rnd s.buf size i hc hi
  rw [if_neg (by omega), if_pos h4] at hrec
  have hw := logic_loop_words (ch_num s) rnd s.buf size hc (i - ch_num s * 4) (by omega)
  rw [samples_generator_logic env rnd s size hmode]
  refine ⟨ch_num_eq_max s, by omega, Nat.mod_lt _ (by omega), by omega, by omega, ?_, ?_⟩
  · intro hr
    rw [if_pos hr] at hrec
    refine ⟨hrec, ?_⟩
    rw [hrec]
    rcases hw with hw | hw <;> rw [hw] <;> decide
  · intro hr
    rw [if_neg hr] at hrec
    exact hrec

/-- C19, witness: no channel enabled (so `c = 1`), the first boundary after the
baseline (index 4) with a draw that hits the group position. -/
theorem logic_group_boundary_witness :
    logic_state.mode = .LOGIC ∧ ch_num logic_state * 4 ≤ 4 ∧
    (samples_generator exact_env (fun _ => 0) logic_state 128).buf 4 =
      65535 - (samples_generator exact_env (fun _ => 0) logic_state 128).buf
        (4 - ch_num logic_state * 4) :=
  ⟨by decide, by decide,
   ((logic_group_boundary exact_env (fun _ => 0) logic_state 128 4 (by decide) (by decide)
    (by decide) (by decide)).2.2.2.2.2.1 (by decide)).2⟩

/-- C20: Logic-mode synthesis, baseline and replication.  With
`c = ch_num = max(1, enabled channels)`, for every size and every sequence of
random draws, `buf[i] = 0` for every `i < min(size, 4c)`, and for every
`i < size` the word equals the word at the start of its aligned group of four:
`buf[i] = buf[i - (i mod 4)]`. -/
theorem logic_baseline_replication (env : Env) (rnd : Nat → Nat) (s : State) (size : Nat)
    (hmode : s.mode = .LOGIC) :
    ch_num s = max 1 (en_ch_num s.channels) ∧
    (∀ i, i < min size (ch_num s * 4) → (samples_generator env rnd s size).buf i = 0) ∧
    (∀ i, i < size →
      (samples_generator env rnd s size).buf i =
        (samples_generator env rnd s size).buf (i - i % 4)) := by
  have hc := ch_num_pos s
  rw [samples_generator_logic env rnd s size hmode]
  refine ⟨ch_num_eq_max s, ?_, ?_⟩
  · intro i hi
    rw [logic_loop_at (ch_num s) rnd s.buf size i hc (by omega), if_pos (by omega)]
  · intro i hi
    exact logic_loop_replicate (ch_num s) rnd s.buf size hc i hi

/-- C20, witness: no channel enabled (so `c = 1`) and 128 samples; word 3 is
zero and word 70 repeats word 68. -/
theorem logic_baseline_replication_witness :
    logic_state.mode = .LOGIC ∧
    (samples_generator exact_env (fun n => n) logic_state 128).buf 3 = 0 ∧
    (samples_generator exact_env (fun n => n) logic_state 128).buf 70 =
      (samples_generator exact_env (fun n => n) logic_state 128).buf 68 :=
  ⟨by decide,
   (logic_baseline_replication exact_env (fun n => n) logic_state 128 (by decide)).2.1 3
     (by decide),
   (logic_baseline_replication exact_env (fun n => n) logic_state 128 (by decide)).2.2 70
     (by decide)⟩

/-! ## Value range and reads of the Logic loop -/

theorem logic_reads_lt (c i : Nat) (hc : 0 < c) : ∀ j, j ∈ logic_reads c i → j < i := by
  intro j hj
  unfold logic_reads at hj
  split_ifs at hj with h1 h2
  · simp at hj
  · simp at hj; omega
  · simp at hj; omega

theorem logic_step_reads (c : Nat) (rnd : Nat → Nat) (i : Nat) (a b : (Nat → Nat) × Nat)
    (h2 : a.2 = b.2) (h : ∀ j, j ∈ logic_reads c i → a.1 j = b.1 j) :
    (logic_step c rnd i a).1 i = (logic_step c rnd i b).1 i := by
  rw [logic_step_at, logic_step_at, h2]
  unfold logic_reads at h
  by_cases h1 : i < c * 4
  · rw [if_pos h1, if_pos h1]
  · rw [if_neg h1, if_neg h1]
    rw [if_neg h1] at h
    by_cases h4 : i % 4 = 0
    · rw [if_pos h4] at h
      rw [if_pos h4, if_pos h4, h (i - c * 4) (by simp)]
    · rw [if_neg h4] at h
      rw [if_neg h4, if_neg h4, h (i - 1) (by simp)]

/-- C30: Logic-mode synthesis value range.  For every size, every channel list and
every sequence of random draws, every word `samples_generator` writes (the word
iteration `i` stores, which is the word the finished buffer holds at `i`) is
`0x0000` or `0xFFFF`.  The word iteration `i` stores depends on the buffer only
at the indices of `logic_reads`; each of them lies below `i`, and the word found
there is the one iteration `j` of the same call stored. -/
theorem logic_words_range (env : Env) (rnd : Nat → Nat) (s : State) (size : Nat)
    (hmode : s.mode = .LOGIC) :
    ∀ i, i < size →
      ((samples_generator env rnd s size).buf i = 0 ∨
        (samples_generator env rnd s size).buf i = 65535) ∧
      (logic_step (ch_num s) rnd i (forLoop (logic_step (ch_num s) rnd) i (s.buf, 0))).1 i =
        (samples_generator env rnd s size).buf i ∧
      (∀ b : Nat → Nat,
        (∀ j, j ∈ logic_reads (ch_num s) i →
          b j = (forLoop (logic_step (ch_num s) rnd) i (s.buf, 0)).1 j) →
        (logic_step (ch_num s) rnd i
            (b, (forLoop (logic_step (ch_num s) rnd) i (s.buf, 0)).2)).1 i =
          (samples_generator env rnd s size).buf i) ∧
      (∀ j, j ∈ logic_reads (ch_num s) i → j < i) ∧
      (∀ j, j ∈ logic_reads (ch_num s) i →
        (forLoop (logic_step (ch_num s) rnd) i (s.buf, 0)).1 j =
          (logic_step (ch_num s) rnd j (forLoop (logic_step (ch_num s) rnd) j (s.buf, 0))).1 j) := by
  intro i hi
  have hc := ch_num_pos s
  rw [samples_generator_logic env rnd s size hmode]
  have hfin := logic_loop_final (ch_num s) rnd s.buf i (i + 1) size (by omega) (by omega)
  refine ⟨logic_loop_words (ch_num s) rnd s.buf size hc i hi, hfin, ?_,
    logic_reads_lt (ch_num s) i hc, ?_⟩
  · intro b hb
    rw [← hfin]
    exact logic_step_reads (ch_num s) rnd i _ _ rfl hb
  · intro j hj
    have hlt := logic_reads_lt (ch_num s) i hc j hj
    exact (logic_loop_final (ch_num s) rnd s.buf j i size hlt (by omega)).trans
      (logic_loop_final (ch_num s) rnd s.buf j (j + 1) size (by omega) (by omega)).symm

theorem logic_words_range_witness :
    logic_state.mode = .LOGIC ∧
    ((samples_generator exact_env (fun n => n) logic_state 128).buf 100 = 0 ∨
      (samples_generator exact_env (fun n => n) logic_state 128).buf 100 = 65535) ∧
    (∀ j, j ∈ logic_reads (ch_num logic_state) 100 → j < 100) :=
  ⟨rfl,
    ((logic_words_range exact_env (fun n => n) logic_state 128 rfl) 100 (by decide)).1,
    ((logic_words_range exact_env (fun n => n) logic_state 128 rfl) 100 (by decide)).2.2.2.1⟩

/-! ## The captured-count bytes of the status snapshot -/

/-- What lines 1095-1098 store: the three low bytes of `samples_counter` in
`captured_cnt0..2`, and bits 32-39 of it in `captured_cnt3`. -/
theorem update_mstatus_bytes (s : State) :
    (update_mstatus s).mstatus.captured_cnt0 + 256 * (update_mstatus s).mstatus.captured_cnt1 +
        65536 * (update_mstatus s).mstatus.captured_cnt2 = s.samples_counter % 16777216 ∧
    (update_mstatus s).mstatus.captured_cnt3 = s.samples_counter / 4294967296 % 256 := by
  have e1 : (update_mstatus s).mstatus.captured_cnt0 = s.samples_counter % 256 := rfl
  have e2 : (update_mstatus s).mstatus.captured_cnt1 = (s.samples_counter >>> 8) % 256 := rfl
  have e3 : (update_mstatus s).mstatus.captured_cnt2 = (s.samples_counter >>> 16) % 256 := rfl
  have e4 : (update_mstatus s).mstatus.captured_cnt3 = (s.samples_counter >>> 32) % 256 := rfl
  have h8 : s.samples_counter >>> 8 = s.samples_counter / 256 := by
    rw [Nat.shiftRight_eq_div_pow]
  have h16 : s.samples_counter >>> 16 = s.samples_counter / 65536 := by
    rw [Nat.shiftRight_eq_div_pow]
  have h32 : s.samples_counter >>> 32 = s.samples_counter / 4294967296 := by
    rw [Nat.shiftRight_eq_div_pow]
  rw [h8] at e2
  rw [h16] at e3
  rw [h32] at e4
  constructor <;> omega

/-- C28, at the failing input.  Logic mode at 10 kHz, `samples_counter` 64 short
of 2^24: the tick at 6400 microseconds forwards a data packet of 64 samples and
leaves `samples_counter = 2^24`, whose byte of bits 24-31 is 1; the four status
fields are all zero, because `captured_cnt3` is `samples_counter >> 32`, so
they do not add up to `samples_counter mod 2^32`. -/
theorem captured_cnt3_skips_byte :
    (receive_data exact_env cnt24_state { time := 6400 }).packets = [Packet.SR_DF_LOGIC 128] ∧
    (receive_data exact_env cnt24_state { time := 6400 }).state.samples_counter = 16777216 ∧
    (receive_data exact_env cnt24_state { time := 6400 }).state.mstatus.captured_cnt0 = 0 ∧
    (receive_data exact_env cnt24_state { time := 6400 }).state.mstatus.captured_cnt1 = 0 ∧
    (receive_data exact_env cnt24_state { time := 6400 }).state.mstatus.captured_cnt2 = 0 ∧
    (receive_data exact_env cnt24_state { time := 6400 }).state.mstatus.captured_cnt3 = 0 ∧
    (receive_data exact_env cnt24_state { time := 6400 }).state.samples_counter
      / 16777216 % 256 = 1 ∧
    ¬ ((receive_data exact_env cnt24_state { time := 6400 }).state.mstatus.captured_cnt0 +
        256 * (receive_data exact_env cnt24_state { time := 6400 }).state.mstatus.captured_cnt1 +
        65536 * (receive_data exact_env cnt24_state { time := 6400 }).state.mstatus.captured_cnt2 +
        16777216 * (receive_data exact_env cnt24_state { time := 6400 }).state.mstatus.captured_cnt3
      = (receive_data exact_env cnt24_state { time := 6400 }).state.samples_counter
          % 4294967296) := by
  decide

/-! ## probe_init -/

theorem shl_one_some (k : Int) (h0 : 0 ≤ k) (h1 : k < 32) : shl_one k = some (2 ^ k.toNat) := by
  unfold shl_one
  rw [if_pos ⟨h0, h1⟩]

theorem probe_init_list_none (ch_mode : DEMO_CHANNEL_ID) (probe : sr_channel)
    (rest : List sr_channel) (h : probe_init_one ch_mode probe = none) :
    probe_init_list ch_mode (probe :: rest) = none := by
  simp [probe_init_list, h]

/-- In the two 8-bit modes both shifts of `probe_init` are defined, and every probe
ends with `trig_value = hw_offset = 2^(bits-1) = 128`, `vdiv = 1000`,
`vfactor = 1` and AC coupling. -/
theorem probe_init_eight_bits (ch_mode : DEMO_CHANNEL_ID)
    (h : ch_mode = .DEMO_ANALOG10x2 ∨ ch_mode = .DEMO_DSO200x2) (channels : List sr_channel) :
    (0 : Int) ≤ ((channel_modes ch_mode).unit_bits : Int) - 2 ∧
    ((channel_modes ch_mode).unit_bits : Int) - 1 < 32 ∧
    ∃ l, probe_init_list ch_mode channels = some l ∧ l.length = channels.length ∧
      ∀ r, r ∈ l →
        r.probe.bits = (channel_modes ch_mode).unit_bits ∧
        r.probe.trig_value = 2 ^ ((channel_modes ch_mode).unit_bits - 1) ∧
        r.probe.hw_offset = 2 ^ ((channel_modes ch_mode).unit_bits - 1) ∧
        r.probe.vdiv = 1000 ∧ r.probe.vfactor = 1 ∧ r.probe.coupling = SR_AC_COUPLING := by
  have hb : (channel_modes ch_mode).unit_bits = 8 := by
    rcases h with h | h <;> rw [h] <;> rfl
  refine ⟨by rw [hb]; decide, by rw [hb]; decide, ?_⟩
  induction channels with
  | nil => exact ⟨[], rfl, rfl, fun r hr => by simp at hr⟩
  | cons p ps ih =>
    obtain ⟨l, hl, hlen, hall⟩ := ih
    have h1 : shl_one (((channel_modes ch_mode).unit_bits : Int) - 1) = some 128 := by
      rw [hb]; rfl
    have h2 : shl_one (((channel_modes ch_mode).unit_bits : Int) - 2) = some 64 := by
      rw [hb]; rfl
    have hone : ∃ a, probe_init_one ch_mode p = some a ∧
        a.probe.bits = (channel_modes ch_mode).unit_bits ∧
        a.probe.trig_value = 128 ∧ a.probe.hw_offset = 128 ∧
        a.probe.vdiv = 1000 ∧ a.probe.vfactor = 1 ∧ a.probe.coupling = SR_AC_COUPLING := by
      unfold probe_init_one
      simp only [h1, h2]
      exact ⟨_, rfl, rfl, rfl, rfl, rfl, rfl, rfl⟩
    obtain ⟨a, ha, a1, a2, a3, a4, a5, a6⟩ := hone
    refine ⟨a :: l, by simp [probe_init_list, ha, hl], by simp [hlen], ?_⟩
    intro r hr
    rcases List.mem_cons.1 hr with hr | hr
    · subst hr
      rw [hb]
      exact ⟨by rw [a1, hb], a2, a3, a4, a5, a6⟩
    · exact hall r hr

/-- C29, at the failing input.  In the Logic mode `unit_bits` is 1, so the shift
count `bits - 2` of line 117 is -1: the shift `1 << (bits - 2)` is not defined,
and `probe_init` over the sixteen Logic probes has no defined result.  The
other shift count, `bits - 1 = 0`, is in range. -/
theorem probe_init_logic_shift_negative :
    (channel_modes .DEMO_LOGIC100x16).unit_bits = 1 ∧
    (((channel_modes .DEMO_LOGIC100x16).unit_bits : Int) - 2 = -1) ∧
    shl_one (((channel_modes .DEMO_LOGIC100x16).unit_bits : Int) - 1) = some 1 ∧
    shl_one (((channel_modes .DEMO_LOGIC100x16).unit_bits : Int) - 2) = none ∧
    logic_probe_state.channels.length = 16 ∧
    (probe_init logic_probe_state).isNone = true := by
  refine ⟨rfl, rfl, rfl, rfl, rfl, ?_⟩
  have h : probe_init_one .DEMO_LOGIC100x16 { index := 0 } = none := rfl
  show (probe_init_list .DEMO_LOGIC100x16 ((List.range 16).map (fun j => { index := j }))).isNone
    = true
  rw [show (List.range 16).map (fun j => ({ index := j } : sr_channel)) =
    ({ index := 0 } : sr_channel) :: (List.range 15).map (fun j => { index := j + 1 }) from by
      decide]
  rw [probe_init_list_none _ _ _ h]
  rfl

/-! ## The stride of the oscilloscope with one channel, and of Analog mode -/

theorem double_div (m c : Nat) (hc : 0 < c) :
    2 * m / c = 2 * (m / c) + (if 2 * (m % c) < c then 0 else 1) := by
  have hm : 2 * m = 2 * (m % c) + c * (2 * (m / c)) := by
    have := Nat.div_add_mod m c
    calc 2 * m = 2 * (c * (m / c) + m % c) := by rw [this]
      _ = 2 * (m % c) + c * (2 * (m / c)) := by ring
  have hr : m % c < c := Nat.mod_lt _ hc
  rw [hm, Nat.add_mul_div_left _ _ hc]
  by_cases h : 2 * (m % c) < c
  · rw [if_pos h, Nat.div_eq_of_lt h]
    omega
  · have h1 : 2 * (m % c) / c = 1 :=
      Nat.div_eq_of_lt_le (by rw [Nat.one_mul]; omega)
        (by show 2 * (m % c) < (1 + 1) * c; omega)
    rw [if_neg h, h1]
    omega

theorem max_samplerate_double (m : DEMO_CHANNEL_ID) :
    2 * (channel_modes m).max_samplerate < U64 := by
  cases m <;> decide

theorem ch_num_of_one (s : State) (h : en_ch_num s.channels = 1) : ch_num s = 1 := by
  simp [ch_num, h]

/-- C23, as stated, fails.  The oscilloscope at 100 MHz: with both channels enabled
the stride is the ratio 200 MHz / 100 MHz = 2, and with exactly one channel
enabled it is 4, which is twice that ratio and not half of it. -/
theorem dso_span_one_channel_not_half :
    dso_one_state.mode = .DSO ∧ en_ch_num dso_one_state.channels = 1 ∧
    dso_state.mode = .DSO ∧ en_ch_num dso_state.channels = 2 ∧
    dso_one_state.ch_mode = dso_state.ch_mode ∧
    dso_one_state.cur_samplerate = dso_state.cur_samplerate ∧
    rate_quotient dso_state = 2 ∧ span exact_env dso_state = 2 ∧
    span exact_env dso_one_state = 4 ∧
    ¬ (span exact_env dso_one_state = span exact_env dso_state / 2) := by
  have h2 : span exact_env dso_state = 2 := by
    simp [span, dso_state, ch_num, en_ch_num, channel_modes, SR_MHZ, U64]
  have h1 : span exact_env dso_one_state = 4 := by
    simp [span, dso_one_state, ch_num, en_ch_num, channel_modes, SR_MHZ, U64]
  refine ⟨rfl, by decide, rfl, by decide, rfl, rfl, ?_, h2, h1, ?_⟩
  · simp [rate_quotient, dso_state, channel_modes, SR_MHZ]
    norm_num
  · rw [h1, h2]
    norm_num

/-- C23, amended.  In oscilloscope mode with exactly one channel enabled and a
non-zero rate, the stride is the `uint64_t` quotient
`(2 * max_samplerate) / cur_samplerate`.  Against the quotient
`max_samplerate / cur_samplerate` used with two channels enabled (same mode
table entry, same rate) it is twice that quotient, or twice that quotient plus
one; it is exactly twice it when, and only when, twice the remainder of
`max_samplerate` by `cur_samplerate` is below `cur_samplerate`, in particular
when the rate divides the maximum, where it is twice the exact ratio.  It is
never half of a non-zero two-channel quotient. -/
theorem dso_span_one_channel (env : Env) (s s2 : State)
    (hmode : s.mode = .DSO) (hen : en_ch_num s.channels = 1)
    (hmode2 : s2.mode = .DSO) (hen2 : en_ch_num s2.channels = 2)
    (hcm : s2.ch_mode = s.ch_mode) (hrate : s2.cur_samplerate = s.cur_samplerate)
    (hpos : 0 < s.cur_samplerate) :
    span env s =
      ((2 * (channel_modes s.ch_mode).max_samplerate / s.cur_samplerate : Nat) : ℚ) ∧
    span env s2 = (((channel_modes s.ch_mode).max_samplerate / s.cur_samplerate : Nat) : ℚ) ∧
    (span env s = 2 * span env s2 ∨ span env s = 2 * span env s2 + 1) ∧
    (span env s = 2 * span env s2 ↔
      2 * ((channel_modes s.ch_mode).max_samplerate % s.cur_samplerate) < s.cur_samplerate) ∧
    (s.cur_samplerate ∣ (channel_modes s.ch_mode).max_samplerate →
      span env s = 2 * rate_quotient s) ∧
    (0 < span env s2 → span env s ≠ span env s2 / 2) := by
  have h1 : span env s =
      ((2 * (channel_modes s.ch_mode).max_samplerate / s.cur_samplerate : Nat) : ℚ) := by
    unfold span
    rw [if_pos hmode, if_pos (ch_num_of_one s hen),
      Nat.mod_eq_of_lt (max_samplerate_double s.ch_mode)]
  have h2 : span env s2 =
      (((channel_modes s.ch_mode).max_samplerate / s.cur_samplerate : Nat) : ℚ) := by
    unfold span
    rw [if_pos hmode2, if_neg (by rw [ch_num_of_two s2 hen2]; decide), hcm, hrate]
  have hd := double_div (channel_modes s.ch_mode).max_samplerate s.cur_samplerate hpos
  refine ⟨h1, h2, ?_, ?_, ?_, ?_⟩
  · rw [h1, h2, hd]
    by_cases h : 2 * ((channel_modes s.ch_mode).max_samplerate % s.cur_samplerate)
        < s.cur_samplerate
    · left; rw [if_pos h]; push_cast; ring
    · right; rw [if_neg h]; push_cast; ring
  · rw [h1, h2, hd]
    constructor
    · intro he
      by_contra h
      rw [if_neg h] at he
      push_cast at he
      linarith
    · intro h
      rw [if_pos h]; push_cast; ring
  · intro hdvd
    have hne : (s.cur_samplerate : ℚ) ≠ 0 := by
      exact_mod_cast (Nat.pos_iff_ne_zero.1 hpos)
    have hz : (channel_modes s.ch_mode).max_samplerate % s.cur_samplerate = 0 :=
      Nat.mod_eq_zero_of_dvd hdvd
    rw [h1, hd, hz, if_pos (by omega)]
    unfold rate_quotient
    rw [← Nat.cast_div hdvd hne]
    push_cast; ring
  · intro hpos2 he
    rw [h2] at hpos2
    rw [h1, h2, hd] at he
    have hq : (0 : ℚ) < ((channel_modes s.ch_mode).max_samplerate / s.cur_samplerate : Nat) :=
      hpos2
    have hge : (2 * ((channel_modes s.ch_mode).max_samplerate / s.cur_samplerate : Nat) : ℚ) ≤
        ((2 * ((channel_modes s.ch_mode).max_samplerate / s.cur_samplerate) +
          (if 2 * ((channel_modes s.ch_mode).max_samplerate % s.cur_samplerate)
            < s.cur_samplerate then 0 else 1) : Nat) : ℚ) := by
      push_cast
      split_ifs <;> simp
    linarith

theorem dso_span_one_channel_witness :
    dso_one_state.mode = .DSO ∧ en_ch_num dso_one_state.channels = 1 ∧
    0 < dso_one_state.cur_samplerate ∧
    span exact_env dso_one_state = 2 * span exact_env dso_state :=
  ⟨rfl, by decide, by decide,
    ((dso_span_one_channel exact_env dso_one_state dso_state rfl (by decide) rfl (by decide)
      rfl rfl (by decide)).2.2.2.1).2 (by decide)⟩

theorem trunc_of_nonneg (q : ℚ) (h : 0 ≤ q) : trunc q = ⌊q⌋ := by
  unfold trunc
  rw [if_pos h]
  rfl

theorem rat_floor_eq (q : ℚ) : Rat.floor q = ⌊q⌋ := rfl

theorem trunc_intCast (z : Int) : trunc (z : ℚ) = z := by
  unfold trunc
  have e1 : Rat.floor (z : ℚ) = z := by
    rw [rat_floor_eq]
    exact Int.floor_intCast z
  have e2 : Rat.floor (-(z : ℚ)) = -z := by
    have : (-(z : ℚ)) = ((-z : Int) : ℚ) := by push_cast; ring
    rw [this, rat_floor_eq]
    exact Int.floor_intCast (-z)
  split_ifs
  · exact e1
  · rw [e2]; ring

theorem trunc_natCast (n : Nat) : trunc (n : ℚ) = (n : Int) := by
  have := trunc_intCast (n : Int)
  simpa using this

theorem to_uint8_intCast (z : Int) : to_uint8 (z : ℚ) = (z % 256).toNat := by
  unfold to_uint8
  rw [trunc_intCast]

theorem span_nonneg (env : Env) (s : State) : 0 ≤ span env s := by
  unfold span
  split_ifs
  · exact Nat.cast_nonneg _
  · exact Nat.cast_nonneg _
  · exact div_nonneg (mul_nonneg (Nat.cast_nonneg _) (by norm_num)) (Nat.cast_nonneg _)
  · norm_num

theorem start_rand_of_nat_span (env : Env) (s : State) (k : Nat)
    (h : span env s = (k : ℚ)) : start_rand env s = s.pre_index * k % 2 ^ 32 := by
  unfold start_rand
  rw [h]
  have : (s.pre_index : ℚ) * (k : ℚ) = ((s.pre_index * k : Nat) : ℚ) := by push_cast; ring
  rw [this, trunc_natCast, Int.toNat_ofNat]

theorem table_index_of_nat_span (env : Env) (s : State) (k : Nat)
    (h : span env s = (k : ℚ)) (i : Nat) :
    table_index env s i = (i * k + s.pre_index * k % 2 ^ 32) % U64 % env.len := by
  unfold table_index
  rw [start_rand_of_nat_span env s k h, h]
  have : (i : ℚ) * (k : ℚ) + ((s.pre_index * k % 2 ^ 32 : Nat) : ℚ) =
      ((i * k + s.pre_index * k % 2 ^ 32 : Nat) : ℚ) := by push_cast; ring
  rw [this, trunc_natCast, Int.toNat_ofNat]

/-- With `vdiv = 1000` the scale factor `1000.0/vdiv` is 1 and the channel value
is an integer reduced to 8 bits. -/
theorem channel_value_unit (env : Env) (s : State) (probe : sr_channel) (i : Nat)
    (hv : probe.vdiv = 1000) :
    (probe.coupling = SR_DC_COUPLING →
      channel_value env s probe i =
        (((probe.hw_offset : Int) + (pre_buf env s.sample_generator (table_index env s i)
          - env.const_dc)) % 256).toNat) ∧
    (probe.coupling = SR_AC_COUPLING →
      channel_value env s probe i =
        (((probe.hw_offset : Int) + pre_buf env s.sample_generator (table_index env s i))
          % 256).toNat) := by
  constructor
  · intro hc
    unfold channel_value
    rw [if_pos hc, hv, ← to_uint8_intCast]
    congr 1
    push_cast
    norm_num
  · intro hc
    have hne : ¬ probe.coupling = SR_DC_COUPLING := by rw [hc]; decide
    unfold channel_value
    rw [if_neg hne, if_pos hc, hv, ← to_uint8_intCast]
    congr 1
    push_cast
    norm_num

theorem spec_channel_value_unit (env : Env) (s : State) (probe : sr_channel) (i : Nat)
    (hv : probe.vdiv = 1000) :
    (probe.coupling = SR_AC_COUPLING →
      spec_channel_value env s probe i =
        (((probe.hw_offset : Int) + (pre_buf env s.sample_generator (table_index env s i)
          - env.const_dc)) % 256).toNat) ∧
    (probe.coupling ≠ SR_AC_COUPLING →
      spec_channel_value env s probe i =
        (((probe.hw_offset : Int) + pre_buf env s.sample_generator (table_index env s i))
          % 256).toNat) := by
  constructor
  · intro hc
    unfold spec_channel_value
    rw [if_pos hc, hv, ← to_uint8_intCast]
    congr 1
    push_cast
    norm_num
  · intro hc
    unfold spec_channel_value
    rw [if_neg hc, hv, ← to_uint8_intCast]
    congr 1
    push_cast
    norm_num

/-- The word two channels leave at an index below `size`. -/
theorem two_channel_word (env : Env) (rnd : Nat → Nat) (s : State) (ch0 ch1 : sr_channel)
    (size : Nat) (hmode : s.mode ≠ .LOGIC) (hch : s.channels = [ch0, ch1])
    (h0 : ch0.index = 0) (h1 : ch1.index = 1)
    (hv0 : ∀ i, channel_value env s ch0 i < 256) (hv1 : ∀ i, channel_value env s ch1 i < 256)
    (i : Nat) (hi : i < size) :
    (samples_generator env rnd s size).buf i =
        channel_value env s ch0 i + channel_value env s ch1 i * 256 ∧
    (samples_generator env rnd s size).buf i &&& 0xFF = channel_value env s ch0 i ∧
    ((samples_generator env rnd s size).buf i >>> 8) &&& 0xFF = channel_value env s ch1 i := by
  have a := hv0 i
  have b := hv1 i
  have hbuf : (samples_generator env rnd s size).buf i =
      channel_value env s ch0 i + channel_value env s ch1 i * 256 := by
    unfold samples_generator
    rw [if_neg hmode]
    simp only [hch, List.foldl_cons, List.foldl_nil]
    rw [forLoop_channel_step, if_pos hi, forLoop_channel_step, if_pos hi]
    simp only [memset0, if_pos hi, h0, h1, U16]
    norm_num
    omega
  have e255 : (255 : Nat) = 2 ^ 8 - 1 := by norm_num
  refine ⟨hbuf, ?_, ?_⟩
  · rw [hbuf, e255, Nat.and_pow_two_sub_one_eq_mod]
    omega
  · rw [hbuf, e255, Nat.and_pow_two_sub_one_eq_mod, Nat.shiftRight_eq_div_pow]
    omega

theorem ramp_span_analog : span ramp_env analog_state = ((2 : Nat) : ℚ) := by
  simp [span, analog_state, ramp_env]
  norm_num

theorem ramp_index_analog (i : Nat) :
    table_index ramp_env analog_state i = (i * 2 + 0 * 2 % 2 ^ 32) % U64 % 10 :=
  table_index_of_nat_span ramp_env analog_state 2 ramp_span_analog i

theorem trunc_nat_div (n d : Nat) : (trunc ((n : ℚ) / (d : ℚ))).toNat = n / d := by
  rw [trunc_of_nonneg _ (div_nonneg (Nat.cast_nonneg _) (Nat.cast_nonneg _)),
    Rat.floor_natCast_div_natCast]
  norm_cast

/-- On the inputs of `ExactStride` the table index is a quotient of natural
numbers: the cursor term is truncated, then added. -/
theorem table_index_exact (env : Env) (s : State) (a j bound : Nat)
    (hx : ExactStride env s a j bound) (i : Nat) (hi : i ≤ bound) :
    start_rand env s = s.pre_index * a / 2 ^ j ∧
    table_index env s i = (i * a + s.pre_index * a / 2 ^ j * 2 ^ j) / 2 ^ j % env.len := by
  have hp : (0 : ℚ) < ((2 ^ j : Nat) : ℚ) := by
    exact_mod_cast Nat.two_pow_pos j
  have hsr : start_rand env s = s.pre_index * a / 2 ^ j := by
    unfold start_rand
    rw [hx.stride]
    have : (s.pre_index : ℚ) * ((a : ℚ) / ((2 ^ j : Nat) : ℚ)) =
        ((s.pre_index * a : Nat) : ℚ) / ((2 ^ j : Nat) : ℚ) := by
      push_cast; ring
    rw [this, trunc_nat_div]
    exact Nat.mod_eq_of_lt hx.cursor_range
  refine ⟨hsr, ?_⟩
  unfold table_index
  rw [hsr, hx.stride]
  have : (i : ℚ) * ((a : ℚ) / ((2 ^ j : Nat) : ℚ)) + ((s.pre_index * a / 2 ^ j : Nat) : ℚ) =
      ((i * a + s.pre_index * a / 2 ^ j * 2 ^ j : Nat) : ℚ) / ((2 ^ j : Nat) : ℚ) := by
    rw [eq_div_iff (ne_of_gt hp)]
    push_cast
    field_simp
  rw [this, trunc_nat_div]
  have h1 : i * a ≤ bound * a := Nat.mul_le_mul_right _ hi
  have h2 := hx.sum_exact
  have h3 : (i * a + s.pre_index * a / 2 ^ j * 2 ^ j) / 2 ^ j < U64 := by
    have : (i * a + s.pre_index * a / 2 ^ j * 2 ^ j) / 2 ^ j ≤
        i * a + s.pre_index * a / 2 ^ j * 2 ^ j := Nat.div_le_self _ _
    have hU : (2 : Nat) ^ 53 < U64 := by decide
    omega
  rw [Nat.mod_eq_of_lt h3]

/-- With a `vdiv` that is not zero and divides 1000 the channel value is an
integer reduced to 8 bits, and the integer itself when it lies in 0..255. -/
theorem channel_value_scaled (env : Env) (s : State) (probe : sr_channel) (i : Nat)
    (hv : probe.vdiv ≠ 0) (hd : probe.vdiv ∣ 1000) :
    (probe.coupling = SR_DC_COUPLING →
      channel_value env s probe i =
        (scaled_value probe (pre_buf env s.sample_generator (table_index env s i)
          - env.const_dc) % 256).toNat) ∧
    (probe.coupling = SR_AC_COUPLING →
      channel_value env s probe i =
        (scaled_value probe (pre_buf env s.sample_generator (table_index env s i))
          % 256).toNat) := by
  have hq : (1000 : ℚ) / (probe.vdiv : ℚ) = ((1000 / probe.vdiv : Nat) : ℚ) := by
    have hne : (probe.vdiv : ℚ) ≠ 0 := by exact_mod_cast hv
    rw [Nat.cast_div hd hne]
    norm_num
  constructor
  · intro hc
    unfold channel_value scaled_value
    rw [if_pos hc, hq, ← to_uint8_intCast]
    generalize 1000 / probe.vdiv = k
    congr 1
    push_cast
    ring
  · intro hc
    have hne : ¬ probe.coupling = SR_DC_COUPLING := by rw [hc]; decide
    unfold channel_value scaled_value
    rw [if_neg hne, if_pos hc, hq, ← to_uint8_intCast]
    generalize 1000 / probe.vdiv = k
    congr 1
    push_cast
    ring

theorem mod_256_in_range (v : Int) (h0 : 0 ≤ v) (h1 : v < 256) : (v % 256).toNat = v.toNat := by
  rw [Int.emod_eq_of_lt h0 h1]

/-! ## The coupling rule -/

/-- C21, as stated, fails.  Analog mode over the ramp table (DC bias 3), index 0,
where the table value read is -5.  The AC-coupled channel 0 (offset 128) gets
the byte 128 - 5 = 123, the bias not subtracted, where the claim has
128 + (-5 - 3) = 120; the DC-coupled channel 1 (offset 100) gets the byte
100 + (-5 - 3) = 92, the bias subtracted, where the claim has 100 - 5 = 95. -/
theorem coupling_rule_swapped :
    analog_state.channels = [analog_ch0, analog_ch1] ∧
    analog_ch0.coupling = SR_AC_COUPLING ∧ analog_ch1.coupling = SR_DC_COUPLING ∧
    pre_buf ramp_env analog_state.sample_generator (table_index ramp_env analog_state 0) = -5 ∧
    ramp_env.const_dc = 3 ∧
    channel_value ramp_env analog_state analog_ch0 0 = 123 ∧
    spec_channel_value ramp_env analog_state analog_ch0 0 = 120 ∧
    channel_value ramp_env analog_state analog_ch1 0 = 92 ∧
    spec_channel_value ramp_env analog_state analog_ch1 0 = 95 ∧
    (samples_generator ramp_env (fun _ => 0) analog_state 2).buf 0 &&& 0xFF = 123 ∧
    ((samples_generator ramp_env (fun _ => 0) analog_state 2).buf 0 >>> 8) &&& 0xFF = 92 := by
  have hidx : table_index ramp_env analog_state 0 = 0 := by
    rw [ramp_index_analog]; decide
  have hval : pre_buf ramp_env analog_state.sample_generator 0 = -5 := by decide
  have a0 : channel_value ramp_env analog_state analog_ch0 0 = 123 := by
    rw [(channel_value_unit ramp_env analog_state analog_ch0 0 rfl).2 rfl, hidx, hval]
    decide
  have b0 : spec_channel_value ramp_env analog_state analog_ch0 0 = 120 := by
    rw [(spec_channel_value_unit ramp_env analog_state analog_ch0 0 rfl).1 rfl, hidx, hval]
    decide
  have a1 : channel_value ramp_env analog_state analog_ch1 0 = 92 := by
    rw [(channel_value_unit ramp_env analog_state analog_ch1 0 rfl).1 rfl, hidx, hval]
    decide
  have b1 : spec_channel_value ramp_env analog_state analog_ch1 0 = 95 := by
    rw [(spec_channel_value_unit ramp_env analog_state analog_ch1 0 rfl).2 (by decide), hidx,
      hval]
    decide
  have hw := two_channel_word ramp_env (fun _ => 0) analog_state analog_ch0 analog_ch1 2
    (by decide) rfl rfl rfl
    (fun i => channel_value_lt ramp_env analog_state analog_ch0 i (Or.inl rfl))
    (fun i => channel_value_lt ramp_env analog_state analog_ch1 i (Or.inr rfl)) 0 (by decide)
  refine ⟨rfl, rfl, rfl, ?_, rfl, a0, b0, a1, b1, ?_, ?_⟩
  · rw [hidx, hval]
  · rw [hw.2.1, a0]
  · rw [hw.2.2, a1]

/-- The stride of the Analog sample state over the ramp table is the integer 2, and
the index arithmetic is exact up to index 4. -/
theorem exact_stride_analog : ExactStride ramp_env analog_state 2 0 4 :=
  { mode := Or.inl rfl
    divisor := ⟨by decide, by decide⟩
    table_small := by decide
    stride := by rw [ramp_span_analog]; norm_num
    numerator := by decide
    cursor_small := by decide
    cursor_exact := by decide
    cursor_range := by decide
    bound_small := by decide
    sum_exact := by decide
    length := by decide }

theorem ramp_scaled_dc :
    scaled_value analog_ch1
      (pre_buf ramp_env analog_state.sample_generator (table_index ramp_env analog_state 3)
        - ramp_env.const_dc) = 98 := by
  rw [ramp_index_analog]
  decide

/-- C21, amended.  Analog or oscilloscope synthesis over the channel list made of
channel 0 and channel 1, each AC- or DC-coupled with a `vdiv` that is not zero
and divides 1000 (so that the scale `1000/vdiv` is a whole number), at a stride
and cursor for which the index arithmetic is exact (`ExactStride`): for every
index below `size` at which the expression lies in 0..255, the byte of a
DC-coupled channel is `hw_offset + (1000/vdiv) * (table[idx(i)] - const_dc)`,
the bias `const_dc` subtracted before scaling, and the byte of an AC-coupled
channel is `hw_offset + (1000/vdiv) * table[idx(i)]`, the bias not subtracted.
Channel 0's byte is the low byte of the word and channel 1's the high byte;
`idx(i)` is the truncated quotient `(i*a + c*2^j) / 2^j mod len` for the stride
`a / 2^j` and the truncated cursor term `c`. -/
theorem coupling_rule (env : Env) (rnd : Nat → Nat) (s : State)
    (ch0 ch1 : sr_channel) (size a j : Nat)
    (hmode : s.mode = .ANALOG ∨ s.mode = .DSO)
    (hch : s.channels = [ch0, ch1]) (h0 : ch0.index = 0) (h1 : ch1.index = 1)
    (hc0 : ch0.coupling = SR_AC_COUPLING ∨ ch0.coupling = SR_DC_COUPLING)
    (hc1 : ch1.coupling = SR_AC_COUPLING ∨ ch1.coupling = SR_DC_COUPLING)
    (hx : ExactStride env s a j size)
    (hv0 : ch0.vdiv ≠ 0) (hd0 : ch0.vdiv ∣ 1000)
    (hv1 : ch1.vdiv ≠ 0) (hd1 : ch1.vdiv ∣ 1000) :
    ∀ i, i < size →
      table_index env s i = (i * a + s.pre_index * a / 2 ^ j * 2 ^ j) / 2 ^ j % env.len ∧
      (ch0.coupling = SR_DC_COUPLING →
        0 ≤ scaled_value ch0
          (pre_buf env s.sample_generator (table_index env s i) - env.const_dc) →
        scaled_value ch0
          (pre_buf env s.sample_generator (table_index env s i) - env.const_dc) < 256 →
        (samples_generator env rnd s size).buf i &&& 0xFF =
          (scaled_value ch0
            (pre_buf env s.sample_generator (table_index env s i) - env.const_dc)).toNat) ∧
      (ch0.coupling = SR_AC_COUPLING →
        0 ≤ scaled_value ch0 (pre_buf env s.sample_generator (table_index env s i)) →
        scaled_value ch0 (pre_buf env s.sample_generator (table_index env s i)) < 256 →
        (samples_generator env rnd s size).buf i &&& 0xFF =
          (scaled_value ch0 (pre_buf env s.sample_generator (table_index env s i))).toNat) ∧
      (ch1.coupling = SR_DC_COUPLING →
        0 ≤ scaled_value ch1
          (pre_buf env s.sample_generator (table_index env s i) - env.const_dc) →
        scaled_value ch1
          (pre_buf env s.sample_generator (table_index env s i) - env.const_dc) < 256 →
        ((samples_generator env rnd s size).buf i >>> 8) &&& 0xFF =
          (scaled_value ch1
            (pre_buf env s.sample_generator (table_index env s i) - env.const_dc)).toNat) ∧
      (ch1.coupling = SR_AC_COUPLING →
        0 ≤ scaled_value ch1 (pre_buf env s.sample_generator (table_index env s i)) →
        scaled_value ch1 (pre_buf env s.sample_generator (table_index env s i)) < 256 →
        ((samples_generator env rnd s size).buf i >>> 8) &&& 0xFF =
          (scaled_value ch1 (pre_buf env s.sample_generator (table_index env s i))).toNat) := by
  intro i hi
  have hnl : s.mode ≠ .LOGIC := by
    rcases hmode with h | h <;> rw [h] <;> decide
  have hw := two_channel_word env rnd s ch0 ch1 size hnl hch h0 h1
    (fun k => channel_value_lt env s ch0 k hc0) (fun k => channel_value_lt env s ch1 k hc1) i hi
  have c0 := channel_value_scaled env s ch0 i hv0 hd0
  have c1 := channel_value_scaled env s ch1 i hv1 hd1
  rw [hw.2.1, hw.2.2]
  refine ⟨(table_index_exact env s a j size hx i (Nat.le_of_lt hi)).2, ?_, ?_, ?_, ?_⟩
  · intro hc a0 a1
    rw [c0.1 hc, mod_256_in_range _ a0 a1]
  · intro hc a0 a1
    rw [c0.2 hc, mod_256_in_range _ a0 a1]
  · intro hc a0 a1
    rw [c1.1 hc, mod_256_in_range _ a0 a1]
  · intro hc a0 a1
    rw [c1.2 hc, mod_256_in_range _ a0 a1]

theorem coupling_rule_witness :
    (analog_state.mode = .ANALOG ∨ analog_state.mode = .DSO) ∧
    analog_state.channels = [analog_ch0, analog_ch1] ∧
    analog_ch1.coupling = SR_DC_COUPLING ∧
    analog_ch1.vdiv ≠ 0 ∧ analog_ch1.vdiv ∣ 1000 ∧
    ExactStride ramp_env analog_state 2 0 4 ∧
    ((samples_generator ramp_env (fun _ => 0) analog_state 4).buf 3 >>> 8) &&& 0xFF =
      (scaled_value analog_ch1
        (pre_buf ramp_env analog_state.sample_generator (table_index ramp_env analog_state 3)
          - ramp_env.const_dc)).toNat :=
  ⟨Or.inl rfl, rfl, rfl, by decide, by decide, exact_stride_analog,
    (coupling_rule ramp_env (fun _ => 0) analog_state analog_ch0 analog_ch1 4 2 0
      (Or.inl rfl) rfl rfl rfl (Or.inl rfl) (Or.inr rfl) exact_stride_analog
      (by decide) (by decide) (by decide) (by decide) 3 (by decide)).2.2.2.1 rfl
      (by rw [ramp_scaled_dc]; decide) (by rw [ramp_scaled_dc]; decide)⟩

/-! ## Waveform indexing -/

theorem ramp_span_dso : span ramp_env dso_state = ((2 : Nat) : ℚ) := by
  simp [span, dso_state, ch_num, en_ch_num, channel_modes, SR_MHZ]

theorem ramp_span_half : span ramp_env analog_half_state = 1 / 2 := by
  simp [span, analog_half_state, ramp_env]
  norm_num

theorem floor_half : ⌊(1 / 2 : ℚ)⌋ = 0 := by
  rw [Int.floor_eq_iff]
  norm_num

/-- C25, as stated, fails, in the modulus and in the cursor term.  The
oscilloscope at stride 2 over the ramp table (11 entries, `len = 10`), cursor 0,
index 5: the entry read is `10 mod 10 = 0`, where the claim has
`10 mod 11 = 10`.  Analog mode at stride 1/2 with the cursor at 1, index 1: the
cursor term `1 * 1/2` is truncated to 0 before it is added, so the entry read
is `floor(1/2 + 0) = 0`, where the claim has `floor(1/2 + 1/2) = 1`. -/
theorem table_index_not_spec :
    table_entries ramp_env = 11 ∧
    span ramp_env dso_state = 2 ∧ dso_state.pre_index = 0 ∧
    table_index ramp_env dso_state 5 = 0 ∧ spec_table_index ramp_env dso_state 5 = 10 ∧
    span ramp_env analog_half_state = 1 / 2 ∧ analog_half_state.pre_index = 1 ∧
    table_index ramp_env analog_half_state 1 = 0 ∧
    spec_table_index ramp_env analog_half_state 1 = 1 := by
  have h2 : span ramp_env dso_state = 2 := by rw [ramp_span_dso]; norm_num
  refine ⟨rfl, h2, rfl, ?_, ?_, ramp_span_half, rfl, ?_, ?_⟩
  · rw [table_index_of_nat_span ramp_env dso_state 2 ramp_span_dso]
    decide
  · unfold spec_table_index
    rw [h2]
    have e : ((5 : Nat) : ℚ) * 2 + ((dso_state.pre_index : Nat) : ℚ) * 2 = ((10 : Int) : ℚ) := by
      simp [dso_state]
      norm_num
    rw [e, Int.floor_intCast]
    decide
  · unfold table_index start_rand
    rw [ramp_span_half]
    have e1 : ((analog_half_state.pre_index : Nat) : ℚ) * (1 / 2) = 1 / 2 := by
      simp [analog_half_state]
    have t1 : trunc (1 / 2 : ℚ) = 0 := by
      rw [trunc_of_nonneg _ (by norm_num), floor_half]
    rw [e1, t1]
    have e2 : ((1 : Nat) : ℚ) * (1 / 2) + (((0 : Int).toNat % 2 ^ 32 : Nat) : ℚ) = 1 / 2 := by
      simp
    rw [e2, t1]
    decide
  · unfold spec_table_index
    rw [ramp_span_half]
    have e : ((1 : Nat) : ℚ) * (1 / 2) + ((analog_half_state.pre_index : Nat) : ℚ) * (1 / 2)
        = ((1 : Int) : ℚ) := by
      simp [analog_half_state]
      norm_num
    rw [e, Int.floor_intCast]
    decide

theorem table_index_lt (env : Env) (s : State) (i : Nat) (h : 0 < env.len) :
    table_index env s i < env.len := by
  unfold table_index
  exact Nat.mod_lt _ h

theorem floor_nat_div (n d : Nat) : (⌊(n : ℚ) / (d : ℚ)⌋).toNat = n / d := by
  rw [Rat.floor_natCast_div_natCast]
  norm_cast

/-- C25, amended.  Waveform indexing in Analog and oscilloscope synthesis, at a
stride `a / 2^j` and a cursor for which the `double` arithmetic is exact and the
conversions are in range (`ExactStride`: numerators below 2^53, cursor term
below 2^32), for every channel and output index `i` up to the bound: the table
entry read is the one at index `floor(i*span + c) mod len`, where
`c = floor(pre_index*span)` is the cursor term, truncated before it is added,
and `len` is one less than the number of entries of the table; at an integral
stride this is `floor(i*span + pre_index*span) mod len`.  Every read is in
bounds, the last entry of the table is never read, and every other entry is
reachable: entry `k` is read at index `k` by the oscilloscope at its maximum
rate with the cursor at zero. -/
theorem table_index_rule (env : Env) (s : State) (a j bound i : Nat)
    (hx : ExactStride env s a j bound) (hi : i ≤ bound) :
    table_index env s i = (i * a + s.pre_index * a / 2 ^ j * 2 ^ j) / 2 ^ j % env.len ∧
    table_index env s i =
      (⌊(i : ℚ) * span env s +
        (((⌊(s.pre_index : ℚ) * span env s⌋).toNat : Nat) : ℚ)⌋).toNat % env.len ∧
    (j = 0 →
      table_index env s i =
        (⌊(i : ℚ) * span env s + (s.pre_index : ℚ) * span env s⌋).toNat % env.len) ∧
    table_index env s i < env.len ∧
    table_index env s i < table_entries env ∧
    table_index env s i ≠ table_entries env - 1 ∧
    (env.len ≤ 2 ^ 53 → ∀ k, k < env.len → table_index env dso_full_rate_state k = k) := by
  have hlt := table_index_lt env s i hx.length
  have hex := (table_index_exact env s a j bound hx i hi).2
  have hp : (0 : ℚ) < ((2 ^ j : Nat) : ℚ) := by
    exact_mod_cast Nat.two_pow_pos j
  have hc : (⌊(s.pre_index : ℚ) * span env s⌋).toNat = s.pre_index * a / 2 ^ j := by
    rw [hx.stride]
    have : (s.pre_index : ℚ) * ((a : ℚ) / ((2 ^ j : Nat) : ℚ)) =
        ((s.pre_index * a : Nat) : ℚ) / ((2 ^ j : Nat) : ℚ) := by
      push_cast; ring
    rw [this, floor_nat_div]
  refine ⟨hex, ?_, ?_, hlt, ?_, ?_, ?_⟩
  · rw [hex, hc, hx.stride]
    have : (i : ℚ) * ((a : ℚ) / ((2 ^ j : Nat) : ℚ)) + ((s.pre_index * a / 2 ^ j : Nat) : ℚ) =
        ((i * a + s.pre_index * a / 2 ^ j * 2 ^ j : Nat) : ℚ) / ((2 ^ j : Nat) : ℚ) := by
      rw [eq_div_iff (ne_of_gt hp)]
      push_cast
      field_simp
    rw [this, floor_nat_div]
  · intro hj
    rw [hex, hx.stride, hj]
    have : (i : ℚ) * ((a : ℚ) / ((2 ^ 0 : Nat) : ℚ)) +
        (s.pre_index : ℚ) * ((a : ℚ) / ((2 ^ 0 : Nat) : ℚ)) =
        ((i * a + s.pre_index * a : Nat) : ℚ) / ((1 : Nat) : ℚ) := by
      push_cast; ring
    rw [this, floor_nat_div]
    simp
  · unfold table_entries; omega
  · unfold table_entries; omega
  · intro h53 k hk
    have h1 : span env dso_full_rate_state = ((1 : Nat) : ℚ) := by
      simp [span, dso_full_rate_state, ch_num, en_ch_num, channel_modes, SR_MHZ]
    rw [table_index_of_nat_span env dso_full_rate_state 1 h1]
    have hp0 : dso_full_rate_state.pre_index = 0 := rfl
    rw [hp0]
    have e : (k * 1 + 0 * 1 % 2 ^ 32) = k := by omega
    have hU : (2 : Nat) ^ 53 < U64 := by decide
    have hk64 : k < U64 := by omega
    rw [e, Nat.mod_eq_of_lt hk64, Nat.mod_eq_of_lt hk]

/-- The stride of the Analog state with `limit_samples = 400` over the ramp table
is one half, and the index arithmetic is exact up to index 4. -/
theorem exact_stride_half : ExactStride ramp_env analog_half_state 1 1 4 :=
  { mode := Or.inl rfl
    divisor := ⟨by decide, by decide⟩
    table_small := by decide
    stride := by rw [ramp_span_half]; norm_num
    numerator := by decide
    cursor_small := by decide
    cursor_exact := by decide
    cursor_range := by decide
    bound_small := by decide
    sum_exact := by decide
    length := by decide }

theorem table_index_rule_witness :
    ExactStride ramp_env analog_half_state 1 1 4 ∧
    table_index ramp_env analog_half_state 3 =
      (3 * 1 + analog_half_state.pre_index * 1 / 2 ^ 1 * 2 ^ 1) / 2 ^ 1 % ramp_env.len ∧
    table_index ramp_env analog_half_state 3 < ramp_env.len :=
  ⟨exact_stride_half,
    (table_index_rule ramp_env analog_half_state 1 1 4 3 exact_stride_half (by decide)).1,
    (table_index_rule ramp_env analog_half_state 1 1 4 3 exact_stride_half
      (by decide)).2.2.2.1⟩

/-! ## Zero crossings -/

theorem table_index_prev_eq (env : Env) (s : State) (i : Nat) (h1 : 1 ≤ i) (h64 : i < U64) :
    table_index_prev env s i = table_index env s (i - 1) := by
  unfold table_index_prev table_index
  have : (i + U64 - 1) % U64 = i - 1 := by
    have : i + U64 - 1 = (i - 1) + U64 := by omega
    rw [this, Nat.add_mod_right, Nat.mod_eq_of_lt (by omega)]
  rw [this]

theorem crossing_iff (env : Env) (s : State) (i : Nat) :
    crossing env s i = true ↔
      pre_buf env s.sample_generator (table_index env s i) < 0 ∧
      0 < pre_buf env s.sample_generator (table_index_prev env s i) := by
  unfold crossing
  simp

theorem measure_step_buf (env : Env) (s : State) (probe : sr_channel) (i : Nat) (g : GenState) :
    (measure_step env s probe i g).buf = channel_step env s probe i g.buf := by
  unfold measure_step
  simp only []
  split_ifs <;> rfl

/-- What one iteration does to the cycle fields of channel 0. -/
theorem measure_step_cycle0 (env : Env) (s : State) (probe : sr_channel) (i : Nat)
    (g : GenState) (h : probe.index = 0) :
    (measure_step env s probe i g).m.ch0_cyc_cnt =
      g.m.ch0_cyc_cnt + (if crossing env s i = true then 1 else 0) ∧
    (measure_step env s probe i g).m.ch0_cyc_tlen =
      (if crossing env s i = true then cyc_tlen s i g.pre0_i else g.m.ch0_cyc_tlen) ∧
    (measure_step env s probe i g).pre0_i =
      (if crossing env s i = true then i else g.pre0_i) ∧
    (measure_step env s probe i g).m.ch1_cyc_cnt = g.m.ch1_cyc_cnt ∧
    (measure_step env s probe i g).m.ch1_cyc_tlen = g.m.ch1_cyc_tlen ∧
    (measure_step env s probe i g).pre1_i = g.pre1_i := by
  unfold measure_step
  simp only []
  rw [if_pos h]
  by_cases hc : crossing env s i = true
  · rw [if_pos hc, if_pos hc, if_pos hc, if_pos hc]
    exact ⟨rfl, rfl, rfl, rfl, rfl, rfl⟩
  · rw [if_neg hc, if_neg hc, if_neg hc, if_neg hc]
    exact ⟨rfl, rfl, rfl, rfl, rfl, rfl⟩

/-- What one iteration does to the cycle fields of channel 1. -/
theorem measure_step_cycle1 (env : Env) (s : State) (probe : sr_channel) (i : Nat)
    (g : GenState) (h : probe.index ≠ 0) :
    (measure_step env s probe i g).m.ch1_cyc_cnt =
      g.m.ch1_cyc_cnt + (if crossing env s i = true then 1 else 0) ∧
    (measure_step env s probe i g).m.ch1_cyc_tlen =
      (if crossing env s i = true then cyc_tlen s i g.pre1_i else g.m.ch1_cyc_tlen) ∧
    (measure_step env s probe i g).pre1_i =
      (if crossing env s i = true then i else g.pre1_i) ∧
    (measure_step env s probe i g).m.ch0_cyc_cnt = g.m.ch0_cyc_cnt ∧
    (measure_step env s probe i g).m.ch0_cyc_tlen = g.m.ch0_cyc_tlen ∧
    (measure_step env s probe i g).pre0_i = g.pre0_i := by
  unfold measure_step
  simp only []
  rw [if_neg h]
  by_cases hc : crossing env s i = true
  · rw [if_pos hc, if_pos hc, if_pos hc, if_pos hc]
    exact ⟨rfl, rfl, rfl, rfl, rfl, rfl⟩
  · rw [if_neg hc, if_neg hc, if_neg hc, if_neg hc]
    exact ⟨rfl, rfl, rfl, rfl, rfl, rfl⟩

theorem ramp_index_dso (i : Nat) :
    table_index ramp_env dso_state i = (i * 2 + 0 * 2 % 2 ^ 32) % U64 % 10 :=
  table_index_of_nat_span ramp_env dso_state 2 ramp_span_dso i

/-- C22, as stated, fails.  The oscilloscope at stride 2 over the ramp table, the
probe of index 0.  At index 3 the table value read for index 2 is -1 and the one
read for index 3 is 1, a rising zero crossing: the cycle count is not
incremented.  At index 5 the value read for index 4 is 3 and the one read for
index 5 is -5, which is no rising crossing: the cycle count is incremented. -/
theorem rising_crossing_not_counted :
    pre_buf ramp_env dso_state.sample_generator (table_index ramp_env dso_state 2) = -1 ∧
    pre_buf ramp_env dso_state.sample_generator (table_index ramp_env dso_state 3) = 1 ∧
    crossing ramp_env dso_state 3 = false ∧
    (measure_step ramp_env dso_state { index := 0 } 3 {}).m.ch0_cyc_cnt =
      ({} : GenState).m.ch0_cyc_cnt ∧
    pre_buf ramp_env dso_state.sample_generator (table_index ramp_env dso_state 4) = 3 ∧
    pre_buf ramp_env dso_state.sample_generator (table_index ramp_env dso_state 5) = -5 ∧
    crossing ramp_env dso_state 5 = true ∧
    (measure_step ramp_env dso_state { index := 0 } 5 {}).m.ch0_cyc_cnt =
      ({} : GenState).m.ch0_cyc_cnt + 1 := by
  have i2 : table_index ramp_env dso_state 2 = 4 := by rw [ramp_index_dso]; decide
  have i3 : table_index ramp_env dso_state 3 = 6 := by rw [ramp_index_dso]; decide
  have i4 : table_index ramp_env dso_state 4 = 8 := by rw [ramp_index_dso]; decide
  have i5 : table_index ramp_env dso_state 5 = 0 := by rw [ramp_index_dso]; decide
  have p3 : table_index_prev ramp_env dso_state 3 = 4 := by
    rw [table_index_prev_eq _ _ 3 (by decide) (by decide)]; exact i2
  have p5 : table_index_prev ramp_env dso_state 5 = 8 := by
    rw [table_index_prev_eq _ _ 5 (by decide) (by decide)]; exact i4
  have c3 : crossing ramp_env dso_state 3 = false := by
    unfold crossing
    rw [i3, p3]
    decide
  have c5 : crossing ramp_env dso_state 5 = true := by
    unfold crossing
    rw [i5, p5]
    decide
  refine ⟨by rw [i2]; decide, by rw [i3]; decide, c3, ?_, by rw [i4]; decide,
    by rw [i5]; decide, c5, ?_⟩
  · rw [(measure_step_cycle0 ramp_env dso_state { index := 0 } 3 {} rfl).1, c3]
    rfl
  · rw [(measure_step_cycle0 ramp_env dso_state { index := 0 } 5 {} rfl).1, c5]
    rfl

/-- Where the previous crossing index is not above `i` and the numerator is below
2^52, the cycle length is a quotient of natural numbers, below 2^31. -/
theorem cyc_tlen_exact (s : State) (i pre_i : Nat) (hpre : pre_i ≤ i) (hi : i < U64)
    (hex : 2 * (i - pre_i) * 100000000 < 2 ^ 52) :
    cyc_tlen s i pre_i = 2 * (i - pre_i) * 100000000 / (channel_modes s.ch_mode).max_samplerate := by
  have hU : (2 : Nat) ^ 53 < U64 := by decide
  have e1 : pre_i % U64 = pre_i := Nat.mod_eq_of_lt (by omega)
  have e2 : (i + U64 - pre_i) % U64 = i - pre_i := by
    have : i + U64 - pre_i = (i - pre_i) + U64 := by omega
    rw [this, Nat.add_mod_right, Nat.mod_eq_of_lt (by omega)]
  have e3 : 2 * (i - pre_i) % U64 = 2 * (i - pre_i) := Nat.mod_eq_of_lt (by omega)
  unfold cyc_tlen
  rw [e1, e2, e3]
  have : ((2 * (i - pre_i) : Nat) : ℚ) * 100000000 /
      ((channel_modes s.ch_mode).max_samplerate : ℚ) =
      ((2 * (i - pre_i) * 100000000 : Nat) : ℚ) /
        ((channel_modes s.ch_mode).max_samplerate : ℚ) := by
    push_cast; ring
  rw [this, trunc_nat_div]

/-- The stride of the oscilloscope sample state over the ramp table is the integer
2, and the index arithmetic is exact up to index 8. -/
theorem exact_stride_dso : ExactStride ramp_env dso_state 2 0 8 :=
  { mode := Or.inr rfl
    divisor := ⟨by decide, by decide⟩
    table_small := by decide
    stride := by rw [ramp_span_dso]; norm_num
    numerator := by decide
    cursor_small := by decide
    cursor_exact := by decide
    cursor_range := by decide
    bound_small := by decide
    sum_exact := by decide
    length := by decide }

/-- C22, amended.  Zero-crossing detection in Analog and oscilloscope synthesis,
at a stride and cursor for which the index arithmetic is exact (`ExactStride`):
for every channel and every output index `i >= 1` up to the bound, the
channel's cycle count is incremented and its previous-crossing index moved to
`i` exactly when the table value read for index `i` is negative and the table
value read for index `i-1` is positive, that is on a falling zero crossing;
otherwise count, cycle length and previous-crossing index are left as they
were.  On a crossing the cycle length is re-measured from the previous crossing
index `p`: where `p <= i` and `2*(i-p)*10^8` is below 2^52 it becomes the whole
part of `2*(i-p)*10^8 / max_samplerate`.  The counts are taken below 2^31, away
from the top of their fields.  The probe of index 0 drives the
fields of channel 0, any other probe those of channel 1. -/
theorem zero_crossing_rule (env : Env) (s : State) (probe : sr_channel) (i : Nat)
    (g : GenState) (a j bound : Nat) (hx : ExactStride env s a j bound)
    (h1 : 1 ≤ i) (hi : i ≤ bound)
    (hcnt0 : g.m.ch0_cyc_cnt < 2 ^ 31) (hcnt1 : g.m.ch1_cyc_cnt < 2 ^ 31) :
    (crossing env s i = true ↔
      pre_buf env s.sample_generator (table_index env s i) < 0 ∧
      0 < pre_buf env s.sample_generator (table_index env s (i - 1))) ∧
    table_index env s i = (i * a + s.pre_index * a / 2 ^ j * 2 ^ j) / 2 ^ j % env.len ∧
    table_index env s (i - 1) =
      ((i - 1) * a + s.pre_index * a / 2 ^ j * 2 ^ j) / 2 ^ j % env.len ∧
    (probe.index = 0 →
      (crossing env s i = true →
        (measure_step env s probe i g).m.ch0_cyc_cnt = g.m.ch0_cyc_cnt + 1 ∧
        (measure_step env s probe i g).m.ch0_cyc_cnt ≤ 2 ^ 31 ∧
        (measure_step env s probe i g).pre0_i = i ∧
        (g.pre0_i ≤ i → 2 * (i - g.pre0_i) * 100000000 < 2 ^ 52 →
          (measure_step env s probe i g).m.ch0_cyc_tlen =
            2 * (i - g.pre0_i) * 100000000 / (channel_modes s.ch_mode).max_samplerate)) ∧
      (crossing env s i = false →
        (measure_step env s probe i g).m.ch0_cyc_cnt = g.m.ch0_cyc_cnt ∧
        (measure_step env s probe i g).m.ch0_cyc_tlen = g.m.ch0_cyc_tlen ∧
        (measure_step env s probe i g).pre0_i = g.pre0_i)) ∧
    (probe.index ≠ 0 →
      (crossing env s i = true →
        (measure_step env s probe i g).m.ch1_cyc_cnt = g.m.ch1_cyc_cnt + 1 ∧
        (measure_step env s probe i g).m.ch1_cyc_cnt ≤ 2 ^ 31 ∧
        (measure_step env s probe i g).pre1_i = i ∧
        (g.pre1_i ≤ i → 2 * (i - g.pre1_i) * 100000000 < 2 ^ 52 →
          (measure_step env s probe i g).m.ch1_cyc_tlen =
            2 * (i - g.pre1_i) * 100000000 / (channel_modes s.ch_mode).max_samplerate)) ∧
      (crossing env s i = false →
        (measure_step env s probe i g).m.ch1_cyc_cnt = g.m.ch1_cyc_cnt ∧
        (measure_step env s probe i g).m.ch1_cyc_tlen = g.m.ch1_cyc_tlen ∧
        (measure_step env s probe i g).pre1_i = g.pre1_i)) := by
  have hU : (2 : Nat) ^ 53 < U64 := by decide
  have h64 : i < U64 := by
    have := hx.bound_small
    omega
  refine ⟨?_, (table_index_exact env s a j bound hx i hi).2,
    (table_index_exact env s a j bound hx (i - 1) (by omega)).2, ?_, ?_⟩
  · rw [crossing_iff, table_index_prev_eq env s i h1 h64]
  · intro h0
    obtain ⟨p, q, r, _, _, _⟩ := measure_step_cycle0 env s probe i g h0
    constructor
    · intro hc
      rw [p, q, r, if_pos hc, if_pos hc, if_pos hc]
      exact ⟨rfl, hcnt0, rfl, fun hpre hex => cyc_tlen_exact s i g.pre0_i hpre h64 hex⟩
    · intro hc
      have hn : ¬ crossing env s i = true := by rw [hc]; decide
      rw [p, q, r, if_neg hn, if_neg hn, if_neg hn]
      exact ⟨rfl, rfl, rfl⟩
  · intro h0
    obtain ⟨p, q, r, _, _, _⟩ := measure_step_cycle1 env s probe i g h0
    constructor
    · intro hc
      rw [p, q, r, if_pos hc, if_pos hc, if_pos hc]
      exact ⟨rfl, hcnt1, rfl, fun hpre hex => cyc_tlen_exact s i g.pre1_i hpre h64 hex⟩
    · intro hc
      have hn : ¬ crossing env s i = true := by rw [hc]; decide
      rw [p, q, r, if_neg hn, if_neg hn, if_neg hn]
      exact ⟨rfl, rfl, rfl⟩

theorem zero_crossing_rule_witness :
    ExactStride ramp_env dso_state 2 0 8 ∧ (1 : Nat) ≤ 5 ∧ (5 : Nat) ≤ 8 ∧
    (crossing ramp_env dso_state 5 = true ↔
      pre_buf ramp_env dso_state.sample_generator (table_index ramp_env dso_state 5) < 0 ∧
      0 < pre_buf ramp_env dso_state.sample_generator (table_index ramp_env dso_state (5 - 1))) :=
  ⟨exact_stride_dso, by decide, by decide,
    (zero_crossing_rule ramp_env dso_state { index := 0 } 5 {} 2 0 8 exact_stride_dso
      (by decide) (by decide) (by decide) (by decide)).1⟩

/-! ## Running maximum and minimum of the channel bytes -/

theorem high_byte (w : Nat) : (w &&& 0xff00) >>> 8 = (w >>> 8) &&& 0xff := by
  apply Nat.eq_of_testBit_eq
  intro j
  have h : (0xff00 : Nat).testBit (8 + j) = (0xff : Nat).testBit j := by
    rw [← Nat.testBit_shiftRight]
    rfl
  rw [Nat.testBit_shiftRight, Nat.testBit_and, Nat.testBit_and, Nat.testBit_shiftRight, h]

theorem low_byte_of_lt (v : Nat) (hv : v < 256) : ((0 + v * 2 ^ (0 * 8)) % U16) &&& 0x00ff = v := by
  have e255 : (0x00ff : Nat) = 2 ^ 8 - 1 := by norm_num
  rw [e255, Nat.and_pow_two_sub_one_eq_mod]
  simp only [U16]
  omega

theorem high_byte_of_lt (a v : Nat) (ha : a < 256) (hv : v < 256) :
    (((a + v * 2 ^ (1 * 8)) % U16) &&& 0xff00) >>> 8 = v := by
  have e255 : (0xff : Nat) = 2 ^ 8 - 1 := by norm_num
  rw [high_byte, e255, Nat.and_pow_two_sub_one_eq_mod, Nat.shiftRight_eq_div_pow]
  simp only [U16]
  omega

theorem channel_step_at (env : Env) (s : State) (probe : sr_channel) (i : Nat)
    (buf : Nat → Nat) :
    channel_step env s probe i buf i =
      (buf i + channel_value env s probe i * 2 ^ (probe.index * 8)) % U16 := by
  simp [channel_step, poke]

theorem forLoop_measure_buf (env : Env) (s : State) (probe : sr_channel) (n : Nat)
    (g : GenState) :
    (forLoop (measure_step env s probe) n g).buf = forLoop (channel_step env s probe) n g.buf := by
  induction n with
  | zero => rfl
  | succ n ih =>
    show (measure_step env s probe n (forLoop (measure_step env s probe) n g)).buf = _
    rw [measure_step_buf, ih]
    rfl

theorem measure_step_range0 (env : Env) (s : State) (probe : sr_channel) (i : Nat)
    (g : GenState) (h : probe.index = 0) :
    (measure_step env s probe i g).m.ch0_max =
      max g.m.ch0_max (channel_step env s probe i g.buf i &&& 0x00ff) ∧
    (measure_step env s probe i g).m.ch0_min =
      min g.m.ch0_min (channel_step env s probe i g.buf i &&& 0x00ff) ∧
    (measure_step env s probe i g).m.ch1_max = g.m.ch1_max ∧
    (measure_step env s probe i g).m.ch1_min = g.m.ch1_min := by
  unfold measure_step
  simp only []
  rw [if_pos h]
  by_cases hc : crossing env s i = true
  · rw [if_pos hc]
    exact ⟨rfl, rfl, rfl, rfl⟩
  · rw [if_neg hc]
    exact ⟨rfl, rfl, rfl, rfl⟩

theorem measure_step_range1 (env : Env) (s : State) (probe : sr_channel) (i : Nat)
    (g : GenState) (h : probe.index ≠ 0) :
    (measure_step env s probe i g).m.ch1_max =
      max g.m.ch1_max ((channel_step env s probe i g.buf i &&& 0xff00) >>> 8) ∧
    (measure_step env s probe i g).m.ch1_min =
      min g.m.ch1_min ((channel_step env s probe i g.buf i &&& 0xff00) >>> 8) ∧
    (measure_step env s probe i g).m.ch0_max = g.m.ch0_max ∧
    (measure_step env s probe i g).m.ch0_min = g.m.ch0_min := by
  unfold measure_step
  simp only []
  rw [if_neg h]
  by_cases hc : crossing env s i = true
  · rw [if_pos hc]
    exact ⟨rfl, rfl, rfl, rfl⟩
  · rw [if_neg hc]
    exact ⟨rfl, rfl, rfl, rfl⟩

theorem byte_max_succ (v : Nat → Nat) (n a : Nat) :
    byte_max v (n + 1) a = max (byte_max v n a) (v n) := rfl

theorem byte_min_succ (v : Nat → Nat) (n a : Nat) :
    byte_min v (n + 1) a = min (byte_min v n a) (v n) := rfl

theorem byte_max_congr (v w : Nat → Nat) (n a : Nat) (h : ∀ i, i < n → v i = w i) :
    byte_max v n a = byte_max w n a := by
  induction n with
  | zero => rfl
  | succ n ih =>
    rw [byte_max_succ, byte_max_succ, ih (fun i hi => h i (by omega)), h n (by omega)]

theorem byte_min_congr (v w : Nat → Nat) (n a : Nat) (h : ∀ i, i < n → v i = w i) :
    byte_min v n a = byte_min w n a := by
  induction n with
  | zero => rfl
  | succ n ih =>
    rw [byte_min_succ, byte_min_succ, ih (fun i hi => h i (by omega)), h n (by omega)]

/-- The pass of the probe of index 0 measures, word by word, the low byte of the
word it has just updated, and leaves the range of channel 1 alone. -/
theorem measure_loop_range0 (env : Env) (s : State) (probe : sr_channel) (g : GenState)
    (h : probe.index = 0) (n : Nat) :
    (forLoop (measure_step env s probe) n g).m.ch0_max =
      byte_max (fun i => ((g.buf i + channel_value env s probe i * 2 ^ (probe.index * 8)) % U16)
        &&& 0x00ff) n g.m.ch0_max ∧
    (forLoop (measure_step env s probe) n g).m.ch0_min =
      byte_min (fun i => ((g.buf i + channel_value env s probe i * 2 ^ (probe.index * 8)) % U16)
        &&& 0x00ff) n g.m.ch0_min ∧
    (forLoop (measure_step env s probe) n g).m.ch1_max = g.m.ch1_max ∧
    (forLoop (measure_step env s probe) n g).m.ch1_min = g.m.ch1_min := by
  induction n with
  | zero => exact ⟨rfl, rfl, rfl, rfl⟩
  | succ n ih =>
    obtain ⟨a, b, c, d⟩ := ih
    obtain ⟨a1, b1, c1, d1⟩ :=
      measure_step_range0 env s probe n (forLoop (measure_step env s probe) n g) h
    have hw : channel_step env s probe n (forLoop (measure_step env s probe) n g).buf n =
        (g.buf n + channel_value env s probe n * 2 ^ (probe.index * 8)) % U16 := by
      rw [channel_step_at, forLoop_measure_buf, forLoop_channel_step, if_neg (Nat.lt_irrefl n)]
    refine ⟨?_, ?_, ?_, ?_⟩
    · show (measure_step env s probe n (forLoop (measure_step env s probe) n g)).m.ch0_max = _
      rw [a1, hw, a, byte_max_succ]
    · show (measure_step env s probe n (forLoop (measure_step env s probe) n g)).m.ch0_min = _
      rw [b1, hw, b, byte_min_succ]
    · show (measure_step env s probe n (forLoop (measure_step env s probe) n g)).m.ch1_max = _
      rw [c1, c]
    · show (measure_step env s probe n (forLoop (measure_step env s probe) n g)).m.ch1_min = _
      rw [d1, d]

/-- The pass of any other probe measures the high byte of the word it has just
updated, and leaves the range of channel 0 alone. -/
theorem measure_loop_range1 (env : Env) (s : State) (probe : sr_channel) (g : GenState)
    (h : probe.index ≠ 0) (n : Nat) :
    (forLoop (measure_step env s probe) n g).m.ch1_max =
      byte_max (fun i => (((g.buf i + channel_value env s probe i * 2 ^ (probe.index * 8)) % U16)
        &&& 0xff00) >>> 8) n g.m.ch1_max ∧
    (forLoop (measure_step env s probe) n g).m.ch1_min =
      byte_min (fun i => (((g.buf i + channel_value env s probe i * 2 ^ (probe.index * 8)) % U16)
        &&& 0xff00) >>> 8) n g.m.ch1_min ∧
    (forLoop (measure_step env s probe) n g).m.ch0_max = g.m.ch0_max ∧
    (forLoop (measure_step env s probe) n g).m.ch0_min = g.m.ch0_min := by
  induction n with
  | zero => exact ⟨rfl, rfl, rfl, rfl⟩
  | succ n ih =>
    obtain ⟨a, b, c, d⟩ := ih
    obtain ⟨a1, b1, c1, d1⟩ :=
      measure_step_range1 env s probe n (forLoop (measure_step env s probe) n g) h
    have hw : channel_step env s probe n (forLoop (measure_step env s probe) n g).buf n =
        (g.buf n + channel_value env s probe n * 2 ^ (probe.index * 8)) % U16 := by
      rw [channel_step_at, forLoop_measure_buf, forLoop_channel_step, if_neg (Nat.lt_irrefl n)]
    refine ⟨?_, ?_, ?_, ?_⟩
    · show (measure_step env s probe n (forLoop (measure_step env s probe) n g)).m.ch1_max = _
      rw [a1, hw, a, byte_max_succ]
    · show (measure_step env s probe n (forLoop (measure_step env s probe) n g)).m.ch1_min = _
      rw [b1, hw, b, byte_min_succ]
    · show (measure_step env s probe n (forLoop (measure_step env s probe) n g)).m.ch0_max = _
      rw [c1, c]
    · show (measure_step env s probe n (forLoop (measure_step env s probe) n g)).m.ch0_min = _
      rw [d1, d]

/-! ## Statistics of a disabled channel -/

/-- After the two channel passes each channel's range is the one measured over
its own bytes, from the range found at entry. -/
theorem two_channel_range (env : Env) (s : State) (ch0 ch1 : sr_channel) (size : Nat)
    (m0 : Measure) (h0 : ch0.index = 0) (h1 : ch1.index = 1)
    (hv0 : ∀ i, channel_value env s ch0 i < 256) (hv1 : ∀ i, channel_value env s ch1 i < 256) :
    ([ch0, ch1].foldl (measure_pass env s size)
        { buf := memset0 s.buf size, m := m0, pre0_i := s.pre_index,
          pre1_i := s.pre_index }).m.ch0_max =
      byte_max (channel_value env s ch0) size m0.ch0_max ∧
    ([ch0, ch1].foldl (measure_pass env s size)
        { buf := memset0 s.buf size, m := m0, pre0_i := s.pre_index,
          pre1_i := s.pre_index }).m.ch0_min =
      byte_min (channel_value env s ch0) size m0.ch0_min ∧
    ([ch0, ch1].foldl (measure_pass env s size)
        { buf := memset0 s.buf size, m := m0, pre0_i := s.pre_index,
          pre1_i := s.pre_index }).m.ch1_max =
      byte_max (channel_value env s ch1) size m0.ch1_max ∧
    ([ch0, ch1].foldl (measure_pass env s size)
        { buf := memset0 s.buf size, m := m0, pre0_i := s.pre_index,
          pre1_i := s.pre_index }).m.ch1_min =
      byte_min (channel_value env s ch1) size m0.ch1_min := by
  simp only [List.foldl_cons, List.foldl_nil]
  generalize hg1 : measure_pass env s size
    { buf := memset0 s.buf size, m := m0, pre0_i := s.pre_index, pre1_i := s.pre_index } ch0 = g1
  have hne : ch1.index ≠ 0 := by rw [h1]; decide
  obtain ⟨a, b, c, d⟩ := measure_loop_range0 env s ch0
    { buf := memset0 s.buf size, m := m0, pre0_i := s.pre_index, pre1_i := s.pre_index } h0 size
  have hbuf1 : ∀ i, i < size → g1.buf i = channel_value env s ch0 i := by
    intro i hi
    rw [← hg1]
    unfold measure_pass
    rw [forLoop_measure_buf, forLoop_channel_step, if_pos hi]
    simp only [memset0, if_pos hi, h0, U16]
    have := hv0 i
    omega
  have e0 : ∀ i, i < size →
      ((memset0 s.buf size i + channel_value env s ch0 i * 2 ^ (ch0.index * 8)) % U16)
        &&& 0x00ff = channel_value env s ch0 i := by
    intro i hi
    simp only [memset0, if_pos hi, h0]
    exact low_byte_of_lt _ (hv0 i)
  have e1 : ∀ i, i < size →
      (((g1.buf i + channel_value env s ch1 i * 2 ^ (ch1.index * 8)) % U16) &&& 0xff00) >>> 8
        = channel_value env s ch1 i := by
    intro i hi
    rw [hbuf1 i hi, h1]
    exact high_byte_of_lt _ _ (hv0 i) (hv1 i)
  have a' : g1.m.ch0_max = byte_max (channel_value env s ch0) size m0.ch0_max := by
    rw [← hg1]
    unfold measure_pass
    rw [a]
    exact byte_max_congr _ _ _ _ e0
  have b' : g1.m.ch0_min = byte_min (channel_value env s ch0) size m0.ch0_min := by
    rw [← hg1]
    unfold measure_pass
    rw [b]
    exact byte_min_congr _ _ _ _ e0
  have c' : g1.m.ch1_max = m0.ch1_max := by
    rw [← hg1]; unfold measure_pass; rw [c]
  have d' : g1.m.ch1_min = m0.ch1_min := by
    rw [← hg1]; unfold measure_pass; rw [d]
  obtain ⟨p, q, r, t⟩ := measure_loop_range1 env s ch1
    { buf := g1.buf, m := g1.m, pre0_i := s.pre_index, pre1_i := s.pre_index } hne size
  unfold measure_pass
  refine ⟨?_, ?_, ?_, ?_⟩
  · rw [r]; exact a'
  · rw [t]; exact b'
  · rw [p]
    show byte_max _ size g1.m.ch1_max = _
    rw [c']
    exact byte_max_congr _ _ _ _ e1
  · rw [q]
    show byte_min _ size g1.m.ch1_min = _
    rw [d']
    exact byte_min_congr _ _ _ _ e1

theorem merge_disabled_range (s : State) (m : Measure)
    (h : s.channels.any (fun probe => !probe.enabled) = true) :
    (merge_disabled s m).ch0_max = max m.ch0_max m.ch1_max ∧
    (merge_disabled s m).ch1_max = max m.ch0_max m.ch1_max ∧
    (merge_disabled s m).ch0_min = min m.ch0_min m.ch1_min ∧
    (merge_disabled s m).ch1_min = min m.ch0_min m.ch1_min := by
  unfold merge_disabled
  rw [if_pos h]
  refine ⟨?_, rfl, ?_, rfl⟩
  · show max m.ch0_max (max m.ch0_max m.ch1_max) = _
    omega
  · show min m.ch0_min (min m.ch0_min m.ch1_min) = _
    omega

/-- The reported ranges of two channels of which at least one is disabled. -/
theorem disabled_range (env : Env) (s : State) (ch0 ch1 : sr_channel) (size : Nat)
    (m : Measure) (hmode : s.mode ≠ .LOGIC)
    (hch : s.channels = [ch0, ch1]) (h0 : ch0.index = 0) (h1 : ch1.index = 1)
    (hv0 : ∀ i, channel_value env s ch0 i < 256) (hv1 : ∀ i, channel_value env s ch1 i < 256)
    (hdis : ch0.enabled = false ∨ ch1.enabled = false) :
    (samples_generator_measure env s size m).ch0_max =
      max (byte_max (channel_value env s ch0) size (measure_entry s m).ch0_max)
        (byte_max (channel_value env s ch1) size (measure_entry s m).ch1_max) ∧
    (samples_generator_measure env s size m).ch1_max =
      max (byte_max (channel_value env s ch0) size (measure_entry s m).ch0_max)
        (byte_max (channel_value env s ch1) size (measure_entry s m).ch1_max) ∧
    (samples_generator_measure env s size m).ch0_min =
      min (byte_min (channel_value env s ch0) size (measure_entry s m).ch0_min)
        (byte_min (channel_value env s ch1) size (measure_entry s m).ch1_min) ∧
    (samples_generator_measure env s size m).ch1_min =
      min (byte_min (channel_value env s ch0) size (measure_entry s m).ch0_min)
        (byte_min (channel_value env s ch1) size (measure_entry s m).ch1_min) := by
  have hany : s.channels.any (fun probe => !probe.enabled) = true := by
    rw [hch]
    rcases hdis with h | h <;> simp [h]
  obtain ⟨a, b, c, d⟩ := two_channel_range env s ch0 ch1 size (measure_entry s m) h0 h1 hv0 hv1
  unfold samples_generator_measure
  rw [if_neg hmode]
  simp only []
  rw [hch]
  obtain ⟨p, q, r, t⟩ := merge_disabled_range s
    ([ch0, ch1].foldl (measure_pass env s size)
      { buf := memset0 s.buf size, m := measure_entry s m, pre0_i := s.pre_index,
        pre1_i := s.pre_index }).m hany
  rw [a, c] at p q
  rw [b, d] at r t
  exact ⟨p, q, r, t⟩

theorem byte_max_two (v : Nat → Nat) (a : Nat) : byte_max v 2 a = max (max a (v 0)) (v 1) := rfl

theorem byte_min_two (v : Nat → Nat) (a : Nat) : byte_min v 2 a = min (min a (v 0)) (v 1) := rfl

/-- C26, as stated, fails.  A fresh oscilloscope acquisition over the ramp table,
two samples, channel 0 enabled at offset 128 and channel 1 disabled at offset
200.  The bytes of the enabled channel 0 are 123 and 127, those of the disabled
channel 1 are 195 and 199.  Both channels report the maximum 199 and the
minimum 123: the disabled channel's maximum is its own, not the sibling's 127,
and the enabled channel's maximum is not its own measured 127. -/
theorem disabled_channel_range_merged :
    dso_skew_state.channels = [analog_ch0, skew_ch1] ∧
    analog_ch0.enabled = true ∧ skew_ch1.enabled = false ∧
    byte_max (channel_value ramp_env dso_skew_state analog_ch0) 2
      (measure_entry dso_skew_state {}).ch0_max = 127 ∧
    byte_min (channel_value ramp_env dso_skew_state analog_ch0) 2
      (measure_entry dso_skew_state {}).ch0_min = 123 ∧
    (samples_generator_measure ramp_env dso_skew_state 2 {}).ch1_max = 199 ∧
    (samples_generator_measure ramp_env dso_skew_state 2 {}).ch1_min = 123 ∧
    (samples_generator_measure ramp_env dso_skew_state 2 {}).ch0_max = 199 ∧
    (samples_generator_measure ramp_env dso_skew_state 2 {}).ch0_min = 123 := by
  have hspan : span ramp_env dso_skew_state = ((4 : Nat) : ℚ) := by
    simp [span, dso_skew_state, ch_num, en_ch_num, channel_modes, SR_MHZ, analog_ch0, skew_ch1,
      U64]
  have i0 : table_index ramp_env dso_skew_state 0 = 0 := by
    rw [table_index_of_nat_span ramp_env dso_skew_state 4 hspan]; decide
  have i1 : table_index ramp_env dso_skew_state 1 = 4 := by
    rw [table_index_of_nat_span ramp_env dso_skew_state 4 hspan]; decide
  have a0 : channel_value ramp_env dso_skew_state analog_ch0 0 = 123 := by
    rw [(channel_value_unit ramp_env dso_skew_state analog_ch0 0 rfl).2 rfl, i0]; decide
  have a1 : channel_value ramp_env dso_skew_state analog_ch0 1 = 127 := by
    rw [(channel_value_unit ramp_env dso_skew_state analog_ch0 1 rfl).2 rfl, i1]; decide
  have b0 : channel_value ramp_env dso_skew_state skew_ch1 0 = 195 := by
    rw [(channel_value_unit ramp_env dso_skew_state skew_ch1 0 rfl).2 rfl, i0]; decide
  have b1 : channel_value ramp_env dso_skew_state skew_ch1 1 = 199 := by
    rw [(channel_value_unit ramp_env dso_skew_state skew_ch1 1 rfl).2 rfl, i1]; decide
  have e0 : (measure_entry dso_skew_state {}).ch0_max = 0 := rfl
  have e1 : (measure_entry dso_skew_state {}).ch0_min = 255 := rfl
  have e2 : (measure_entry dso_skew_state {}).ch1_max = 0 := rfl
  have e3 : (measure_entry dso_skew_state {}).ch1_min = 255 := rfl
  have M0 : byte_max (channel_value ramp_env dso_skew_state analog_ch0) 2
      (measure_entry dso_skew_state {}).ch0_max = 127 := by
    rw [byte_max_two, a0, a1, e0]; decide
  have N0 : byte_min (channel_value ramp_env dso_skew_state analog_ch0) 2
      (measure_entry dso_skew_state {}).ch0_min = 123 := by
    rw [byte_min_two, a0, a1, e1]; decide
  have M1 : byte_max (channel_value ramp_env dso_skew_state skew_ch1) 2
      (measure_entry dso_skew_state {}).ch1_max = 199 := by
    rw [byte_max_two, b0, b1, e2]; decide
  have N1 : byte_min (channel_value ramp_env dso_skew_state skew_ch1) 2
      (measure_entry dso_skew_state {}).ch1_min = 195 := by
    rw [byte_min_two, b0, b1, e3]; decide
  obtain ⟨p, q, r, t⟩ := disabled_range ramp_env dso_skew_state analog_ch0 skew_ch1 2 {}
    (by decide) rfl rfl rfl
    (fun i => channel_value_lt ramp_env dso_skew_state analog_ch0 i (Or.inl rfl))
    (fun i => channel_value_lt ramp_env dso_skew_state skew_ch1 i (Or.inl rfl)) (Or.inr rfl)
  rw [M0, M1] at p q
  rw [N0, N1] at r t
  exact ⟨rfl, rfl, rfl, M0, N0, q, t, p, r⟩

/-- C26, amended.  Analog or oscilloscope synthesis over the channel list made of
channel 0 and channel 1, each AC- or DC-coupled, at least one of them disabled.
Every channel, the disabled one included, is synthesized and measured over its
own bytes, starting from the range found at entry (0 and 255 when the pacing
cursor is zero).  After `samples_generator` both channels report the same
range: the larger of the two measured maxima and the smaller of the two
measured minima.  So the disabled channel reports the range measured over the
enabled sibling's bytes, and the enabled channel its own, when the disabled
channel's measured range lies within the sibling's. -/
theorem disabled_channel_statistics (env : Env) (s : State) (ch0 ch1 : sr_channel)
    (size : Nat) (m : Measure)
    (hmode : s.mode = .ANALOG ∨ s.mode = .DSO)
    (hch : s.channels = [ch0, ch1]) (h0 : ch0.index = 0) (h1 : ch1.index = 1)
    (hc0 : ch0.coupling = SR_AC_COUPLING ∨ ch0.coupling = SR_DC_COUPLING)
    (hc1 : ch1.coupling = SR_AC_COUPLING ∨ ch1.coupling = SR_DC_COUPLING)
    (hdis : ch0.enabled = false ∨ ch1.enabled = false) :
    (samples_generator_measure env s size m).ch0_max =
      max (byte_max (channel_value env s ch0) size (measure_entry s m).ch0_max)
        (byte_max (channel_value env s ch1) size (measure_entry s m).ch1_max) ∧
    (samples_generator_measure env s size m).ch1_max =
      (samples_generator_measure env s size m).ch0_max ∧
    (samples_generator_measure env s size m).ch0_min =
      min (byte_min (channel_value env s ch0) size (measure_entry s m).ch0_min)
        (byte_min (channel_value env s ch1) size (measure_entry s m).ch1_min) ∧
    (samples_generator_measure env s size m).ch1_min =
      (samples_generator_measure env s size m).ch0_min ∧
    (ch1.enabled = false →
      byte_max (channel_value env s ch1) size (measure_entry s m).ch1_max ≤
        byte_max (channel_value env s ch0) size (measure_entry s m).ch0_max →
      byte_min (channel_value env s ch0) size (measure_entry s m).ch0_min ≤
        byte_min (channel_value env s ch1) size (measure_entry s m).ch1_min →
      (samples_generator_measure env s size m).ch1_max =
        byte_max (channel_value env s ch0) size (measure_entry s m).ch0_max ∧
      (samples_generator_measure env s size m).ch1_min =
        byte_min (channel_value env s ch0) size (measure_entry s m).ch0_min ∧
      (samples_generator_measure env s size m).ch0_max =
        byte_max (channel_value env s ch0) size (measure_entry s m).ch0_max ∧
      (samples_generator_measure env s size m).ch0_min =
        byte_min (channel_value env s ch0) size (measure_entry s m).ch0_min) ∧
    (ch0.enabled = false →
      byte_max (channel_value env s ch0) size (measure_entry s m).ch0_max ≤
        byte_max (channel_value env s ch1) size (measure_entry s m).ch1_max →
      byte_min (channel_value env s ch1) size (measure_entry s m).ch1_min ≤
        byte_min (channel_value env s ch0) size (measure_entry s m).ch0_min →
      (samples_generator_measure env s size m).ch0_max =
        byte_max (channel_value env s ch1) size (measure_entry s m).ch1_max ∧
      (samples_generator_measure env s size m).ch0_min =
        byte_min (channel_value env s ch1) size (measure_entry s m).ch1_min ∧
      (samples_generator_measure env s size m).ch1_max =
        byte_max (channel_value env s ch1) size (measure_entry s m).ch1_max ∧
      (samples_generator_measure env s size m).ch1_min =
        byte_min (channel_value env s ch1) size (measure_entry s m).ch1_min) := by
  have hnl : s.mode ≠ .LOGIC := by
    rcases hmode with h | h <;> rw [h] <;> decide
  obtain ⟨p, q, r, t⟩ := disabled_range env s ch0 ch1 size m hnl hch h0 h1
    (fun i => channel_value_lt env s ch0 i hc0) (fun i => channel_value_lt env s ch1 i hc1) hdis
  refine ⟨p, by rw [q, p], r, by rw [t, r], ?_, ?_⟩
  · intro _ hM hN
    rw [p, q, r, t]
    exact ⟨by omega, by omega, by omega, by omega⟩
  · intro _ hM hN
    rw [p, q, r, t]
    exact ⟨by omega, by omega, by omega, by omega⟩

theorem disabled_channel_statistics_witness :
    (dso_skew_state.mode = .ANALOG ∨ dso_skew_state.mode = .DSO) ∧
    dso_skew_state.channels = [analog_ch0, skew_ch1] ∧
    (analog_ch0.enabled = false ∨ skew_ch1.enabled = false) ∧
    (samples_generator_measure ramp_env dso_skew_state 2 {}).ch1_max =
      (samples_generator_measure ramp_env dso_skew_state 2 {}).ch0_max :=
  ⟨Or.inr rfl, rfl, Or.inr rfl,
    (disabled_channel_statistics ramp_env dso_skew_state analog_ch0 skew_ch1 2 {}
      (Or.inr rfl) rfl rfl rfl (Or.inl rfl) (Or.inl rfl) (Or.inr rfl)).2.1⟩

/-! ## An armed tick that finds no match -/

theorem advance_counter_shape (s : State) (n : Nat) :
    advance_counter s n = { s with samples_counter := (advance_counter s n).samples_counter } := by
  unfold advance_counter
  split_ifs <;> rfl

theorem samples_generator_shape (env : Env) (rnd : Nat → Nat) (s : State) (size : Nat) :
    samples_generator env rnd s size =
      { s with buf := (samples_generator env rnd s size).buf } := by
  unfold samples_generator
  split_ifs <;> rfl

/-- A batch whose scan finds no match forwards nothing and leaves the trigger
stage, the cursor and the status snapshot alone; the counter update stays. -/
theorem emit_unmatched (env : Env) (rnd : Nat → Nat) (s : State) (n : Nat)
    (hn : 0 < n) (hstop : s.stop = false) (harm : s.trigger_stage ≠ 0)
    (hmiss : (trigger_scan
      (samples_generator env rnd (advance_counter s (sending_now s n))
        (generator_size (advance_counter s (sending_now s n)) (sending_now s n))).buf
      s.trigger_mask s.trigger_value s.trigger_edge (sending_now s n) 0 s.last_sample).hit
        = false) :
    (emit env rnd s n).2 = [] ∧
    (emit env rnd s n).1.trigger_stage = s.trigger_stage ∧
    (emit env rnd s n).1.pre_index = s.pre_index ∧
    (emit env rnd s n).1.mstatus = s.mstatus ∧
    (emit env rnd s n).1.stop = s.stop ∧
    (emit env rnd s n).1.samples_counter =
      (advance_counter s (sending_now s n)).samples_counter := by
  unfold sending_now at hmiss ⊢
  unfold emit
  rw [if_pos ⟨hn, hstop⟩]
  simp only []
  generalize min n (if s.mode = .DSO then DSO_BUFSIZE else BUFSIZE) = sn at hmiss ⊢
  have hsh := samples_generator_shape env rnd (advance_counter s sn)
    (generator_size (advance_counter s sn) sn)
  rw [advance_counter_shape s sn] at hsh
  generalize hs2 : samples_generator env rnd (advance_counter s sn)
    (generator_size (advance_counter s sn) sn) = s2 at hmiss ⊢
  have hc : (advance_counter s sn).samples_counter = s2.samples_counter := by
    rw [← hs2, (samples_generator_frame _ _ _ _).2.2.1]
  rw [advance_counter_shape s sn] at hs2
  rw [hs2] at hsh
  have e1 : s2.trigger_stage = s.trigger_stage := by rw [hsh]
  have e2 : s2.trigger_mask = s.trigger_mask := by rw [hsh]
  have e3 : s2.trigger_value = s.trigger_value := by rw [hsh]
  have e4 : s2.trigger_edge = s.trigger_edge := by rw [hsh]
  have e5 : s2.last_sample = s.last_sample := by rw [hsh]
  have e6 : s2.pre_index = s.pre_index := by rw [hsh]
  have e7 : s2.mstatus = s.mstatus := by rw [hsh]
  have e8 : s2.stop = s.stop := by rw [hsh]
  rw [hc, ← e1, ← e6, ← e7, ← e8]
  rw [← e2, ← e3, ← e4, ← e5] at hmiss
  rw [← e1] at harm
  have ht : (trigger_phase s2 sn).2 = [] ∧
      (trigger_phase s2 sn).1.trigger_stage = s2.trigger_stage ∧
      (trigger_phase s2 sn).1.pre_index = s2.pre_index ∧
      (trigger_phase s2 sn).1.mstatus = s2.mstatus ∧
      (trigger_phase s2 sn).1.stop = s2.stop ∧
      (trigger_phase s2 sn).1.samples_counter = s2.samples_counter := by
    unfold trigger_phase
    simp only []
    rw [if_pos harm, hmiss]
    simp [harm]
  obtain ⟨t1, t2, t3, t4, t5, t6⟩ := ht
  have hd : data_phase (trigger_phase s2 sn).1 sn = ((trigger_phase s2 sn).1, []) := by
    unfold data_phase
    rw [if_neg (by rw [t2]; exact harm)]
  rw [hd, t1]
  exact ⟨rfl, t2, t3, t4, t5, t6⟩

theorem advance_counter_value (s : State) (sn : Nat) :
    (advance_counter s sn).samples_counter =
      if s.mode = .DSO ∧ s.instant = false then
        if en_ch_num s.channels = 1 then
          min ((s.samples_counter + sn / 2) % U64) (s.limit_samples_show / 2)
        else min ((s.samples_counter + sn) % U64) s.limit_samples_show
      else (s.samples_counter + sn) % U64 := by
  unfold advance_counter
  split_ifs <;> rfl

/-- C27, as stated, fails in oscilloscope mode without the instant flag.  One
channel enabled, 100 Hz, a level trigger armed on a value no word takes: the
tick at 20 ms has `sending_now = 2`, forwards nothing and leaves the trigger
armed, and `samples_counter` goes from 0 to 1, not to 2. -/
theorem armed_tick_counter_not_sending_now :
    dso_armed_state.mode = .DSO ∧ dso_armed_state.instant = false ∧
    en_ch_num dso_armed_state.channels = 1 ∧
    dso_armed_state.trigger_stage = 1 ∧ dso_armed_state.samples_counter = 0 ∧
    sending_now dso_armed_state (exact_env.ceil_samples (20000 - 0) 100 % U64) = 2 ∧
    (receive_data exact_env dso_armed_state { time := 20000 }).packets = [] ∧
    (receive_data exact_env dso_armed_state { time := 20000 }).state.trigger_stage = 1 ∧
    (receive_data exact_env dso_armed_state { time := 20000 }).state.samples_counter = 1 ∧
    ¬ ((receive_data exact_env dso_armed_state { time := 20000 }).state.samples_counter =
        dso_armed_state.samples_counter + 2) := by
  decide

/-- C27, amended.  For every mode, in a tick with a non-zero clamped due count and
the stop flag clear, where `trigger_stage != 0` and no scanned sample matches:
no Trigger packet and no data packet is forwarded, and `trigger_stage`,
`pre_index` and the status snapshot are unchanged, yet `samples_counter` has
received this tick's counter update.  In Logic mode, Analog mode and the
oscilloscope with the instant flag it has advanced by `sending_now` (modulo
2^64); in the oscilloscope without the instant flag it has advanced by
`sending_now`, or by `sending_now / 2` with exactly one channel enabled, and
is then capped at `limit_samples_show`, or at `limit_samples_show / 2`. -/
theorem armed_unmatched_tick (env : Env) (s : State) (tk : Tick) (s1 : State) (n : Nat)
    (hp : pacing { s with starttime := tk.time }
      (env.ceil_samples (tk.time - s.starttime) s.cur_samplerate) = Pacing.due s1 n)
    (hn : 0 < n) (hstop : s.stop = false) (harm : s.trigger_stage ≠ 0)
    (hmiss : (trigger_scan
      (samples_generator env tk.rnd (advance_counter s1 (sending_now s n))
        (generator_size (advance_counter s1 (sending_now s n)) (sending_now s n))).buf
      s.trigger_mask s.trigger_value s.trigger_edge (sending_now s n) 0 s.last_sample).hit
        = false) :
    (∀ p, p ∈ (receive_data env s tk).packets → p.is_trigger = false ∧ p.is_data = false) ∧
    (receive_data env s tk).state.trigger_stage = s.trigger_stage ∧
    (receive_data env s tk).state.pre_index = s.pre_index ∧
    (receive_data env s tk).state.mstatus = s.mstatus ∧
    (¬ (s.mode = .DSO ∧ s.instant = false) →
      (receive_data env s tk).state.samples_counter =
        (s.samples_counter + sending_now s n) % U64) ∧
    (s.mode = .DSO → s.instant = false → en_ch_num s.channels ≠ 1 →
      (receive_data env s tk).state.samples_counter =
        min ((s.samples_counter + sending_now s n) % U64) s.limit_samples_show) ∧
    (s.mode = .DSO → s.instant = false → en_ch_num s.channels = 1 →
      (receive_data env s tk).state.samples_counter =
        min ((s.samples_counter + sending_now s n / 2) % U64) (s.limit_samples_show / 2)) := by
  obtain ⟨k, hk⟩ := (pacing_shape { s with starttime := tk.time }
    (env.ceil_samples (tk.time - s.starttime) s.cur_samplerate)).2 s1 n hp
  have hrd : receive_data env s tk = finish (emit env tk.rnd s1 n) := by
    simp only [receive_data, hp]
  have f1 : s1.stop = s.stop := by rw [hk]
  have f2 : s1.trigger_stage = s.trigger_stage := by rw [hk]
  have f3 : s1.trigger_mask = s.trigger_mask := by rw [hk]
  have f4 : s1.trigger_value = s.trigger_value := by rw [hk]
  have f5 : s1.trigger_edge = s.trigger_edge := by rw [hk]
  have f6 : s1.last_sample = s.last_sample := by rw [hk]
  have f7 : s1.pre_index = s.pre_index := by rw [hk]
  have f8 : s1.mstatus = s.mstatus := by rw [hk]
  have f9 : s1.mode = s.mode := by rw [hk]
  have f10 : s1.instant = s.instant := by rw [hk]
  have f11 : s1.channels = s.channels := by rw [hk]
  have f12 : s1.samples_counter = s.samples_counter := by rw [hk]
  have f13 : s1.limit_samples_show = s.limit_samples_show := by rw [hk]
  have hsn : sending_now s1 n = sending_now s n := by
    unfold sending_now; rw [f9]
  rw [← hsn, ← f3, ← f4, ← f5, ← f6] at hmiss
  obtain ⟨a, b, c, d, e, f⟩ := emit_unmatched env tk.rnd s1 n hn (by rw [f1]; exact hstop)
    (by rw [f2]; exact harm) hmiss
  have hc : (receive_data env s tk).state.samples_counter =
      (advance_counter s1 (sending_now s1 n)).samples_counter := by
    rw [hrd, (finish_frame _).2.2.1, f]
  rw [advance_counter_value, f9, f10, f11, f12, f13, hsn] at hc
  refine ⟨?_, ?_, ?_, ?_, ?_, ?_, ?_⟩
  · intro p hp2
    rw [hrd] at hp2
    rcases finish_packets (emit env tk.rnd s1 n) with h | h
    · rw [h, a] at hp2
      simp at hp2
    · rw [h, a] at hp2
      simp at hp2
      rw [hp2]
      exact ⟨rfl, rfl⟩
  · rw [hrd, (finish_frame _).2.2.2.2.2.1, b, f2]
  · rw [hrd]
    rcases finish_state (emit env tk.rnd s1 n) with h | h
    · rw [h, c, f7]
    · rw [h]
      show (emit env tk.rnd s1 n).1.pre_index = _
      rw [c, f7]
  · rw [hrd]
    rcases finish_state (emit env tk.rnd s1 n) with h | h
    · rw [h, d, f8]
    · rw [h]
      show (emit env tk.rnd s1 n).1.mstatus = _
      rw [d, f8]
  · intro hnd
    rw [hc, if_neg hnd]
  · intro hm hi hen
    rw [hc, if_pos ⟨hm, hi⟩, if_neg hen]
  · intro hm hi hen
    rw [hc, if_pos ⟨hm, hi⟩, if_pos hen]

theorem armed_unmatched_tick_witness :
    dso_armed_state.stop = false ∧ dso_armed_state.trigger_stage ≠ 0 ∧
    (receive_data exact_env dso_armed_state { time := 20000 }).state.samples_counter =
      min ((dso_armed_state.samples_counter + sending_now dso_armed_state 2 / 2) % U64)
        (dso_armed_state.limit_samples_show / 2) :=
  ⟨rfl, by decide,
    (armed_unmatched_tick exact_env dso_armed_state { time := 20000 }
      { dso_armed_state with starttime := 20000 } 2 rfl (by decide) rfl (by decide)
      (by decide)).2.2.2.2.2.2 rfl rfl (by decide)⟩

end Demo
